import Mathlib

/-! # The ber-os workflow engine: a shallow embedding

The definitions follow `internal/agent/workflow.go`, `internal/agent/agent.go`,
`internal/services/memory_store/memory_store.go`, `internal/template/renderer.go`,
`pkg/openai/embeddings.go` and `agents/cloudflare/validators.go`, each under
the name it has in the source.

Conventions of the embedding:

* Go strings are Lean strings (sequences of Unicode code points); on valid
  UTF-8 text the byte-level functions of package `strings` used by the engine
  agree with the code-point-level definitions below.
* A pointer or function value that may be nil is an `Option`; a call that may
  panic returns an `Outcome`.
* Go results `(value, error)` are pairs whose second component is an
  `Option GoError` (`none` is the nil error), so that the value returned next
  to an error is part of the model.
* The memory store is passed explicitly: a function that may write to the
  store behind `input.MemoryStore` returns the store it leaves behind.
* Hooks, validators and actions are user code. They are modelled by what one
  run of them does to its argument (`Run`); the calls made are recorded in
  order (`Call`). What user code does to anything else is outside the model,
  except for the writes of the callbacks of the action path into the stored
  payload that they are handed: these are described on a store that keeps the
  identity of its objects (`SharedStore`, `storeAfterActionWorkflow`).
* The OpenAI service, `encoding/json`, `text/template`, the random source and
  the clock are parameters (`openai.Client`, `Env`); so is the rounding
  arithmetic of `float32` (`Float32Arith`).
* The agent registry is passed explicitly, like the store; the zones that the
  Cloudflare API lists are a parameter of the validators.
* The time a callback takes is a number of nanoseconds (`Timed`), compared
  with the 10 second timer of the functions that run it.
* Logging is left out (the logger is taken to be initialised), except that
  the arguments of a log statement are evaluated.
-/

namespace BerOS

/-! ## Package `unicode` / `strings` (the functions the engine calls) -/

namespace unicode

/-- Go `unicode.IsSpace`: the Latin-1 spaces and the other code points with
the White_Space property. -/
def IsSpace (r : Char) : Bool :=
  let n := r.toNat
  if n ≤ 0xFF then
    n == 0x09 || n == 0x0A || n == 0x0B || n == 0x0C || n == 0x0D || n == 0x20 ||
      n == 0x85 || n == 0xA0
  else
    n == 0x1680 || (0x2000 ≤ n && n ≤ 0x200A) || n == 0x2028 || n == 0x2029 ||
      n == 0x202F || n == 0x205F || n == 0x3000

end unicode

namespace strings

/-- Go `strings.HasPrefix(s, p)`. -/
def HasPrefix (s p : String) : Bool :=
  p.data.isPrefixOf s.data

/-- Go `strings.TrimPrefix(s, p)`: `s` without the leading `p`, or `s` itself
when `s` does not start with `p`. -/
def TrimPrefix (s p : String) : String :=
  if HasPrefix s p then ⟨s.data.drop p.data.length⟩ else s

/-- Go `strings.TrimSpace`: removes leading and trailing white space. -/
def TrimSpace (s : String) : String :=
  ⟨((s.data.dropWhile unicode.IsSpace).reverse.dropWhile unicode.IsSpace).reverse⟩

/-- The scanning loop of `strings.Fields`: `cur` is the field being read (in
reverse), `none` between fields. -/
def fieldsLoop : List Char → Option (List Char) → List String
  | [], none => []
  | [], some cur => [⟨cur.reverse⟩]
  | c :: cs, none =>
      if unicode.IsSpace c then fieldsLoop cs none else fieldsLoop cs (some [c])
  | c :: cs, some cur =>
      if unicode.IsSpace c then ⟨cur.reverse⟩ :: fieldsLoop cs none
      else fieldsLoop cs (some (c :: cur))

/-- Go `strings.Fields`: the maximal runs of non-space code points, in order. -/
def Fields (s : String) : List String :=
  fieldsLoop s.data none

end strings

/-! ## Go values, errors and panics -/

/-- A Go `error` value. Package-level error variables are compared by identity
(their name); `wrapf` is the result of `fmt.Errorf` with one `%w` verb, `msg`
being the whole formatted text. -/
inductive GoError where
  | pkgVar (name : String) (msg : String)
  | new (msg : String)
  | wrapf (msg : String) (inner : GoError)
deriving DecidableEq, Repr

namespace GoError

/-- The `Error()` method. -/
def Error : GoError → String
  | pkgVar _ msg => msg
  | new msg => msg
  | wrapf msg _ => msg

/-- Go `errors.Is(e, target)`: `target` occurs on the unwrap chain of `e`.
Equality of the modelled values stands for identity of the Go values, which
is exact when `target` is a package-level variable. -/
def Is : GoError → GoError → Bool
  | pkgVar n m, target => decide (pkgVar n m = target)
  | new m, target => decide (new m = target)
  | wrapf m inner, target => decide (wrapf m inner = target) || Is inner target

end GoError

/-- How a Go call ends: it returns, or the goroutine panics. -/
inductive Outcome (α : Type) where
  | returns (a : α)
  | panics (msg : String)

/-- A Go map with string keys, as the list of its entries in the order in
which this run iterates over it. -/
abbrev GoMap (α : Type) := List (String × α)

namespace GoMap

/-- The two-result index expression `v, ok := m[k]`. -/
def get {α : Type} (m : GoMap α) (k : String) : Option α :=
  m.lookup k

/-- The assignment `m[k] = v`. -/
def set {α : Type} : GoMap α → String → α → GoMap α
  | [], k, v => [(k, v)]
  | (k0, v0) :: rest, k, v =>
      if k0 = k then (k, v) :: rest else (k0, v0) :: set rest k v

/-- The builtin `delete(m, k)`. -/
def delete {α : Type} (m : GoMap α) (k : String) : GoMap α :=
  m.filter (fun e => e.1 ≠ k)

end GoMap

/-- A value of type `interface{}`: nil, a JSON-like value (what decoding into
`interface{}` produces), or a struct value of a named Go type. -/
inductive Value where
  | null
  | bool (b : Bool)
  | num (n : Int)
  | str (s : String)
  | arr (xs : List Value)
  | obj (entries : List (String × Value))
  | struct (typ : String) (fields : List (String × Value))

/-! ## Package `memory_store` -/

namespace memory_store

/-- The struct `MemoryStore`, as built by `NewMemoryStore` (a non-nil map). -/
structure MemoryStore where
  data : GoMap Value

namespace MemoryStore

/-- Go `(*MemoryStore).Get`, receiver non-nil. -/
def Get (m : MemoryStore) (key : String) : Value × Bool :=
  match m.data.get key with
  | some value => (value, true)
  | none => (Value.null, false)

/-- Go `(*MemoryStore).Set`, receiver non-nil. -/
def Set (m : MemoryStore) (key : String) (value : Value) : MemoryStore :=
  { data := m.data.set key value }

/-- Go `(*MemoryStore).Delete`, receiver non-nil. -/
def Delete (m : MemoryStore) (key : String) : MemoryStore :=
  { data := m.data.delete key }

/-- Go `(*MemoryStore).Len`, receiver non-nil. -/
def Len (m : MemoryStore) : Nat :=
  m.data.length

/-- Go `(*MemoryStore).GetAllData` on a receiver that may be nil: the body
reads `m.data`, which dereferences the receiver. -/
def GetAllData : Option MemoryStore → Outcome (GoMap Value)
  | none => Outcome.panics "runtime error: invalid memory address or nil pointer dereference"
  | some m => Outcome.returns m.data

end MemoryStore

end memory_store

/-! ## `float32`

A `float32` is NaN, an infinity, or a finite number (a rational; both zeros
are `fin 0`). Comparisons are exact on this representation. The rounding
arithmetic is a parameter (`Float32Arith`), so that what is proved about the
code holds for IEEE 754 arithmetic in particular. -/

/-- The values of Go's `float32`. -/
inductive Float32 where
  | nan
  | negInf
  | fin (q : ℚ)
  | posInf
deriving DecidableEq

namespace Float32

/-- The Go comparison `x > y` on `float32`: false as soon as one side is NaN. -/
def gt : Float32 → Float32 → Bool
  | nan, _ => false
  | _, nan => false
  | posInf, posInf => false
  | posInf, _ => true
  | fin _, posInf => false
  | fin a, fin b => decide (b < a)
  | fin _, negInf => true
  | negInf, _ => false

/-- The Go comparison `x == y` on `float32`: NaN differs from everything. -/
def eq : Float32 → Float32 → Bool
  | nan, _ => false
  | _, nan => false
  | x, y => decide (x = y)

/-- The zero value of `float32`. -/
def zero : Float32 := fin 0

end Float32

/-- The rounding operations of `float32` that the engine uses: `+`, `*`, `/`
and `float32(math.Sqrt(float64(x)))`. -/
structure Float32Arith where
  add : Float32 → Float32 → Float32
  mul : Float32 → Float32 → Float32
  div : Float32 → Float32 → Float32
  sqrt : Float32 → Float32

/-! ## IEEE 754 arithmetic, round to nearest even

The instance of `Float32Arith` that Go's `float32` operations implement, as far
as the representation goes: the two zeros are one value, so a division by zero
takes the divisor to be `+0`. -/

namespace ieee

/-- The power of two with an integer exponent. -/
def pow2 (e : Int) : ℚ :=
  if 0 ≤ e then (2 : ℚ) ^ e.toNat else 1 / (2 : ℚ) ^ (-e).toNat

/-- The position of the leading bit of `n` (0 for `n < 2`), by halving; the
first argument bounds the number of steps. -/
def leadingBit : Nat → Nat → Nat
  | 0, _ => 0
  | fuel + 1, n => if n < 2 then 0 else leadingBit fuel (n / 2) + 1

/-- The exponent of a positive rational: the `e` with `2^e ≤ q < 2^(e+1)`. -/
def exponent (q : ℚ) : Int :=
  let e0 : Int := (leadingBit q.num.natAbs q.num.natAbs : Int) - (leadingBit q.den q.den : Int)
  if pow2 e0 ≤ q then e0 else e0 - 1

/-- Rounding to the nearest integer, ties to the even one. -/
def nearestEven (x : ℚ) : Int :=
  let f := x.floor
  if x - f < 1 / 2 then f
  else if 1 / 2 < x - f then f + 1
  else if f % 2 = 0 then f else f + 1

/-- Rounding of a rational to the binary format with `prec` significant bits
and exponents from `emin` to `emax` (subnormal numbers below `2^emin`,
infinity from `2^(emax+1)` on). -/
def roundTo (prec : Nat) (emin emax : Int) (q : ℚ) : Float32 :=
  if q = 0 then Float32.fin 0
  else
    let e := max (exponent |q|) emin
    let ulp := pow2 (e - (prec - 1 : Nat))
    let v := (nearestEven (q / ulp) : ℚ) * ulp
    if pow2 (emax + 1) ≤ |v| then (if 0 < q then Float32.posInf else Float32.negInf)
    else Float32.fin v

/-- Rounding to `float32` (binary32). -/
def round32 (q : ℚ) : Float32 := roundTo 24 (-126) 127 q

/-- Rounding to `float64` (binary64); the result is held in the same carrier. -/
def round64 (q : ℚ) : Float32 := roundTo 53 (-1022) 1023 q

/-- The bits of the integer square root, from bit `i - 1` downwards. -/
def isqrtLoop (n : Nat) : Nat → Nat → Nat
  | 0, r => r
  | i + 1, r => isqrtLoop n i (if (r + 2 ^ i) * (r + 2 ^ i) ≤ n then r + 2 ^ i else r)

/-- The integer square root of a number below `2^132`. -/
def isqrt (n : Nat) : Nat := isqrtLoop n 66 0

/-- Go `math.Sqrt` on a positive number: the square root rounded to `float64`.
The argument is scaled by a power of four into `[2^128, 2^130)`; when the root
is not exact, every number between two consecutive integers rounds like their
midpoint. -/
def sqrt64 (q : ℚ) : Float32 :=
  let k : Int := 64 - (exponent q) / 2
  let scaled : ℚ := q * pow2 (2 * k)
  let s := isqrt scaled.floor.toNat
  if ((s * s : Nat) : ℚ) = scaled then round64 ((s : ℚ) / pow2 k)
  else round64 ((2 * s + 1 : Nat) / pow2 (k + 1))

/-- The `float32` operations of Go. -/
def arith : Float32Arith where
  add := fun x y =>
    match x, y with
    | Float32.nan, _ => Float32.nan
    | _, Float32.nan => Float32.nan
    | Float32.posInf, Float32.negInf => Float32.nan
    | Float32.negInf, Float32.posInf => Float32.nan
    | Float32.posInf, _ => Float32.posInf
    | _, Float32.posInf => Float32.posInf
    | Float32.negInf, _ => Float32.negInf
    | _, Float32.negInf => Float32.negInf
    | Float32.fin a, Float32.fin b => round32 (a + b)
  mul := fun x y =>
    match x, y with
    | Float32.nan, _ => Float32.nan
    | _, Float32.nan => Float32.nan
    | Float32.posInf, Float32.posInf => Float32.posInf
    | Float32.posInf, Float32.negInf => Float32.negInf
    | Float32.negInf, Float32.posInf => Float32.negInf
    | Float32.negInf, Float32.negInf => Float32.posInf
    | Float32.posInf, Float32.fin b =>
        if b = 0 then Float32.nan else if 0 < b then Float32.posInf else Float32.negInf
    | Float32.negInf, Float32.fin b =>
        if b = 0 then Float32.nan else if 0 < b then Float32.negInf else Float32.posInf
    | Float32.fin a, Float32.posInf =>
        if a = 0 then Float32.nan else if 0 < a then Float32.posInf else Float32.negInf
    | Float32.fin a, Float32.negInf =>
        if a = 0 then Float32.nan else if 0 < a then Float32.negInf else Float32.posInf
    | Float32.fin a, Float32.fin b => round32 (a * b)
  div := fun x y =>
    match x, y with
    | Float32.nan, _ => Float32.nan
    | _, Float32.nan => Float32.nan
    | Float32.posInf, Float32.fin b => if b < 0 then Float32.negInf else Float32.posInf
    | Float32.negInf, Float32.fin b => if b < 0 then Float32.posInf else Float32.negInf
    | Float32.fin _, Float32.posInf => Float32.fin 0
    | Float32.fin _, Float32.negInf => Float32.fin 0
    | Float32.fin a, Float32.fin b =>
        if b = 0 then
          (if a = 0 then Float32.nan else if 0 < a then Float32.posInf else Float32.negInf)
        else round32 (a / b)
    | _, _ => Float32.nan
  sqrt := fun x =>
    match x with
    | Float32.fin a =>
        if a < 0 then Float32.nan
        else if a = 0 then Float32.fin 0
        else
          match sqrt64 a with
          | Float32.fin s => round32 s
          | other => other
    | Float32.posInf => Float32.posInf
    | _ => Float32.nan

end ieee

/-! ## Package `openai` -/

namespace openai

/-- Go `ChatMessage`; the role is one of "system", "user", "assistant". -/
structure ChatMessage where
  Role : String
  Content : String
deriving DecidableEq, Repr

/-- Go constant `RoleSystem`. -/
def RoleSystem : String := "system"

/-- Go `*Client`, non-nil. The remote service is a parameter: the two fields
are what `QueryWithSchema(ctx, client, messages, schema)` and
`client.GetEmbedding(ctx, text)` return for it. A run in which
`QueryWithSchema` does not return but panics (it reads `chat.Choices[0]`
without a test for an empty list) is not described. -/
structure Client where
  QueryWithSchema : List ChatMessage → Value → Except GoError Value
  GetEmbedding : String → Except GoError (List Float32)

/-- The loop of `CosineSimilarity`, run on vectors of equal length: the
accumulators are `dotProduct`, `normA`, `normB`. -/
def cosineLoop (ar : Float32Arith) :
    List Float32 → List Float32 → Float32 × Float32 × Float32 → Float32 × Float32 × Float32
  | x :: xs, y :: ys, (dotProduct, normA, normB) =>
      cosineLoop ar xs ys
        (ar.add dotProduct (ar.mul x y), ar.add normA (ar.mul x x), ar.add normB (ar.mul y y))
  | _, _, acc => acc

/-- Go `CosineSimilarity(a, b)`. -/
def CosineSimilarity (ar : Float32Arith) (a b : List Float32) : Float32 × Option GoError :=
  if a.length ≠ b.length then
    (Float32.zero, some (GoError.new
      ("[PKG-EMD] Vectors must have same length, got " ++ toString a.length ++ " and " ++
        toString b.length)))
  else
    match cosineLoop ar a b (Float32.zero, Float32.zero, Float32.zero) with
    | (dotProduct, normA, normB) =>
      if Float32.eq normA Float32.zero || Float32.eq normB Float32.zero then
        (Float32.zero, some (GoError.new "[PKG-EMD] Vector norm cannot be zero"))
      else
        (ar.div dotProduct (ar.mul (ar.sqrt normA) (ar.sqrt normB)), none)

end openai

/-! ## The libraries and the operating system, as parameters -/

/-- What the Go libraries and the operating system answer during one run:
`crypto/rand.Read` on 8 bytes (the bytes, or failure), `time.Now().UnixNano()`,
`encoding/json` and `text/template`. `jsonUnmarshalMap` decodes into a nil
`map[string]interface{}` variable: `none` means that the variable is still nil
afterwards (the JSON text was `null`). -/
structure Env where
  randRead : Option (Fin 8 → Fin 256)
  nowUnixNano : Int
  jsonMarshal : Value → Except GoError String
  jsonUnmarshalAny : String → Value × Option GoError
  jsonUnmarshalMap : String → Except GoError (Option (GoMap Value))
  templateParse : String → Option GoError
  templateExecute : String → GoMap Value → Except GoError String

namespace hex

/-- One lowercase hexadecimal digit. -/
def digit (n : Nat) : Char :=
  "0123456789abcdef".data.getD (n % 16) '0'

/-- Go `hex.EncodeToString` on a slice of bytes. -/
def EncodeToString (src : List Nat) : String :=
  ⟨src.flatMap (fun b => [digit (b / 16), digit b])⟩

end hex

/-! ## Package `template` -/

namespace template

/-- Go `(*Renderer).RenderAgentTemplate(tpl, response)`. A template executes on
a nil map as on an empty one. -/
def RenderAgentTemplate (E : Env) (tpl : String) (response : Value) : String × Option GoError :=
  match E.jsonMarshal response with
  | .error err =>
      ("", some (GoError.wrapf ("[INT-TPL] Failed to marshal response: " ++ err.Error) err))
  | .ok jsonData =>
    match E.jsonUnmarshalMap jsonData with
    | .error err =>
        ("", some (GoError.wrapf ("[INT-TPL] Failed to unmarshal response: " ++ err.Error) err))
    | .ok templateData =>
      match E.templateParse tpl with
      | some err =>
          ("", some (GoError.wrapf ("[INT-TPL] Failed to parse template: " ++ err.Error) err))
      | none =>
        match E.templateExecute tpl (templateData.getD []) with
        | .error err =>
            ("", some (GoError.wrapf ("[INT-TPL] Failed to execute template: " ++ err.Error) err))
        | .ok out => (out, none)

end template

/-! ## Package `agent` -/

namespace agent

open memory_store (MemoryStore)

/-- What running a user callback (hook, validator, action) does: it returns
an error value (possibly nil) leaving `out` behind the data pointer, it
panics with a value printed as `r`, or it is still running at the deadline. -/
inductive Run (α : Type) where
  | returned (err : Option GoError) (out : α)
  | panicked (r : String)
  | blocked

/-- A `func(context.Context, *interface{}) error`, as a function of the value
behind the pointer. -/
abbrev HookFunc := Value → Run Value

/-- A `func(context.Context, interface{}) error`. -/
abbrev AnyFunc := Value → Run Unit

/-- Go `Hooks[any]`; `none` is a nil function. -/
structure Hooks where
  PreLLMRequest : Option HookFunc
  PostLLMRequest : Option HookFunc
  PreValidate : Option HookFunc
  PostValidate : Option HookFunc
  PreAction : Option HookFunc
  PostAction : Option HookFunc

/-- A non-nil value of the interface `BaseSkill`: what its methods return. -/
structure BaseSkill where
  GetName : String
  GetTag : String
  GetDescription : String
  GetPrompt : String
  GetTemplate : String
  GetSchema : Value
  GetHooks : Hooks
  GetActions : GoMap AnyFunc
  GetValidators : GoMap AnyFunc

/-- Go `BERAgent`. -/
structure BERAgent where
  Name : String
  Tag : String
  Description : String
  Skills : List BaseSkill

/-- Go `WorkflowResult`. -/
structure WorkflowResult where
  Response : String
  Error : Option GoError

/-- Go `WorkflowInput`; `none` is a nil pointer or a nil function. A skill
matcher returns a skill or an error. -/
structure WorkflowInput where
  Message : String
  Agent : Option BERAgent
  ChatHistory : List openai.ChatMessage
  LLMClient : Option openai.Client
  SkillMatcher : Option (String → Option BERAgent → Except GoError BaseSkill)
  IsAction : Bool
  MemoryStore : Option MemoryStore
  WorkflowId : String

/-- Go `DefaultErrorTemplate`. -/
def DefaultErrorTemplate : String :=
  "\x7b\x7bif not .success\x7d\x7d## ❌ Error:\n\n\x7b\x7b.error\x7d\x7d\n\nTry rephrasing your request 🔄 \x7b\x7bend\x7d\x7d"

/-- Go `ErrInvalidInput`. -/
def ErrInvalidInput : GoError := GoError.pkgVar "ErrInvalidInput" "invalid workflow input"
/-- Go `ErrSkillNotFound`. -/
def ErrSkillNotFound : GoError := GoError.pkgVar "ErrSkillNotFound" "no suitable skill found"
/-- Go `ErrLLMFailure`. -/
def ErrLLMFailure : GoError := GoError.pkgVar "ErrLLMFailure" "LLM request failed"
/-- Go `ErrTemplateFailure`. -/
def ErrTemplateFailure : GoError := GoError.pkgVar "ErrTemplateFailure" "template rendering failed"

/-- The collaborator calls an execution makes, in order. -/
inductive Call where
  | skillMatcher (message : String)
  | queryWithSchema (messages : List openai.ChatMessage) (schema : Value)
  | hook (name : String) (data : Value)
  | validator (name : String) (data : Value)
  | action (name : String) (data : Value)

/-- Go `generateRandomString`. -/
def generateRandomString (E : Env) : String :=
  match E.randRead with
  | none => hex.EncodeToString ((toString E.nowUnixNano).data.map Char.toNat)
  | some randomBytes => hex.EncodeToString ((List.ofFn randomBytes).map Fin.val)

/-- Go `IsAction`: `strings.HasPrefix(message, "@ber approve")`. -/
def IsAction (message : String) : Bool :=
  strings.HasPrefix message "@ber approve"

/-- Go `validateWorkflowInput`; `none` is the nil error. -/
def validateWorkflowInput (input : WorkflowInput) : Option GoError :=
  if input.Agent.isNone then some (GoError.new "agent is required")
  else if input.LLMClient.isNone then some (GoError.new "LLM client is required")
  else if input.SkillMatcher.isNone then some (GoError.new "skill matcher is required")
  else if input.Message = "" then some (GoError.new "message is required")
  else if input.MemoryStore.isNone then some (GoError.new "memory store is required")
  else none

/-- Go `GetActionDetailsFromMessage`. The first match is the test
`len(parts) < 2`: it succeeds exactly when `parts[0]` and `parts[1]` exist. -/
def GetActionDetailsFromMessage (message : String) (memoryStore : Option MemoryStore) :
    String × Value × Option GoError :=
  let message := strings.TrimSpace (strings.TrimPrefix message "@ber ")
  let parts := strings.Fields message
  match parts with
  | requestedAction :: workflowId :: _ =>
    match memoryStore with
    | none => ("", Value.null, some (GoError.new "no memory store provided"))
    | some store =>
      match store.Get (requestedAction ++ "-" ++ workflowId) with
      | (value, true) => (requestedAction, value, none)
      | (_, false) =>
          ("", Value.null, some (GoError.new "no matching key found for action and random"))
  | _ => ("", Value.null, some (GoError.new "not enough parts in message, expected at least 2"))

/-- Go `executeHook`: the hook runs in its own goroutine, a panic is recovered
into an error and a 10 second timer bounds the wait. The second component is
the value behind `data` afterwards (not tracked when the hook panics or
is abandoned). -/
def executeHook (hook : HookFunc) (data : Value) : Option GoError × Value :=
  match hook data with
  | Run.returned err out => (err, out)
  | Run.panicked r => (some (GoError.new ("hook panicked: " ++ r)), data)
  | Run.blocked => (some (GoError.new "hook timed out"), data)

/-- Go `executeValidator`. -/
def executeValidator (validator : AnyFunc) (data : Value) : Option GoError :=
  match validator data with
  | Run.returned err _ => err
  | Run.panicked r => some (GoError.new ("validator panicked: " ++ r))
  | Run.blocked => some (GoError.new "validator timed out")

/-- Go `executeAction`. -/
def executeAction (action : AnyFunc) (data : Value) : Option GoError :=
  match action data with
  | Run.returned err _ => err
  | Run.panicked r => some (GoError.new ("action panicked: " ++ r))
  | Run.blocked => some (GoError.new "action timed out")

/-- A Go type `T` as `ConvertToSchema[T]` and its callers see it: its zero
value, the type assertion `data.(T)`, `json.Unmarshal(jsonData, &result)` on a
zero `result` (the value left in `result`, and the error), and the conversion
of a `T` to `interface{}` (as in `*a = t`). -/
structure GoType (T : Type) where
  zero : T
  assert : Value → Option T
  unmarshal : String → T × Option GoError
  box : T → Value

/-- Go `ConvertToSchema[T]`. -/
def ConvertToSchema {T : Type} (E : Env) (ty : GoType T) (data : Value) : T × Option GoError :=
  match ty.assert data with
  | some typed => (typed, none)
  | none =>
    match E.jsonMarshal data with
    | .error err => (ty.zero, some (GoError.wrapf ("failed to marshal data: " ++ err.Error) err))
    | .ok jsonData =>
      match ty.unmarshal jsonData with
      | (result, some err) =>
          (result, some (GoError.wrapf ("failed to unmarshal data: " ++ err.Error) err))
      | (result, none) => (result, none)

/-- The type `any`: the assertion `data.(any)` holds for every non-nil
interface value. -/
def anyType (E : Env) : GoType Value where
  zero := Value.null
  assert := fun data =>
    match data with
    | Value.null => none
    | v => some v
  unmarshal := E.jsonUnmarshalAny
  box := fun v => v

/-- A named struct type such as `DNSRecordSchema`, a value being the list of
its fields: the assertion `data.(T)` holds exactly for the struct values of
that type. -/
def namedStructType (typ : String)
    (unmarshal : String → List (String × Value) × Option GoError) :
    GoType (List (String × Value)) where
  zero := []
  assert := fun data =>
    match data with
    | Value.struct typ1 fields => if typ1 = typ then some fields else none
    | _ => none
  unmarshal := unmarshal
  box := fun fields => Value.struct typ fields

/-- A `func(context.Context, *T) error`, as a function of the value behind
the pointer: what one run does, and the value it leaves there. -/
abbrev TypedFunc (T : Type) := T → Run T

/-- Go `Hooks[T]` for a payload type `T`; `none` is a nil function. -/
structure HooksT (T : Type) where
  PreLLMRequest : Option (TypedFunc T)
  PostLLMRequest : Option (TypedFunc T)
  PreValidate : Option (TypedFunc T)
  PostValidate : Option (TypedFunc T)
  PreAction : Option (TypedFunc T)
  PostAction : Option (TypedFunc T)

/-- Go `Skill[T]`; a nil function in a map is `none`. -/
structure Skill (T : Type) where
  Name : String
  Tag : String
  Description : String
  Prompt : String
  Template : String
  LLMSchema : T
  Actions : GoMap (Option (TypedFunc T))
  Validators : GoMap (Option (TypedFunc T))
  Hooks : HooksT T

/-- Go `convertFunc`. The engine passes the payload itself, never a `*any`, so
the unwrapping of a pointer argument does not arise; what `f` writes into its
copy `t` is dropped. -/
def convertFunc {T : Type} (E : Env) (ty : GoType T) (f : Option (TypedFunc T)) : AnyFunc :=
  fun a =>
    match ConvertToSchema E ty a with
    | (_, some err) =>
        Run.returned (some (GoError.wrapf ("failed to convert type: " ++ err.Error) err)) ()
    | (t, none) =>
      match f with
      | none => Run.panicked "runtime error: invalid memory address or nil pointer dereference"
      | some f =>
        match f t with
        | Run.returned err _ => Run.returned err ()
        | Run.panicked r => Run.panicked r
        | Run.blocked => Run.blocked

/-- Go `convertHookToAny`: nil for a nil hook; otherwise the hook runs on the
conversion of `*a` and, when it returns no error, `*a` becomes its result. -/
def convertHookToAny {T : Type} (E : Env) (ty : GoType T) (f : Option (TypedFunc T)) :
    Option HookFunc :=
  match f with
  | none => none
  | some f =>
    some (fun a =>
      match ConvertToSchema E ty a with
      | (_, some err) =>
          Run.returned (some (GoError.wrapf ("failed to convert type: " ++ err.Error) err)) a
      | (t, none) =>
        match f t with
        | Run.returned (some err) _ => Run.returned (some err) a
        | Run.returned none t1 => Run.returned none (ty.box t1)
        | Run.panicked r => Run.panicked r
        | Run.blocked => Run.blocked)

namespace Skill

/-- Go `Skill[T].GetHooks`. -/
def GetHooks {T : Type} (E : Env) (ty : GoType T) (s : Skill T) : agent.Hooks where
  PreLLMRequest := convertHookToAny E ty s.Hooks.PreLLMRequest
  PostLLMRequest := convertHookToAny E ty s.Hooks.PostLLMRequest
  PreValidate := convertHookToAny E ty s.Hooks.PreValidate
  PostValidate := convertHookToAny E ty s.Hooks.PostValidate
  PreAction := convertHookToAny E ty s.Hooks.PreAction
  PostAction := convertHookToAny E ty s.Hooks.PostAction

/-- Go `Skill[T].GetActions`. -/
def GetActions {T : Type} (E : Env) (ty : GoType T) (s : Skill T) : GoMap AnyFunc :=
  s.Actions.foldl (fun actions e => actions.set e.1 (convertFunc E ty e.2)) []

/-- Go `Skill[T].GetValidators`. -/
def GetValidators {T : Type} (E : Env) (ty : GoType T) (s : Skill T) : GoMap AnyFunc :=
  s.Validators.foldl (fun validators e => validators.set e.1 (convertFunc E ty e.2)) []

/-- The `BaseSkill` that a `Skill[T]` value is: its methods. -/
def toBaseSkill {T : Type} (E : Env) (ty : GoType T) (s : Skill T) : BaseSkill where
  GetName := s.Name
  GetTag := s.Tag
  GetDescription := s.Description
  GetPrompt := s.Prompt
  GetTemplate := s.Template
  GetSchema := ty.box s.LLMSchema
  GetHooks := GetHooks E ty s
  GetActions := GetActions E ty s
  GetValidators := GetValidators E ty s

end Skill

/-- The loop `for actionName := range skill.GetActions()` of
`executeLLMWorkflow`, storing the response once per action name. -/
def storeResponse (store : MemoryStore) (actions : GoMap AnyFunc) (workflowId : String)
    (typedResponse : Value) : MemoryStore :=
  actions.foldl (fun st e => st.Set (e.1 ++ "-" ++ workflowId) typedResponse) store

/-- The loop over the three hooks of `executeLLMWorkflow`: the error (if a
hook failed), the response, and the hook calls made. -/
def runHooks : List (String × Option HookFunc) → Value → Option GoError × Value × List Call
  | [], typedResponse => (none, typedResponse, [])
  | (_, none) :: hs, typedResponse => runHooks hs typedResponse
  | (name, some hook) :: hs, typedResponse =>
    match executeHook hook typedResponse with
    | (some err, _) =>
        (some (GoError.wrapf (name ++ " hook failed: " ++ err.Error) err), typedResponse,
          [Call.hook name typedResponse])
    | (none, responseInterface) =>
      match runHooks hs responseInterface with
      | (err, out, calls) => (err, out, Call.hook name typedResponse :: calls)

/-- The loop `for name, validator := range skill.GetValidators()` of
`executeLLMWorkflow`. -/
def runValidators : GoMap AnyFunc → Value → Option GoError × List Call
  | [], _ => (none, [])
  | (name, validator) :: vs, typedResponse =>
    match executeValidator validator typedResponse with
    | some err =>
        (some (GoError.wrapf ("Validator " ++ name ++ " failed:\n " ++ err.Error) err),
          [Call.validator name typedResponse])
    | none =>
      match runValidators vs typedResponse with
      | (err, calls) => (err, Call.validator name typedResponse :: calls)

/-- The results of a call together with what it leaves behind: the store that
`input.MemoryStore` points to, as the statements of the engine leave it, and
the collaborator calls made. -/
structure Effect (α : Type) where
  result : α
  store : Option MemoryStore
  calls : List Call

/-- Go `executeActionWorkflow`: the returned pair and the calls made. The
statements of the function never write to the store; what the hooks and the
action write into the stored payload that they are handed is described by
`storeAfterActionWorkflow`. -/
def executeActionWorkflow (E : Env) (skill : BaseSkill) (input : WorkflowInput) :
    (Value × Option GoError) × List Call :=
  match GetActionDetailsFromMessage input.Message input.MemoryStore with
  | (_, _, some err) => ((Value.null, some err), [])
  | (actionName, payload, none) =>
    match ConvertToSchema E (anyType E) payload with
    | (_, some err) =>
        ((Value.null, some (GoError.wrapf ("failed to convert payload: " ++ err.Error) err)), [])
    | (typedResponse, none) =>
      -- Run pre-action hook
      let pre : Option GoError × Value × List Call :=
        match skill.GetHooks.PreAction with
        | none => (none, typedResponse, [])
        | some hook =>
          match executeHook hook typedResponse with
          | (some err, _) =>
              (some (GoError.wrapf ("pre-action hook failed: " ++ err.Error) err), typedResponse,
                [Call.hook "PreAction" typedResponse])
          | (none, responseInterface) =>
              (none, responseInterface, [Call.hook "PreAction" typedResponse])
      match pre with
      | (some err, _, calls) => ((Value.null, some err), calls)
      | (none, typedResponse, calls) =>
        -- Execute action
        match skill.GetActions.get actionName with
        | none => ((Value.null, some (GoError.new ("action " ++ actionName ++ " not found"))), calls)
        | some action =>
          match executeAction action typedResponse with
          | some err =>
              ((Value.null,
                some (GoError.wrapf ("action " ++ actionName ++ " failed: " ++ err.Error) err)),
                calls ++ [Call.action actionName typedResponse])
          | none =>
            -- Run post-action hook
            match skill.GetHooks.PostAction with
            | none => ((typedResponse, none), calls ++ [Call.action actionName typedResponse])
            | some hook =>
              match executeHook hook typedResponse with
              | (some err, _) =>
                  ((Value.null,
                    some (GoError.wrapf ("post-action hook failed: " ++ err.Error) err)),
                    calls ++ [Call.action actionName typedResponse,
                      Call.hook "PostAction" typedResponse])
              | (none, out) =>
                  ((out, none),
                    calls ++ [Call.action actionName typedResponse,
                      Call.hook "PostAction" typedResponse])

/-- Go `executeLLMWorkflow`. A nil `input.LLMClient` is dereferenced inside
`QueryWithSchema`. -/
def executeLLMWorkflow (E : Env) (skill : BaseSkill) (input : WorkflowInput) :
    Outcome (Effect (Value × Option GoError)) :=
  let messages : List openai.ChatMessage :=
    { Role := openai.RoleSystem, Content := skill.GetPrompt } :: input.ChatHistory
  let schema := skill.GetSchema
  match input.LLMClient with
  | none => Outcome.panics "runtime error: invalid memory address or nil pointer dereference"
  | some client =>
    let queried := [Call.queryWithSchema messages schema]
    match client.QueryWithSchema messages schema with
    | .error err =>
        Outcome.returns
          { result := (Value.null,
              some (GoError.wrapf (ErrLLMFailure.Error ++ ": " ++ err.Error) ErrLLMFailure)),
            store := input.MemoryStore, calls := queried }
    | .ok response =>
      match ConvertToSchema E (anyType E) response with
      | (_, some err) =>
          Outcome.returns
            { result := (Value.null,
                some (GoError.wrapf ("failed to convert response: " ++ err.Error) err)),
              store := input.MemoryStore, calls := queried }
      | (typedResponse, none) =>
        -- Execute hooks in sequence
        match runHooks [("PostLLMRequest", skill.GetHooks.PostLLMRequest),
            ("PreValidate", skill.GetHooks.PreValidate),
            ("PostValidate", skill.GetHooks.PostValidate)] typedResponse with
        | (some err, _, hookCalls) =>
            Outcome.returns
              { result := (Value.null, some err), store := input.MemoryStore,
                calls := queried ++ hookCalls }
        | (none, typedResponse, hookCalls) =>
          -- Run validators
          match runValidators skill.GetValidators typedResponse with
          | (some err, validatorCalls) =>
              Outcome.returns
                { result := (Value.null, some err), store := input.MemoryStore,
                  calls := queried ++ hookCalls ++ validatorCalls }
          | (none, validatorCalls) =>
            -- Store response if actions exist
            let store : Option MemoryStore :=
              match input.MemoryStore with
              | none => none
              | some st =>
                if skill.GetActions.length > 0 then
                  some (storeResponse st skill.GetActions input.WorkflowId typedResponse)
                else some st
            Outcome.returns
              { result := (typedResponse, none), store := store,
                calls := queried ++ hookCalls ++ validatorCalls }

/-- The body of the loop of `DefaultSkillMatcher` over `agent.Skills`, with
the variables `bestSkill` and `highestSimilarity`. -/
def matchLoop (ar : Float32Arith) (client : openai.Client) (userEmbedding : List Float32) :
    List BaseSkill → Option BaseSkill × Float32 → Option BaseSkill × Float32
  | [], acc => acc
  | skill :: rest, (bestSkill, highestSimilarity) =>
    match client.GetEmbedding skill.GetPrompt with
    | .error _ => matchLoop ar client userEmbedding rest (bestSkill, highestSimilarity)
    | .ok skillEmbedding =>
      match openai.CosineSimilarity ar userEmbedding skillEmbedding with
      | (_, some _) => matchLoop ar client userEmbedding rest (bestSkill, highestSimilarity)
      | (similarity, none) =>
        if similarity.gt highestSimilarity then
          matchLoop ar client userEmbedding rest (some skill, similarity)
        else matchLoop ar client userEmbedding rest (bestSkill, highestSimilarity)

/-- Go `DefaultSkillMatcher`, on a non-nil agent and a non-nil client. -/
def DefaultSkillMatcher (ar : Float32Arith) (message : String) (agent : BERAgent)
    (client : openai.Client) : Option BaseSkill × Option GoError :=
  match client.GetEmbedding message with
  | .error err => (none, some err)
  | .ok userEmbedding =>
    match (matchLoop ar client userEmbedding agent.Skills (none, Float32.zero)).1 with
    | none => (none, some (GoError.new "no suitable skill found"))
    | some bestSkill => (some bestSkill, none)

/-- Go `workflowProcessResult`; `baseSkill = none` is the nil interface. -/
structure workflowProcessResult where
  templateData : Value
  templateToUse : String
  baseSkill : Option BaseSkill
  executionError : Option GoError

/-- The result that `processWorkflow` builds on each of its three failure
exits, from the execution error. -/
def failureResult (executionError : GoError) : workflowProcessResult :=
  { templateData := Value.obj [("error", Value.str executionError.Error),
      ("success", Value.bool false)],
    templateToUse := DefaultErrorTemplate,
    baseSkill := none,
    executionError := some executionError }

/-- Go `processWorkflow`. Calling a nil `input.SkillMatcher` would panic. -/
def processWorkflow (E : Env) (input : WorkflowInput) : Outcome (Effect workflowProcessResult) :=
  -- Validate input parameters
  match validateWorkflowInput input with
  | some err =>
      Outcome.returns
        { result := failureResult
            (GoError.wrapf (ErrInvalidInput.Error ++ ": " ++ err.Error) ErrInvalidInput),
          store := input.MemoryStore, calls := [] }
  | none =>
    -- Match skill to user message
    match input.SkillMatcher with
    | none => Outcome.panics "runtime error: invalid memory address or nil pointer dereference"
    | some skillMatcher =>
      match skillMatcher input.Message input.Agent with
      | .error skillErr =>
          Outcome.returns
            { result := failureResult
                (GoError.wrapf (ErrSkillNotFound.Error ++ ": " ++ skillErr.Error) ErrSkillNotFound),
              store := input.MemoryStore, calls := [Call.skillMatcher input.Message] }
      | .ok baseSkill =>
        -- Execute workflow based on type
        let executed : Outcome (Effect (Value × Option GoError)) :=
          if input.IsAction then
            match executeActionWorkflow E baseSkill input with
            | (r, calls) => Outcome.returns { result := r, store := input.MemoryStore, calls := calls }
          else executeLLMWorkflow E baseSkill input
        match executed with
        | Outcome.panics msg => Outcome.panics msg
        | Outcome.returns eff =>
          match eff.result with
          | (_, some execErr) =>
              Outcome.returns
                { result := failureResult execErr, store := eff.store,
                  calls := Call.skillMatcher input.Message :: eff.calls }
          | (templateData, none) =>
            -- Handle successful execution
            if input.IsAction then
              Outcome.returns
                { result :=
                    { templateData := Value.obj [("success", Value.bool true),
                        ("message", Value.str "✅ Action executed successfully")],
                      templateToUse :=
                        "\x7b\x7bif .success\x7d\x7d\x7b\x7b.message\x7d\x7d\x7b\x7belse\x7d\x7d\x7b\x7b.error\x7d\x7d\x7b\x7bend\x7d\x7d",
                      baseSkill := some baseSkill,
                      executionError := none },
                  store := eff.store, calls := Call.skillMatcher input.Message :: eff.calls }
            else
              Outcome.returns
                { result :=
                    { templateData := templateData,
                      templateToUse := baseSkill.GetTemplate,
                      baseSkill := some baseSkill,
                      executionError := none },
                  store := eff.store, calls := Call.skillMatcher input.Message :: eff.calls }

/-- The value `struct{}{}`. -/
def emptyStruct : Value := Value.struct "struct {}" []

/-- Go `createActionNames`. -/
def createActionNames (actions : GoMap AnyFunc) : GoMap Value :=
  actions.foldl (fun actionNames e => actionNames.set e.1 emptyStruct) []

/-- Go `convertTemplateDataToMap`. In the first case the map behind
`templateData` is written in place and returned. In the last case, when the
JSON text decodes to a nil map, the assignment `dataMap["success"] = true`
panics. -/
def convertTemplateDataToMap (E : Env) (templateData : Value) (actions : GoMap AnyFunc) :
    Outcome (GoMap Value) :=
  let viaJSON : Outcome (GoMap Value) :=
    -- Convert other types via JSON marshaling
    match E.jsonMarshal templateData with
    | .error _ =>
        Outcome.returns
          [("success", Value.bool false), ("error", Value.str "Failed to process template data"),
            ("actions", Value.obj (createActionNames actions))]
    | .ok jsonBytes =>
      match E.jsonUnmarshalMap jsonBytes with
      | .error _ =>
          Outcome.returns
            [("success", Value.bool false), ("error", Value.str "Failed to process template data"),
              ("actions", Value.obj (createActionNames actions))]
      | .ok none => Outcome.panics "assignment to entry in nil map"
      | .ok (some dataMap) =>
          Outcome.returns
            ((dataMap.set "success" (Value.bool true)).set "actions"
              (Value.obj (createActionNames actions)))
  match templateData with
  | Value.obj templateMap =>
      -- Use existing map if possible
      let templateMap : GoMap Value :=
        if (GoMap.get templateMap "success").isNone then
          GoMap.set templateMap "success" (Value.bool true)
        else templateMap
      let actionNames : GoMap Value :=
        actions.foldl (fun actionNames e => actionNames.set e.1 emptyStruct) []
      Outcome.returns (templateMap.set "actions" (Value.obj actionNames))
  | Value.struct typ fields =>
      -- Handle DNS record schema specially
      if typ = "struct { Records []interface {} }" then
        Outcome.returns
          [("success", Value.bool true), ("actions", Value.obj (createActionNames actions)),
            ("records", (GoMap.get fields "Records").getD Value.null)]
      else viaJSON
  | _ => viaJSON

/-- Go `renderWorkflowResponse`. -/
def renderWorkflowResponse (E : Env) (templateData : Value) (templateToUse : String)
    (baseSkill : Option BaseSkill) (_executionError : Option GoError) (input : WorkflowInput) :
    Outcome (String × Option GoError) :=
  -- Add available actions to template if skill has any
  match baseSkill with
  | some skill =>
    if !input.IsAction && skill.GetActions.length > 0 then
      let actions := skill.GetActions
      let templateToUse := templateToUse ++ "\n\n---\n\n#### Available Actions\n"
      let templateToUse :=
        templateToUse ++ "\x7b\x7bif .success\x7d\x7d\nThe following actions are available:\n"
      let templateToUse :=
        templateToUse ++ "\x7b\x7brange $name, $_ := .actions\x7d\x7d\n"
      let templateToUse :=
        templateToUse ++ ("- Type `@ber \x7b\x7b$name\x7d\x7d " ++ input.WorkflowId ++
          "` to execute this action\n")
      let templateToUse := templateToUse ++ "\x7b\x7bend\x7d\x7d\x7b\x7bend\x7d\x7d"
      match convertTemplateDataToMap E templateData actions with
      | Outcome.panics msg => Outcome.panics msg
      | Outcome.returns templateMap =>
          Outcome.returns (template.RenderAgentTemplate E templateToUse (Value.obj templateMap))
    else Outcome.returns (template.RenderAgentTemplate E templateToUse templateData)
  | none => Outcome.returns (template.RenderAgentTemplate E templateToUse templateData)

/-- The store after `renderWorkflowResponse`. A Go map is a reference: when the
actions block is added and the template data is a map, `convertTemplateDataToMap`
writes "success" and "actions" into the very map that `executeLLMWorkflow`
stored under this run's keys. -/
def storeAfterRender (result : workflowProcessResult) (input : WorkflowInput)
    (store : Option MemoryStore) : Option MemoryStore :=
  match result.baseSkill, result.templateData, store with
  | some skill, Value.obj templateMap, some st =>
    if !input.IsAction && skill.GetActions.length > 0 then
      let written : GoMap Value :=
        if (GoMap.get templateMap "success").isNone then
          GoMap.set templateMap "success" (Value.bool true)
        else templateMap
      some (storeResponse st skill.GetActions input.WorkflowId
        (Value.obj (GoMap.set written "actions" (Value.obj (createActionNames skill.GetActions)))))
    else store
  | _, _, _ => store

/-- Go `ExecuteWorkflow`. The debug statement evaluates
`input.MemoryStore.GetAllData()` before anything is validated. -/
def ExecuteWorkflow (E : Env) (input : WorkflowInput) : Outcome (Effect WorkflowResult) :=
  let input := { input with WorkflowId := generateRandomString E }
  match memory_store.MemoryStore.GetAllData input.MemoryStore with
  | Outcome.panics msg => Outcome.panics msg
  | Outcome.returns _ =>
    let input := { input with IsAction := IsAction input.Message }
    match processWorkflow E input with
    | Outcome.panics msg => Outcome.panics msg
    | Outcome.returns eff =>
      let result := eff.result
      match renderWorkflowResponse E result.templateData result.templateToUse result.baseSkill
          result.executionError input with
      | Outcome.panics msg => Outcome.panics msg
      | Outcome.returns (_, some err) =>
          Outcome.returns
            { result :=
                { Response := "Template rendering failed: " ++ err.Error,
                  Error := some (GoError.wrapf (ErrTemplateFailure.Error ++ ": " ++ err.Error)
                    ErrTemplateFailure) },
              store := storeAfterRender result input eff.store, calls := eff.calls }
      | Outcome.returns (formattedResponse, none) =>
          Outcome.returns
            { result := { Response := formattedResponse, Error := result.executionError },
              store := storeAfterRender result input eff.store, calls := eff.calls }

end agent

/-! ## Example inputs -/

namespace demo

/-- An environment for the examples: the random source yields the byte 0xab
eight times, JSON encoding yields "null", which decodes to nil, and executing
a template yields its text. -/
def env : Env where
  randRead := some (fun _ => 0xab)
  nowUnixNano := 1700000000000000000
  jsonMarshal := fun _ => .ok "null"
  jsonUnmarshalAny := fun _ => (Value.null, none)
  jsonUnmarshalMap := fun _ => .ok none
  templateParse := fun _ => none
  templateExecute := fun tpl _ => .ok tpl

/-- A skill without hooks, validators or actions. -/
def plainSkill (name prompt : String) : agent.BaseSkill where
  GetName := name
  GetTag := name
  GetDescription := ""
  GetPrompt := prompt
  GetTemplate := "\x7b\x7b.text\x7d\x7d"
  GetSchema := Value.obj []
  GetHooks := { PreLLMRequest := none, PostLLMRequest := none, PreValidate := none,
                PostValidate := none, PreAction := none, PostAction := none }
  GetActions := []
  GetValidators := []

/-- An agent with one skill. -/
def oneSkillAgent : agent.BERAgent where
  Name := "Demo"
  Tag := "demo"
  Description := ""
  Skills := [plainSkill "echo" "Repeat the message"]

/-- A client whose service answers every query with an empty object and
cannot compute embeddings. -/
def client : openai.Client where
  QueryWithSchema := fun _ _ => .ok (Value.obj [])
  GetEmbedding := fun _ => .error (GoError.new "offline")

/-- A workflow input that is complete except for its nil memory store. -/
def inputWithoutStore : agent.WorkflowInput where
  Message := "hello world"
  Agent := some oneSkillAgent
  ChatHistory := []
  LLMClient := some client
  SkillMatcher := some (fun _ _ => .ok (plainSkill "echo" "Repeat the message"))
  IsAction := false
  MemoryStore := none
  WorkflowId := ""

end demo

namespace demo

/-- A payload awaiting approval. -/
def payload : Value :=
  Value.obj [("records", Value.arr [Value.obj [("name", Value.str "www.example.com")]])]

/-- A store seeded with the key "approve-ab12cd34". -/
def seededStore : memory_store.MemoryStore where
  data := [("approve-ab12cd34", payload)]

end demo

/-! ## Notions used to state the matcher and similarity properties -/

namespace spec

/-- The dot product of two vectors, accumulated from zero, left to right, in
`float32` arithmetic. -/
def dotProduct (ar : Float32Arith) (a b : List Float32) : Float32 :=
  (a.zip b).foldl (fun acc xy => ar.add acc (ar.mul xy.1 xy.2)) Float32.zero

/-- The sum of the squares of a vector, accumulated from zero, left to right,
in `float32` arithmetic. -/
def sumSquares (ar : Float32Arith) (a : List Float32) : Float32 :=
  a.foldl (fun acc x => ar.add acc (ar.mul x x)) Float32.zero

/-- The Euclidean norm of a vector: the square root of its sum of squares. -/
def euclideanNorm (ar : Float32Arith) (a : List Float32) : Float32 :=
  ar.sqrt (sumSquares ar a)

/-- The similarity of a skill to the message embedding, when both the skill's
embedding and the cosine similarity are computed without error. -/
def skillSimilarity (ar : Float32Arith) (client : openai.Client) (userEmbedding : List Float32)
    (skill : agent.BaseSkill) : Option Float32 :=
  match client.GetEmbedding skill.GetPrompt with
  | .error _ => none
  | .ok skillEmbedding =>
    match openai.CosineSimilarity ar userEmbedding skillEmbedding with
    | (_, some _) => none
    | (similarity, none) => some similarity

end spec

namespace demo

/-- The square root of a perfect square (0 for other numbers). -/
def exactSqrtNat (n : Nat) : Nat :=
  ((List.range (n + 1)).find? (fun k => k * k == n)).getD 0

/-- An arithmetic for the examples: exact on finite numbers, NaN elsewhere. -/
def exactArith : Float32Arith where
  add := fun x y =>
    match x, y with
    | Float32.fin a, Float32.fin b => Float32.fin (a + b)
    | _, _ => Float32.nan
  mul := fun x y =>
    match x, y with
    | Float32.fin a, Float32.fin b => Float32.fin (a * b)
    | _, _ => Float32.nan
  div := fun x y =>
    match x, y with
    | Float32.fin a, Float32.fin b => if b = 0 then Float32.nan else Float32.fin (a / b)
    | _, _ => Float32.nan
  sqrt := fun x =>
    match x with
    | Float32.fin a => Float32.fin (mkRat (exactSqrtNat a.num.toNat) (exactSqrtNat a.den))
    | _ => Float32.nan

/-- The embedding of a text, from four rational coordinates. -/
def vec (x0 x1 x2 x3 : ℚ) : List Float32 :=
  [Float32.fin x0, Float32.fin x1, Float32.fin x2, Float32.fin x3]

/-- A client with mocked embeddings: against the message "create a record"
the prompts have similarities 0.9, 0.2, 0.3, again 0.9, 0 and -1; the
embedding of any other text fails. -/
def mockClient : openai.Client where
  QueryWithSchema := fun _ _ => .ok (Value.obj [])
  GetEmbedding := fun text =>
    if text = "create a record" then .ok (vec 1 0 0 0)
    else if text = "dns prompt" then .ok (vec (9/10) (3/10) (3/10) (1/10))
    else if text = "weather prompt" then .ok (vec (2/10) (8/10) (4/10) (4/10))
    else if text = "diagram prompt" then .ok (vec (3/10) (9/10) (3/10) (1/10))
    else if text = "zone prompt" then .ok (vec (9/10) (1/10) (3/10) (3/10))
    else if text = "orthogonal prompt" then .ok (vec 0 1 0 0)
    else if text = "opposite prompt" then .ok (vec (-1) 0 0 0)
    else .error (GoError.wrapf "[PKG-EMD] Failed to get embedding: connection refused"
      (GoError.new "connection refused"))

/-- Three skills with similarities 0.9, 0.2, 0.3 to "create a record". -/
def threeSkillAgent : agent.BERAgent where
  Name := "Cloudflare"
  Tag := "cloudflare"
  Description := ""
  Skills := [plainSkill "dns" "dns prompt", plainSkill "weather" "weather prompt",
    plainSkill "diagram" "diagram prompt"]

/-- Four skills with similarities 0.2, 0.9, 0.9, 0.3: the second and the third
tie at the maximum. -/
def tiedAgent : agent.BERAgent where
  Name := "Cloudflare"
  Tag := "cloudflare"
  Description := ""
  Skills := [plainSkill "weather" "weather prompt", plainSkill "dns" "dns prompt",
    plainSkill "zone" "zone prompt", plainSkill "diagram" "diagram prompt"]

/-- Three skills none of which has a similarity above zero to "create a
record": the embedding of the first fails, the others have 0 and -1. -/
def unmatchedAgent : agent.BERAgent where
  Name := "Other"
  Tag := "other"
  Description := ""
  Skills := [plainSkill "unknown" "unknown prompt", plainSkill "orthogonal" "orthogonal prompt",
    plainSkill "opposite" "opposite prompt"]

/-- An agent without skills. -/
def emptyAgent : agent.BERAgent where
  Name := "Empty"
  Tag := "empty"
  Description := ""
  Skills := []

end demo

/-! ## Notions used to state the workflow properties -/

namespace spec

/-- The payload after a hook that is absent or has run. -/
def afterHook (hook : Option agent.HookFunc) (v : Value) : Value :=
  match hook with
  | none => v
  | some h => (agent.executeHook h v).2

/-- The error of a hook run on a payload; an absent hook has none. -/
def hookError (hook : Option agent.HookFunc) (v : Value) : Option GoError :=
  match hook with
  | none => none
  | some h => (agent.executeHook h v).1

/-- The call recorded for a hook run on a payload; none for an absent hook. -/
def hookCalls (name : String) (hook : Option agent.HookFunc) (v : Value) : List agent.Call :=
  match hook with
  | none => []
  | some _ => [agent.Call.hook name v]

/-- The "available actions" block for a workflow id. -/
def actionsBlock (workflowId : String) : String :=
  "\n\n---\n\n#### Available Actions\n" ++
    "\x7b\x7bif .success\x7d\x7d\nThe following actions are available:\n" ++
    "\x7b\x7brange $name, $_ := .actions\x7d\x7d\n" ++
    ("- Type `@ber \x7b\x7b$name\x7d\x7d " ++ workflowId ++ "` to execute this action\n") ++
    "\x7b\x7bend\x7d\x7d\x7b\x7bend\x7d\x7d"

/-- The keys of a map. -/
def keys {α : Type} (m : GoMap α) : List String :=
  m.map Prod.fst

end spec

namespace demo

/-- A validator that accepts every payload. -/
def validDNSRecord : agent.AnyFunc := fun _ => agent.Run.returned none ()

/-- A validator that rejects every payload. -/
def allowedDomains : agent.AnyFunc :=
  fun _ => agent.Run.returned (some (GoError.new "invalid domain: evil.example.org")) ()

/-- A hook that appends its name to the list it is given. -/
def appendHook (name : String) : agent.HookFunc :=
  fun v =>
    match v with
    | Value.arr xs => agent.Run.returned none (Value.arr (xs ++ [Value.str name]))
    | other => agent.Run.returned none other

/-- A hook that fails. -/
def failingHook : agent.HookFunc :=
  fun v => agent.Run.returned (some (GoError.new "blocked by policy")) v

/-- An action that succeeds. -/
def approve : agent.AnyFunc := fun _ => agent.Run.returned none ()

/-- A skill with the action "approve", the two validators of the DNS skill (the
second rejects) and no hooks. -/
def dnsSkill : agent.BaseSkill where
  GetName := "DNS"
  GetTag := "dns"
  GetDescription := ""
  GetPrompt := "dns prompt"
  GetTemplate := "\x7b\x7b.records\x7d\x7d"
  GetSchema := Value.obj []
  GetHooks := { PreLLMRequest := none, PostLLMRequest := none, PreValidate := none,
                PostValidate := none, PreAction := none, PostAction := none }
  GetActions := [("approve", approve)]
  GetValidators := [("Valid DNS Record", validDNSRecord), ("Allowed Domains", allowedDomains)]

/-- A skill with the action "approve", an accepting validator and all the
hooks, each appending its name to the payload. -/
def hookedSkill : agent.BaseSkill where
  GetName := "Hooked"
  GetTag := "hooked"
  GetDescription := ""
  GetPrompt := "hooked prompt"
  GetTemplate := "\x7b\x7b.records\x7d\x7d"
  GetSchema := Value.arr []
  GetHooks := { PreLLMRequest := some (appendHook "PreLLMRequest"),
                PostLLMRequest := some (appendHook "PostLLMRequest"),
                PreValidate := some (appendHook "PreValidate"),
                PostValidate := some (appendHook "PostValidate"),
                PreAction := some (appendHook "PreAction"),
                PostAction := some (appendHook "PostAction") }
  GetActions := [("approve", approve)]
  GetValidators := [("Valid DNS Record", validDNSRecord)]

/-- A skill without actions whose PreAction hook fails. -/
def guardedSkill : agent.BaseSkill where
  GetName := "Guarded"
  GetTag := "guarded"
  GetDescription := ""
  GetPrompt := "guarded prompt"
  GetTemplate := ""
  GetSchema := Value.obj []
  GetHooks := { PreLLMRequest := none, PostLLMRequest := none, PreValidate := none,
                PostValidate := none, PreAction := some failingHook, PostAction := none }
  GetActions := []
  GetValidators := []

/-- A client whose service answers every query with an empty list. -/
def listClient : openai.Client where
  QueryWithSchema := fun _ _ => .ok (Value.arr [])
  GetEmbedding := fun _ => .error (GoError.new "offline")

/-- A query input for a given skill: the matcher returns that skill and the
store is the seeded one. -/
def queryInput (skill : agent.BaseSkill) : agent.WorkflowInput where
  Message := "create a record"
  Agent := some oneSkillAgent
  ChatHistory := []
  LLMClient := some listClient
  SkillMatcher := some (fun _ _ => .ok skill)
  IsAction := false
  MemoryStore := some seededStore
  WorkflowId := "00ff00ff00ff00ff"

/-- The action command for the seeded payload, for a given skill. -/
def actionInput (skill : agent.BaseSkill) : agent.WorkflowInput where
  Message := "@ber approve ab12cd34"
  Agent := some oneSkillAgent
  ChatHistory := []
  LLMClient := some listClient
  SkillMatcher := some (fun _ _ => .ok skill)
  IsAction := true
  MemoryStore := some seededStore
  WorkflowId := "00ff00ff00ff00ff"

/-- An input whose skill matcher finds no skill. -/
def unmatchedInput : agent.WorkflowInput where
  Message := "hello world"
  Agent := some oneSkillAgent
  ChatHistory := []
  LLMClient := some listClient
  SkillMatcher := some (fun _ _ => .error (GoError.new "no suitable skill found"))
  IsAction := false
  MemoryStore := some seededStore
  WorkflowId := ""

end demo

namespace demo

/-- The payload that the three query hooks of `hookedSkill` build from the
empty list. -/
def hookedPayload : Value :=
  Value.arr [Value.str "PostLLMRequest", Value.str "PreValidate", Value.str "PostValidate"]

/-- What the query workflow of `hookedSkill` does on `queryInput`. -/
def hookedQueryEffect : agent.Effect (Value × Option GoError) where
  result := (hookedPayload, none)
  store := some { data := [("approve-ab12cd34", payload),
    ("approve-00ff00ff00ff00ff", hookedPayload)] }
  calls := [agent.Call.queryWithSchema [{ Role := "system", Content := "hooked prompt" }]
      (Value.arr []),
    agent.Call.hook "PostLLMRequest" (Value.arr []),
    agent.Call.hook "PreValidate" (Value.arr [Value.str "PostLLMRequest"]),
    agent.Call.hook "PostValidate" (Value.arr [Value.str "PostLLMRequest", Value.str "PreValidate"]),
    agent.Call.validator "Valid DNS Record" hookedPayload]

end demo

/-! ## The guarded execution of the callbacks, with time -/

namespace agent

/-- The duration `10 * time.Second` of the timers in `executeHook`,
`executeValidator` and `executeAction`, in nanoseconds. -/
def callbackTimeout : Nat := 10 * 1000000000

/-- A user callback with the time it takes, in nanoseconds: it returns an
error value (possibly nil) leaving `out` behind the data pointer, it panics
with a value printed as `r`, or it never ends. -/
inductive Timed (α : Type) where
  | returns (elapsed : Nat) (err : Option GoError) (out : α)
  | panics (elapsed : Nat) (r : String)
  | never

/-- What the `select` of `executeHook`, `executeValidator` or `executeAction`
receives: the message that the goroutine sends on `done` when it is sent
before the timer fires, and the timer otherwise (when both are ready Go takes
either case; the timer is taken here). -/
def Timed.select {α : Type} : Timed α → Run α
  | Timed.returns elapsed err out =>
      if elapsed < callbackTimeout then Run.returned err out else Run.blocked
  | Timed.panics elapsed r =>
      if elapsed < callbackTimeout then Run.panicked r else Run.blocked
  | Timed.never => Run.blocked

/-! ## The agent registry -/

/-- Go `AgentRegistry`. -/
structure AgentRegistry where
  agents : List BERAgent

/-- Go `NewAgentRegistry`. -/
def NewAgentRegistry : AgentRegistry :=
  { agents := [] }

/-- Go `RegisterAgent`, as a function of the state of `globalRegistry`. -/
def RegisterAgent (globalRegistry : AgentRegistry) (agent : BERAgent) : AgentRegistry :=
  { agents := globalRegistry.agents ++ [agent] }

/-- Go `GetRegisteredAgents`. -/
def GetRegisteredAgents (globalRegistry : AgentRegistry) : List BERAgent :=
  globalRegistry.agents

/-- Go `GetAgentTags`. -/
def GetAgentTags (globalRegistry : AgentRegistry) : List String :=
  globalRegistry.agents.foldl (fun tags agent => tags ++ [agent.Tag]) []

/-- The loop of `GetAgentByTag`. -/
def agentByTagLoop (tag : String) : List BERAgent → Option BERAgent
  | [] => none
  | agent :: rest => if agent.Tag = tag then some agent else agentByTagLoop tag rest

/-- Go `GetAgentByTag`; `none` is the nil pointer, `some agent` a pointer to a
copy of the agent. -/
def GetAgentByTag (globalRegistry : AgentRegistry) (tag : String) : Option BERAgent :=
  agentByTagLoop tag globalRegistry.agents

end agent

/-! ## Package `cloudflare`: the validators -/

namespace strings

/-- Go `strings.HasSuffix(s, suffix)`. -/
def HasSuffix (s suffix : String) : Bool :=
  suffix.data.isSuffixOf s.data

end strings

namespace cloudflare

/-- One element of `DNSRecordSchema.Records`; `RecordType` is the field `Type`. -/
structure DNSRecord where
  RecordType : String
  Name : String
  Content : List String
  TTL : Int
  Proxied : Bool

/-- Go `DNSRecordSchema`. -/
structure DNSRecordSchema where
  Records : List DNSRecord

/-- Go `isAllowedDomain`. The parameter `allowedDomains` is what
`getAllowedDomains()` returns: the names of the zones that the Cloudflare API
lists, or the nil slice when the API fails. -/
def isAllowedDomain (allowedDomains : List String) (domain : String) : Bool :=
  match allowedDomains with
  | [] => false
  | allowedDomain :: rest =>
      if strings.HasSuffix domain allowedDomain then true else isAllowedDomain rest domain

/-- The loop of `validateAllowedDomains` over `schema.Records`. -/
def validateRecords (allowedDomains : List String) : List DNSRecord → Option GoError
  | [] => none
  | record :: rest =>
      if !isAllowedDomain allowedDomains record.Name then
        some (GoError.new ("invalid domain: " ++ record.Name))
      else validateRecords allowedDomains rest

/-- Go `validateAllowedDomains`, every call of `getAllowedDomains()` returning
`allowedDomains`. -/
def validateAllowedDomains (allowedDomains : List String) (schema : DNSRecordSchema) :
    Option GoError :=
  validateRecords allowedDomains schema.Records

/-- Go `validateDNSRecord`. -/
def validateDNSRecord (schema : DNSRecordSchema) : Option GoError :=
  if schema.Records.length = 0 then some (GoError.new "no records provided") else none

end cloudflare

/-! ## Notions used to state the remaining properties -/

namespace spec

/-- A character of a lowercase hexadecimal numeral. -/
def isHexDigit (c : Char) : Bool :=
  ('0' ≤ c && c ≤ '9') || ('a' ≤ c && c ≤ 'f')

/-- Whether a DNS name belongs to a zone: it is the zone name or a subdomain
of it. -/
def inZone (name zone : String) : Bool :=
  name = zone || strings.HasSuffix name ("." ++ zone)

/-- A skill with its PreLLMRequest hook replaced. -/
def withPreLLMRequest (hook : Option agent.HookFunc) (skill : agent.BaseSkill) :
    agent.BaseSkill :=
  { skill with GetHooks := { skill.GetHooks with PreLLMRequest := hook } }

/-- An input whose skill matcher returns the skills of the given input's
matcher with their PreLLMRequest hook replaced. -/
def withMatcherPreLLMRequest (hook : Option agent.HookFunc) (input : agent.WorkflowInput) :
    agent.WorkflowInput :=
  { input with
    SkillMatcher := input.SkillMatcher.map
      (fun skillMatcher message ag =>
        match skillMatcher message ag with
        | .error err => .error err
        | .ok skill => .ok (withPreLLMRequest hook skill)) }

/-- A result of `processWorkflow` with the PreLLMRequest hook of the attached
skill replaced. -/
def resultWithPreLLMRequest (hook : Option agent.HookFunc)
    (eff : agent.Effect agent.workflowProcessResult) :
    agent.Effect agent.workflowProcessResult :=
  { eff with
    result := { eff.result with baseSkill := eff.result.baseSkill.map (withPreLLMRequest hook) } }

end spec

namespace demo

/-- The environment `env` with a failing random source. -/
def envWithoutRandom : Env :=
  { env with randRead := none }

/-- A record of type A with the given name. -/
def recordNamed (name : String) : cloudflare.DNSRecord where
  RecordType := "A"
  Name := name
  Content := ["203.0.113.7"]
  TTL := 300
  Proxied := false

/-- An agent with a name and a tag and no skills. -/
def agentTagged (name tag : String) : agent.BERAgent where
  Name := name
  Tag := tag
  Description := ""
  Skills := []

/-- What the query workflow of `dnsSkill` does on `queryInput`: the second
validator rejects the payload. -/
def rejectedQueryEffect : agent.Effect (Value × Option GoError) where
  result := (Value.null,
    some (GoError.wrapf "Validator Allowed Domains failed:\n invalid domain: evil.example.org"
      (GoError.new "invalid domain: evil.example.org")))
  store := some seededStore
  calls := [agent.Call.queryWithSchema [{ Role := "system", Content := "dns prompt" }]
      (Value.obj []),
    agent.Call.validator "Valid DNS Record" (Value.arr []),
    agent.Call.validator "Allowed Domains" (Value.arr [])]

end demo

/-! ## Notions and examples for the properties of `ExecuteWorkflow` -/

namespace spec

/-- The input on which `ExecuteWorkflow` works: the given input with the
generated workflow id and the mode read from the message. -/
def normalized (E : Env) (input : agent.WorkflowInput) : agent.WorkflowInput :=
  { input with WorkflowId := agent.generateRandomString E,
               IsAction := agent.IsAction input.Message }

end spec

namespace demo

/-- A query input for `hookedSkill` whose client answers with an empty
object. -/
def objectQueryInput : agent.WorkflowInput :=
  { queryInput hookedSkill with LLMClient := some client }

/-- What `ExecuteWorkflow` does on `objectQueryInput`, whatever the fields
`IsAction` and `WorkflowId` hold: the query path runs, the payload is stored
under the generated id "abababababababab", and the response (in `env` the
text of the template) advertises that id. -/
def objectQueryEffect : agent.Effect agent.WorkflowResult where
  result :=
    { Response := "\x7b\x7b.records\x7d\x7d\n\n---\n\n#### Available Actions\n" ++
        "\x7b\x7bif .success\x7d\x7d\nThe following actions are available:\n" ++
        "\x7b\x7brange $name, $_ := .actions\x7d\x7d\n" ++
        "- Type `@ber \x7b\x7b$name\x7d\x7d abababababababab` to execute this action\n" ++
        "\x7b\x7bend\x7d\x7d\x7b\x7bend\x7d\x7d",
      Error := none }
  store := some { data := [("approve-ab12cd34", payload),
    ("approve-abababababababab",
      Value.obj [("success", Value.bool true),
        ("actions", Value.obj [("approve", agent.emptyStruct)])])] }
  calls := [agent.Call.skillMatcher "create a record",
    agent.Call.queryWithSchema [{ Role := "system", Content := "hooked prompt" }] (Value.arr []),
    agent.Call.hook "PostLLMRequest" (Value.obj []),
    agent.Call.hook "PreValidate" (Value.obj []),
    agent.Call.hook "PostValidate" (Value.obj []),
    agent.Call.validator "Valid DNS Record" (Value.obj [])]

/-- What `ExecuteWorkflow` does on the action command for `hookedSkill`,
whatever the fields `IsAction` and `WorkflowId` hold: the action path runs. -/
def hookedActionResult : agent.Effect agent.WorkflowResult where
  result :=
    { Response :=
        "\x7b\x7bif .success\x7d\x7d\x7b\x7b.message\x7d\x7d\x7b\x7belse\x7d\x7d\x7b\x7b.error\x7d\x7d\x7b\x7bend\x7d\x7d",
      Error := none }
  store := some seededStore
  calls := [agent.Call.skillMatcher "@ber approve ab12cd34",
    agent.Call.hook "PreAction" payload, agent.Call.action "approve" payload,
    agent.Call.hook "PostAction" payload]

end demo

/-! ## The action path and the objects of the store

A map or a slice held in an `interface{}` is a reference. `MemoryStore.Get`
returns the stored object itself and `ConvertToSchema[any]` returns it as it
is, so the hooks and the action of the action path are handed the object that
the store holds and can write into it. -/

namespace agent

open memory_store (MemoryStore)

namespace SharedStore

end SharedStore

end agent

namespace demo

end demo

/-! ## Mode detection (`IsAction`) -/

namespace agent

open memory_store (MemoryStore)

theorem HasPrefix_append (p rest : String) : strings.HasPrefix (p ++ rest) p = true := by
  simp [strings.HasPrefix, String.data_append]

theorem HasPrefix_iff (s p : String) :
    strings.HasPrefix s p = true ↔ ∃ rest : String, s = p ++ rest := by
  constructor
  · intro h
    have hp : p.data <+: s.data := List.isPrefixOf_iff_prefix.mp h
    obtain ⟨t, ht⟩ := hp
    refine ⟨⟨t⟩, ?_⟩
    apply String.ext
    simp [String.data_append, ht]
  · rintro ⟨rest, rfl⟩
    exact HasPrefix_append p rest

/-- C1 (counterexample): on the message "@ber approveX", where the literal
"@ber approve" is immediately followed by the non-whitespace character 'X',
`IsAction` returns true. -/
theorem IsAction_approveX_is_true :
    unicode.IsSpace 'X' = false ∧ IsAction "@ber approveX" = true := by
  decide

/-- C1 (amended): `IsAction` returns true for every message in which the
literal "@ber approve" is immediately followed by a non-whitespace character
(and whatever comes after it): mode detection is a prefix match on the
message, not an exact match on the verb token. -/
theorem IsAction_true_on_longer_token (c : Char) (rest : String)
    (hc : unicode.IsSpace c = false) :
    IsAction ("@ber approve" ++ String.singleton c ++ rest) = true := by
  have _ := hc
  rw [String.append_assoc]
  exact HasPrefix_append _ _

theorem IsAction_true_on_longer_token_witness :
    unicode.IsSpace 'X' = false ∧
      IsAction ("@ber approve" ++ String.singleton 'X' ++ " ab12cd34") = true :=
  ⟨by decide, IsAction_true_on_longer_token 'X' " ab12cd34" (by decide)⟩

/-- C2: a message is an action command exactly when it begins with the
case-sensitive literal "@ber approve"; "@ber approve XYZ" is one,
"hello world" is not, and no message starting with "@BER approve" or with
" @ber approve" is one. -/
theorem IsAction_iff_literal_prefix :
    (∀ m : String, IsAction m = true ↔ ∃ rest : String, m = "@ber approve" ++ rest) ∧
      IsAction "@ber approve XYZ" = true ∧
      IsAction "hello world" = false ∧
      (∀ rest : String, IsAction ("@BER approve" ++ rest) = false) ∧
      (∀ rest : String, IsAction (" @ber approve" ++ rest) = false) := by
  refine ⟨fun m => HasPrefix_iff m _, by decide, by decide, ?_, ?_⟩
  · intro rest
    simp [IsAction, strings.HasPrefix, String.data_append, List.isPrefixOf]
  · intro rest
    simp [IsAction, strings.HasPrefix, String.data_append, List.isPrefixOf]

/-! ## Input validation -/

/-- C3 (the code at the failing input): with a nil `MemoryStore`,
`ExecuteWorkflow` panics on the nil dereference in `GetAllData` instead of
returning a `WorkflowResult`, although `processWorkflow` on the same input
returns an error wrapping `ErrInvalidInput`. -/
theorem ExecuteWorkflow_nil_store_panics (E : Env) (input : WorkflowInput)
    (h : input.MemoryStore = none) :
    ExecuteWorkflow E input =
        Outcome.panics "runtime error: invalid memory address or nil pointer dereference" ∧
      ∃ eff e, processWorkflow E input = Outcome.returns eff ∧
        eff.result.executionError = some e ∧ e.Is ErrInvalidInput = true := by
  constructor
  · simp [ExecuteWorkflow, h, memory_store.MemoryStore.GetAllData]
  · have hv : ∃ err, validateWorkflowInput input = some err := by
      unfold validateWorkflowInput
      rw [h]
      split_ifs <;> simp_all
    obtain ⟨err, herr⟩ := hv
    refine ⟨Effect.mk
      (failureResult (GoError.wrapf (ErrInvalidInput.Error ++ ": " ++ err.Error) ErrInvalidInput))
      input.MemoryStore [], _, ?_, rfl, ?_⟩
    · simp only [processWorkflow, herr]
    · simp [GoError.Is, ErrInvalidInput]

theorem ExecuteWorkflow_nil_store_panics_witness :
    ExecuteWorkflow demo.env demo.inputWithoutStore =
        Outcome.panics "runtime error: invalid memory address or nil pointer dereference" ∧
      ∃ eff e, processWorkflow demo.env demo.inputWithoutStore = Outcome.returns eff ∧
        eff.result.executionError = some e ∧ e.Is ErrInvalidInput = true :=
  ExecuteWorkflow_nil_store_panics demo.env demo.inputWithoutStore rfl

/-- C4: `validateWorkflowInput` returns no error exactly when the agent, the
LLM client, the skill matcher and the memory store are non-nil and the message
is non-empty; when it returns an error, `processWorkflow` returns with an
execution error that wraps `ErrInvalidInput` and makes no call at all (the
skill matcher is not called). -/
theorem validateWorkflowInput_iff_and_failure (E : Env) (input : WorkflowInput) :
    (validateWorkflowInput input = none ↔
        (input.Agent.isSome = true ∧ input.LLMClient.isSome = true ∧
          input.SkillMatcher.isSome = true ∧ input.MemoryStore.isSome = true ∧
          input.Message ≠ "")) ∧
      (∀ err, validateWorkflowInput input = some err →
        ∃ eff e, processWorkflow E input = Outcome.returns eff ∧
          eff.result.executionError = some e ∧ e.Is ErrInvalidInput = true ∧
          e.Error = "invalid workflow input: " ++ err.Error ∧
          eff.calls = []) := by
  constructor
  · unfold validateWorkflowInput
    cases input.Agent <;> cases input.LLMClient <;> cases input.SkillMatcher <;>
      cases input.MemoryStore <;> by_cases hm : input.Message = "" <;> simp [hm]
  · intro err herr
    refine ⟨Effect.mk
      (failureResult (GoError.wrapf (ErrInvalidInput.Error ++ ": " ++ err.Error) ErrInvalidInput))
      input.MemoryStore [], _, ?_, rfl, ?_, ?_, rfl⟩
    · simp only [processWorkflow, herr]
    · simp [GoError.Is, ErrInvalidInput]
    · simp [GoError.Error, ErrInvalidInput]

theorem validateWorkflowInput_iff_and_failure_witness :
    validateWorkflowInput demo.inputWithoutStore = some (GoError.new "memory store is required") ∧
      ∃ eff e, processWorkflow demo.env demo.inputWithoutStore = Outcome.returns eff ∧
        eff.result.executionError = some e ∧ e.Is ErrInvalidInput = true ∧
        e.Error = "invalid workflow input: " ++ (GoError.new "memory store is required").Error ∧
        eff.calls = [] :=
  ⟨rfl, (validateWorkflowInput_iff_and_failure demo.env demo.inputWithoutStore).2 _ rfl⟩

/-! ## Parsing an action command (`GetActionDetailsFromMessage`) -/

theorem fieldsLoop_dropWhile (l : List Char) :
    strings.fieldsLoop (l.dropWhile unicode.IsSpace) none = strings.fieldsLoop l none := by
  induction l with
  | nil => rfl
  | cons c cs ih =>
    by_cases hc : unicode.IsSpace c = true
    · simp [List.dropWhile, hc, strings.fieldsLoop, ih]
    · simp [List.dropWhile, hc]

theorem fieldsLoop_spaces (sp : List Char) (hsp : ∀ c ∈ sp, unicode.IsSpace c = true)
    (st : Option (List Char)) : strings.fieldsLoop sp st = strings.fieldsLoop [] st := by
  induction sp generalizing st with
  | nil => rfl
  | cons c cs ih =>
    have hc : unicode.IsSpace c = true := hsp c (List.mem_cons_self _ _)
    have hcs : ∀ x ∈ cs, unicode.IsSpace x = true := fun x hx => hsp x (List.mem_cons_of_mem _ hx)
    cases st with
    | none => simp [strings.fieldsLoop, hc, ih hcs]
    | some cur => simp [strings.fieldsLoop, hc, ih hcs]

theorem fieldsLoop_append_spaces (l sp : List Char)
    (hsp : ∀ c ∈ sp, unicode.IsSpace c = true) (st : Option (List Char)) :
    strings.fieldsLoop (l ++ sp) st = strings.fieldsLoop l st := by
  induction l generalizing st with
  | nil => simpa using fieldsLoop_spaces sp hsp st
  | cons c cs ih =>
    cases st with
    | none =>
      by_cases hc : unicode.IsSpace c = true <;> simp [strings.fieldsLoop, hc, ih]
    | some cur =>
      by_cases hc : unicode.IsSpace c = true <;> simp [strings.fieldsLoop, hc, ih]

/-- Trimming does not change the fields of a string. -/
theorem Fields_TrimSpace (s : String) :
    strings.Fields (strings.TrimSpace s) = strings.Fields s := by
  unfold strings.Fields strings.TrimSpace
  simp only
  have hsplit := List.takeWhile_append_dropWhile unicode.IsSpace
    (s.data.dropWhile unicode.IsSpace).reverse
  have hd : s.data.dropWhile unicode.IsSpace =
      ((s.data.dropWhile unicode.IsSpace).reverse.dropWhile unicode.IsSpace).reverse ++
        ((s.data.dropWhile unicode.IsSpace).reverse.takeWhile unicode.IsSpace).reverse := by
    have h := congrArg List.reverse hsplit
    rw [List.reverse_append, List.reverse_reverse] at h
    exact h.symm
  rw [← fieldsLoop_dropWhile s.data]
  conv_rhs => rw [hd]
  rw [fieldsLoop_append_spaces]
  intro c hc
  exact List.mem_takeWhile_imp (List.mem_reverse.mp hc)

/-- C5: when the message, after removing a leading "@ber " and trimming,
splits into fields `t0 :: t1 :: rest`, then on a non-nil store
`GetActionDetailsFromMessage` succeeds exactly when the store has the key
"t0-t1"; on success it returns `t0` and the stored value, on a miss an error
with the empty action name and the nil payload. -/
theorem GetActionDetailsFromMessage_lookup (message t0 t1 : String) (rest : List String)
    (store : MemoryStore)
    (hparts : strings.Fields (strings.TrimSpace (strings.TrimPrefix message "@ber ")) =
      t0 :: t1 :: rest) :
    ((GetActionDetailsFromMessage message (some store)).2.2 = none ↔
        (store.Get (t0 ++ "-" ++ t1)).2 = true) ∧
      ((store.Get (t0 ++ "-" ++ t1)).2 = true →
        GetActionDetailsFromMessage message (some store) =
          (t0, (store.Get (t0 ++ "-" ++ t1)).1, none)) ∧
      ((store.Get (t0 ++ "-" ++ t1)).2 = false →
        ∃ err, GetActionDetailsFromMessage message (some store) = ("", Value.null, some err)) := by
  unfold GetActionDetailsFromMessage
  simp only [hparts]
  rcases hget : store.Get (t0 ++ "-" ++ t1) with ⟨value, found⟩
  cases found <;> simp

theorem GetActionDetailsFromMessage_lookup_witness :
    GetActionDetailsFromMessage "@ber approve ab12cd34" (some demo.seededStore) =
      ("approve", demo.payload, none) :=
  (GetActionDetailsFromMessage_lookup "@ber approve ab12cd34" "approve" "ab12cd34" []
    demo.seededStore (by decide)).2.1 (by decide)

/-- C6: when the remainder of the message after removing a leading "@ber "
has fewer than two fields, `GetActionDetailsFromMessage` returns the parse
error "not enough parts in message, expected at least 2" with the empty name
and the nil payload, the same for every store, nil included: the store is not
consulted. -/
theorem GetActionDetailsFromMessage_too_few_parts (message : String)
    (memoryStore : Option MemoryStore)
    (hparts : (strings.Fields (strings.TrimPrefix message "@ber ")).length < 2) :
    GetActionDetailsFromMessage message memoryStore =
      ("", Value.null, some (GoError.new "not enough parts in message, expected at least 2")) := by
  unfold GetActionDetailsFromMessage
  simp only [Fields_TrimSpace]
  match hf : strings.Fields (strings.TrimPrefix message "@ber ") with
  | [] => rfl
  | [_] => rfl
  | _ :: _ :: _ => rw [hf] at hparts; simp at hparts; omega

theorem GetActionDetailsFromMessage_too_few_parts_witness :
    GetActionDetailsFromMessage "@ber approve" (some demo.seededStore) =
        ("", Value.null, some (GoError.new "not enough parts in message, expected at least 2")) ∧
      GetActionDetailsFromMessage "@ber " none =
        ("", Value.null, some (GoError.new "not enough parts in message, expected at least 2")) ∧
      GetActionDetailsFromMessage "" (some demo.seededStore) =
        ("", Value.null, some (GoError.new "not enough parts in message, expected at least 2")) :=
  ⟨GetActionDetailsFromMessage_too_few_parts "@ber approve" (some demo.seededStore) (by decide),
    GetActionDetailsFromMessage_too_few_parts "@ber " none (by decide),
    GetActionDetailsFromMessage_too_few_parts "" (some demo.seededStore) (by decide)⟩

/-! ## Skill matching (`DefaultSkillMatcher`) -/

theorem Float32_gt_irrefl (x : Float32) : x.gt x = false := by
  cases x <;> simp [Float32.gt]

theorem Float32_gt_asymm {x y : Float32} (h : x.gt y = true) : y.gt x = false := by
  cases x <;> cases y <;> simp_all [Float32.gt]
  exact le_of_lt h

theorem Float32_gt_trans {x y z : Float32} (h1 : x.gt y = true) (h2 : y.gt z = true) :
    x.gt z = true := by
  cases x <;> cases y <;> cases z <;> simp_all [Float32.gt]
  exact lt_trans h2 h1

theorem Float32_not_gt_of_gt {a h b : Float32} (h1 : a.gt h = false) (h2 : b.gt h = true) :
    a.gt b = false := by
  cases a <;> cases h <;> cases b <;> simp_all [Float32.gt]
  exact le_of_lt (lt_of_le_of_lt h1 h2)

theorem Float32_eq_true {a b : Float32} (h : a.eq b = true) : a = b := by
  cases a <;> cases b <;> simp_all [Float32.eq]

/-- One iteration of the loop of `DefaultSkillMatcher`, in terms of the
similarity of the skill at hand. -/
theorem matchLoop_cons (ar : Float32Arith) (client : openai.Client) (u : List Float32)
    (skill : BaseSkill) (rest : List BaseSkill) (b : Option BaseSkill) (h : Float32) :
    matchLoop ar client u (skill :: rest) (b, h) =
      match spec.skillSimilarity ar client u skill with
      | none => matchLoop ar client u rest (b, h)
      | some s =>
        if s.gt h then matchLoop ar client u rest (some skill, s)
        else matchLoop ar client u rest (b, h) := by
  unfold spec.skillSimilarity
  rw [matchLoop]
  cases client.GetEmbedding skill.GetPrompt with
  | error e => rfl
  | ok emb =>
    simp only
    rcases openai.CosineSimilarity ar u emb with ⟨s, _ | e⟩ <;> rfl

/-- The loop of `DefaultSkillMatcher` started from `(b, h)`: no skill of the
list is more similar than the final maximum, and either nothing changed or
the result is the first skill of the list that attains the final maximum. -/
theorem matchLoop_spec (ar : Float32Arith) (client : openai.Client) (u : List Float32)
    (l : List BaseSkill) (b : Option BaseSkill) (h : Float32) :
    (∀ skill ∈ l, ∀ s, spec.skillSimilarity ar client u skill = some s →
        s.gt (matchLoop ar client u l (b, h)).2 = false) ∧
      ((matchLoop ar client u l (b, h) = (b, h) ∧
          ∀ skill ∈ l, ∀ s, spec.skillSimilarity ar client u skill = some s → s.gt h = false) ∨
        ((matchLoop ar client u l (b, h)).2.gt h = true ∧
          ∃ pre best post, l = pre ++ best :: post ∧
            (matchLoop ar client u l (b, h)).1 = some best ∧
            spec.skillSimilarity ar client u best = some (matchLoop ar client u l (b, h)).2 ∧
            ∀ skill ∈ pre, ∀ s, spec.skillSimilarity ar client u skill = some s →
              s.eq (matchLoop ar client u l (b, h)).2 = false)) := by
  induction l generalizing b h with
  | nil =>
    refine ⟨by simp, Or.inl ⟨rfl, by simp⟩⟩
  | cons skill rest ih =>
    rw [matchLoop_cons]
    cases hs : spec.skillSimilarity ar client u skill with
    | none =>
      simp only
      obtain ⟨hmax, hcase⟩ := ih b h
      refine ⟨?_, ?_⟩
      · intro sk hsk s hsim
        rcases List.mem_cons.mp hsk with rfl | hmem
        · rw [hs] at hsim; cases hsim
        · exact hmax sk hmem s hsim
      · rcases hcase with ⟨heq, hle⟩ | ⟨hgt, pre, best, post, hl, hb, hsb, hpre⟩
        · refine Or.inl ⟨heq, ?_⟩
          intro sk hsk s hsim
          rcases List.mem_cons.mp hsk with rfl | hmem
          · rw [hs] at hsim; cases hsim
          · exact hle sk hmem s hsim
        · refine Or.inr ⟨hgt, skill :: pre, best, post, by simp [hl], hb, hsb, ?_⟩
          intro sk hsk s hsim
          rcases List.mem_cons.mp hsk with rfl | hmem
          · rw [hs] at hsim; cases hsim
          · exact hpre sk hmem s hsim
    | some s0 =>
      simp only
      by_cases hg : s0.gt h = true
      · simp only [hg, if_true]
        obtain ⟨hmax, hcase⟩ := ih (some skill) s0
        have hfin : (matchLoop ar client u rest (some skill, s0)).2.gt h = true := by
          rcases hcase with ⟨heq, _⟩ | ⟨hgt, _⟩
          · rw [heq]; exact hg
          · exact Float32_gt_trans hgt hg
        have hs0 : s0.gt (matchLoop ar client u rest (some skill, s0)).2 = false := by
          rcases hcase with ⟨heq, _⟩ | ⟨hgt, _⟩
          · rw [heq]; exact Float32_gt_irrefl s0
          · exact Float32_gt_asymm hgt
        refine ⟨?_, Or.inr ⟨hfin, ?_⟩⟩
        · intro sk hsk s hsim
          rcases List.mem_cons.mp hsk with rfl | hmem
          · rw [hs] at hsim
            cases hsim
            exact hs0
          · exact hmax sk hmem s hsim
        · rcases hcase with ⟨heq, _⟩ | ⟨hgt, pre, best, post, hl, hb, hsb, hpre⟩
          · refine ⟨[], skill, rest, rfl, by rw [heq], by rw [heq]; exact hs, by simp⟩
          · refine ⟨skill :: pre, best, post, by simp [hl], hb, hsb, ?_⟩
            intro sk hsk s hsim
            rcases List.mem_cons.mp hsk with rfl | hmem
            · rw [hs] at hsim
              cases hsim
              apply Bool.eq_false_iff.mpr
              intro hq
              have := Float32_eq_true hq
              rw [← this, Float32_gt_irrefl] at hgt
              cases hgt
            · exact hpre sk hmem s hsim
      · have hg' : s0.gt h = false := by simpa using hg
        simp only [hg', Bool.false_eq_true, if_false]
        obtain ⟨hmax, hcase⟩ := ih b h
        refine ⟨?_, ?_⟩
        · intro sk hsk s hsim
          rcases List.mem_cons.mp hsk with rfl | hmem
          · rw [hs] at hsim
            cases hsim
            rcases hcase with ⟨heq, _⟩ | ⟨hgt, _⟩
            · rw [heq]; exact hg'
            · exact Float32_not_gt_of_gt hg' hgt
          · exact hmax sk hmem s hsim
        · rcases hcase with ⟨heq, hle⟩ | ⟨hgt, pre, best, post, hl, hb, hsb, hpre⟩
          · refine Or.inl ⟨heq, ?_⟩
            intro sk hsk s hsim
            rcases List.mem_cons.mp hsk with rfl | hmem
            · rw [hs] at hsim
              cases hsim
              exact hg'
            · exact hle sk hmem s hsim
          · refine Or.inr ⟨hgt, skill :: pre, best, post, by simp [hl], hb, hsb, ?_⟩
            intro sk hsk s hsim
            rcases List.mem_cons.mp hsk with rfl | hmem
            · rw [hs] at hsim
              cases hsim
              apply Bool.eq_false_iff.mpr
              intro hq
              have := Float32_eq_true hq
              rw [← this, hg'] at hgt
              cases hgt
            · exact hpre sk hmem s hsim

/-- C7: when the message embedding is computed and some skill of the agent
has a computed similarity above zero, `DefaultSkillMatcher` returns a skill of
the agent, without error, whose similarity is above zero and is exceeded by
the similarity of no skill of the agent. -/
theorem DefaultSkillMatcher_selects_maximum (ar : Float32Arith) (message : String)
    (ag : BERAgent) (client : openai.Client) (u : List Float32)
    (hmsg : client.GetEmbedding message = .ok u)
    (hpos : ∃ skill ∈ ag.Skills, ∃ s,
      spec.skillSimilarity ar client u skill = some s ∧ s.gt Float32.zero = true) :
    ∃ best sb, DefaultSkillMatcher ar message ag client = (some best, none) ∧
      best ∈ ag.Skills ∧
      spec.skillSimilarity ar client u best = some sb ∧
      sb.gt Float32.zero = true ∧
      ∀ skill ∈ ag.Skills, ∀ s, spec.skillSimilarity ar client u skill = some s →
        s.gt sb = false := by
  obtain ⟨hmax, hcase⟩ := matchLoop_spec ar client u ag.Skills none Float32.zero
  rcases hcase with ⟨_, hle⟩ | ⟨hgt, pre, best, post, hl, hb, hsb, _⟩
  · obtain ⟨skill, hmem, s, hsim, hs⟩ := hpos
    rw [hle skill hmem s hsim] at hs
    cases hs
  · refine ⟨best, _, ?_, ?_, hsb, hgt, hmax⟩
    · simp only [DefaultSkillMatcher, hmsg, hb]
    · rw [hl]
      simp

theorem DefaultSkillMatcher_selects_maximum_witness :
    (∃ best sb, DefaultSkillMatcher demo.exactArith "create a record" demo.threeSkillAgent
          demo.mockClient = (some best, none) ∧
        best ∈ demo.threeSkillAgent.Skills ∧
        spec.skillSimilarity demo.exactArith demo.mockClient (demo.vec 1 0 0 0) best = some sb ∧
        sb.gt Float32.zero = true ∧
        ∀ skill ∈ demo.threeSkillAgent.Skills, ∀ s,
          spec.skillSimilarity demo.exactArith demo.mockClient (demo.vec 1 0 0 0) skill = some s →
            s.gt sb = false) ∧
      demo.threeSkillAgent.Skills.map
          (spec.skillSimilarity demo.exactArith demo.mockClient (demo.vec 1 0 0 0)) =
        [some (Float32.fin (9/10)), some (Float32.fin (2/10)), some (Float32.fin (3/10))] ∧
      (DefaultSkillMatcher demo.exactArith "create a record" demo.threeSkillAgent
          demo.mockClient).1.map BaseSkill.GetName = some "dns" :=
  ⟨DefaultSkillMatcher_selects_maximum demo.exactArith "create a record" demo.threeSkillAgent
      demo.mockClient (demo.vec 1 0 0 0) rfl
      ⟨demo.plainSkill "dns" "dns prompt", by simp [demo.threeSkillAgent],
        Float32.fin (9/10), by decide!, by decide!⟩,
    by decide!, by decide!⟩

/-- C8: when the message embedding is computed and some skill of the agent
has a computed similarity above zero, the skill that `DefaultSkillMatcher`
returns is the first of the agent's list that attains the maximal similarity:
every skill before it has a similarity that neither equals nor exceeds it,
every skill after it has one that does not exceed it; and a skill whose
similarity is not strictly greater than the current maximum leaves the loop's
state unchanged. -/
theorem DefaultSkillMatcher_first_of_ties (ar : Float32Arith) (message : String)
    (ag : BERAgent) (client : openai.Client) (u : List Float32)
    (hmsg : client.GetEmbedding message = .ok u)
    (hpos : ∃ skill ∈ ag.Skills, ∃ s,
      spec.skillSimilarity ar client u skill = some s ∧ s.gt Float32.zero = true) :
    (∃ pre best post sb, ag.Skills = pre ++ best :: post ∧
        DefaultSkillMatcher ar message ag client = (some best, none) ∧
        spec.skillSimilarity ar client u best = some sb ∧
        (∀ skill ∈ pre, ∀ s, spec.skillSimilarity ar client u skill = some s →
          s.eq sb = false ∧ s.gt sb = false) ∧
        (∀ skill ∈ post, ∀ s, spec.skillSimilarity ar client u skill = some s →
          s.gt sb = false)) ∧
      (∀ (skill : BaseSkill) (rest : List BaseSkill) (b : Option BaseSkill) (h s : Float32),
        spec.skillSimilarity ar client u skill = some s → s.gt h = false →
          matchLoop ar client u (skill :: rest) (b, h) = matchLoop ar client u rest (b, h)) := by
  constructor
  · obtain ⟨hmax, hcase⟩ := matchLoop_spec ar client u ag.Skills none Float32.zero
    rcases hcase with ⟨_, hle⟩ | ⟨_, pre, best, post, hl, hb, hsb, hpre⟩
    · obtain ⟨skill, hmem, s, hsim, hs⟩ := hpos
      rw [hle skill hmem s hsim] at hs
      cases hs
    · refine ⟨pre, best, post, _, hl, ?_, hsb, ?_, ?_⟩
      · simp only [DefaultSkillMatcher, hmsg, hb]
      · intro skill hmem s hsim
        exact ⟨hpre skill hmem s hsim, hmax skill (by rw [hl]; simp [hmem]) s hsim⟩
      · intro skill hmem s hsim
        exact hmax skill (by rw [hl]; simp [hmem]) s hsim
  · intro skill rest b h s hsim hg
    rw [matchLoop_cons, hsim]
    simp [hg]

theorem DefaultSkillMatcher_first_of_ties_witness :
    ((∃ pre best post sb, demo.tiedAgent.Skills = pre ++ best :: post ∧
        DefaultSkillMatcher demo.exactArith "create a record" demo.tiedAgent demo.mockClient =
          (some best, none) ∧
        spec.skillSimilarity demo.exactArith demo.mockClient (demo.vec 1 0 0 0) best = some sb ∧
        (∀ skill ∈ pre, ∀ s,
          spec.skillSimilarity demo.exactArith demo.mockClient (demo.vec 1 0 0 0) skill = some s →
            s.eq sb = false ∧ s.gt sb = false) ∧
        (∀ skill ∈ post, ∀ s,
          spec.skillSimilarity demo.exactArith demo.mockClient (demo.vec 1 0 0 0) skill = some s →
            s.gt sb = false)) ∧
      (∀ (skill : BaseSkill) (rest : List BaseSkill) (b : Option BaseSkill) (h s : Float32),
        spec.skillSimilarity demo.exactArith demo.mockClient (demo.vec 1 0 0 0) skill = some s →
          s.gt h = false →
          matchLoop demo.exactArith demo.mockClient (demo.vec 1 0 0 0) (skill :: rest) (b, h) =
            matchLoop demo.exactArith demo.mockClient (demo.vec 1 0 0 0) rest (b, h))) ∧
      demo.tiedAgent.Skills.map
          (spec.skillSimilarity demo.exactArith demo.mockClient (demo.vec 1 0 0 0)) =
        [some (Float32.fin (2/10)), some (Float32.fin (9/10)), some (Float32.fin (9/10)),
          some (Float32.fin (3/10))] ∧
      (DefaultSkillMatcher demo.exactArith "create a record" demo.tiedAgent
          demo.mockClient).1.map BaseSkill.GetName = some "dns" :=
  ⟨DefaultSkillMatcher_first_of_ties demo.exactArith "create a record" demo.tiedAgent
      demo.mockClient (demo.vec 1 0 0 0) rfl
      ⟨demo.plainSkill "dns" "dns prompt", by simp [demo.tiedAgent],
        Float32.fin (9/10), by decide!, by decide!⟩,
    by decide!, by decide!⟩

/-- C9 (counterexample): for an agent without skills and a message whose
embedding cannot be computed, `DefaultSkillMatcher` returns the embedding
error, not the "no suitable skill found" error. -/
theorem DefaultSkillMatcher_embedding_error_first :
    demo.emptyAgent.Skills = [] ∧
      (DefaultSkillMatcher demo.exactArith "hello" demo.emptyAgent demo.mockClient).2 =
        some (GoError.wrapf "[PKG-EMD] Failed to get embedding: connection refused"
          (GoError.new "connection refused")) ∧
      (DefaultSkillMatcher demo.exactArith "hello" demo.emptyAgent demo.mockClient).2 ≠
        some (GoError.new "no suitable skill found") :=
  ⟨rfl, by decide!, by decide!⟩

/-- C9 (amended): when the message embedding is computed and no skill of the
agent has a computed similarity above zero (the list is empty, every
embedding or similarity fails, or every similarity is zero, negative or NaN),
`DefaultSkillMatcher` returns no skill and the error "no suitable skill
found"; a skill whose embedding fails leaves the loop's state unchanged and
the scan goes on with the remaining skills. -/
theorem DefaultSkillMatcher_no_suitable_skill (ar : Float32Arith) (message : String)
    (ag : BERAgent) (client : openai.Client) (u : List Float32)
    (hmsg : client.GetEmbedding message = .ok u)
    (hnone : ∀ skill ∈ ag.Skills, ∀ s,
      spec.skillSimilarity ar client u skill = some s → s.gt Float32.zero = false) :
    DefaultSkillMatcher ar message ag client =
        (none, some (GoError.new "no suitable skill found")) ∧
      (∀ (skill : BaseSkill) (rest : List BaseSkill) (acc : Option BaseSkill × Float32)
          (e : GoError), client.GetEmbedding skill.GetPrompt = .error e →
        matchLoop ar client u (skill :: rest) acc = matchLoop ar client u rest acc) := by
  constructor
  · obtain ⟨_, hcase⟩ := matchLoop_spec ar client u ag.Skills none Float32.zero
    rcases hcase with ⟨heq, _⟩ | ⟨hgt, pre, best, post, hl, hb, hsb, _⟩
    · simp only [DefaultSkillMatcher, hmsg, heq]
    · have hmem : best ∈ ag.Skills := by rw [hl]; simp
      rw [hnone best hmem _ hsb] at hgt
      cases hgt
  · intro skill rest acc e he
    obtain ⟨b, h⟩ := acc
    rw [matchLoop, he]

theorem DefaultSkillMatcher_no_suitable_skill_witness :
    DefaultSkillMatcher demo.exactArith "create a record" demo.unmatchedAgent demo.mockClient =
        (none, some (GoError.new "no suitable skill found")) ∧
      DefaultSkillMatcher demo.exactArith "create a record" demo.emptyAgent demo.mockClient =
        (none, some (GoError.new "no suitable skill found")) ∧
      demo.unmatchedAgent.Skills.map
          (spec.skillSimilarity demo.exactArith demo.mockClient (demo.vec 1 0 0 0)) =
        [none, some (Float32.fin 0), some (Float32.fin (-1))] :=
  ⟨(DefaultSkillMatcher_no_suitable_skill demo.exactArith "create a record" demo.unmatchedAgent
      demo.mockClient (demo.vec 1 0 0 0) rfl (by
        intro skill hmem s hs
        simp only [demo.unmatchedAgent, List.mem_cons, List.mem_singleton, List.not_mem_nil,
          or_false] at hmem
        rcases hmem with rfl | rfl | rfl
        · have h0 : spec.skillSimilarity demo.exactArith demo.mockClient (demo.vec 1 0 0 0)
              (demo.plainSkill "unknown" "unknown prompt") = none := by decide!
          rw [h0] at hs
          cases hs
        · have h0 : spec.skillSimilarity demo.exactArith demo.mockClient (demo.vec 1 0 0 0)
              (demo.plainSkill "orthogonal" "orthogonal prompt") = some (Float32.fin 0) := by
            decide!
          rw [h0] at hs
          cases hs
          decide!
        · have h0 : spec.skillSimilarity demo.exactArith demo.mockClient (demo.vec 1 0 0 0)
              (demo.plainSkill "opposite" "opposite prompt") = some (Float32.fin (-1)) := by
            decide!
          rw [h0] at hs
          cases hs
          decide!)).1,
    (DefaultSkillMatcher_no_suitable_skill demo.exactArith "create a record" demo.emptyAgent
      demo.mockClient (demo.vec 1 0 0 0) rfl (by
        intro skill hmem
        simp [demo.emptyAgent] at hmem)).1,
    by decide!⟩

end agent

/-! ## Cosine similarity -/

namespace openai

/-- On vectors of equal length the three accumulators of the loop are the dot
product and the two sums of squares, each continued from its start value. -/
theorem cosineLoop_eq (ar : Float32Arith) (a b : List Float32) (hlen : a.length = b.length)
    (d na nb : Float32) :
    cosineLoop ar a b (d, na, nb) =
      ((a.zip b).foldl (fun acc xy => ar.add acc (ar.mul xy.1 xy.2)) d,
        a.foldl (fun acc x => ar.add acc (ar.mul x x)) na,
        b.foldl (fun acc x => ar.add acc (ar.mul x x)) nb) := by
  induction a generalizing b d na nb with
  | nil =>
    cases b with
    | nil => rfl
    | cons y ys => simp at hlen
  | cons x xs ih =>
    cases b with
    | nil => simp at hlen
    | cons y ys =>
      have hlen' : xs.length = ys.length := by simpa using hlen
      simp only [cosineLoop, List.zip_cons_cons, List.foldl_cons]
      exact ih ys hlen' _ _ _

/-- C10 (counterexample): in IEEE arithmetic the vector `a = [2^-100]` is a
`float32` vector that is not zero, and its exact sum of squares `2^-200` is
not zero; but the square underflows to 0 in `float32`, and
`CosineSimilarity a [1]` returns the error "Vector norm cannot be zero". -/
theorem CosineSimilarity_underflow_is_error :
    ieee.round32 (1 / 2 ^ 100) = Float32.fin (1 / 2 ^ 100) ∧
      ((1 / 2 ^ 100 : ℚ) * (1 / 2 ^ 100) ≠ 0 ∧ (1 : ℚ) * 1 ≠ 0) ∧
      [Float32.fin (1 / 2 ^ 100)].length = [Float32.fin 1].length ∧
      ieee.arith.mul (Float32.fin (1 / 2 ^ 100)) (Float32.fin (1 / 2 ^ 100)) = Float32.fin 0 ∧
      CosineSimilarity ieee.arith [Float32.fin (1 / 2 ^ 100)] [Float32.fin 1] =
        (Float32.zero, some (GoError.new "[PKG-EMD] Vector norm cannot be zero")) := by
  decide!

/-- C10 (amended): `CosineSimilarity a b` returns an error exactly when the
lengths differ or the sum of squares of `a` or of `b`, as accumulated in
`float32`, compares equal to zero, which is the case for two empty vectors
(and for vectors whose squares underflow); when it returns no error, its
value is the `float32` quotient of the accumulated dot product by the product
of the two `float32` Euclidean norms. -/
theorem CosineSimilarity_error_iff (ar : Float32Arith) (a b : List Float32) :
    ((CosineSimilarity ar a b).2.isSome = true ↔
        (a.length ≠ b.length ∨ (spec.sumSquares ar a).eq Float32.zero = true ∨
          (spec.sumSquares ar b).eq Float32.zero = true)) ∧
      ((CosineSimilarity ar a b).2 = none →
        (CosineSimilarity ar a b).1 =
          ar.div (spec.dotProduct ar a b)
            (ar.mul (spec.euclideanNorm ar a) (spec.euclideanNorm ar b))) ∧
      (CosineSimilarity ar [] []).2.isSome = true := by
  refine ⟨?_, ?_, ?_⟩
  · by_cases hlen : a.length = b.length
    · simp only [CosineSimilarity, hlen, ne_eq, not_true_eq_false, if_false, false_or,
        cosineLoop_eq ar a b hlen, spec.sumSquares]
      split_ifs with hz
      · simpa using hz
      · simpa using hz
    · simp [CosineSimilarity, hlen]
  · by_cases hlen : a.length = b.length
    · simp only [CosineSimilarity, hlen, ne_eq, not_true_eq_false, if_false,
        cosineLoop_eq ar a b hlen, spec.sumSquares, spec.dotProduct, spec.euclideanNorm]
      split_ifs with hz
      · intro h; cases h
      · intro _; rfl
    · simp [CosineSimilarity, hlen]
  · simp [CosineSimilarity, cosineLoop, Float32.eq, Float32.zero]

theorem CosineSimilarity_error_iff_witness :
    CosineSimilarity demo.exactArith (demo.vec 1 0 0 0) (demo.vec (9/10) (3/10) (3/10) (1/10)) =
        (Float32.fin (9/10), none) ∧
      (CosineSimilarity demo.exactArith (demo.vec 1 0 0 0) (demo.vec 0 0 0 0)).2.isSome = true ∧
      (CosineSimilarity demo.exactArith (demo.vec 1 0 0 0) [Float32.fin 1]).2.isSome = true :=
  ⟨by decide!,
    (CosineSimilarity_error_iff demo.exactArith (demo.vec 1 0 0 0) (demo.vec 0 0 0 0)).1.mpr
      (Or.inr (Or.inr (by decide!))),
    (CosineSimilarity_error_iff demo.exactArith (demo.vec 1 0 0 0) [Float32.fin 1]).1.mpr
      (Or.inl (by decide))⟩

/-- With a commutative product the dot products of `(a, b)` and of `(b, a)`
are accumulated through the same intermediate values. -/
theorem dot_foldl_comm (ar : Float32Arith) (hmul : ∀ x y, ar.mul x y = ar.mul y x)
    (a b : List Float32) (d : Float32) :
    (a.zip b).foldl (fun acc xy => ar.add acc (ar.mul xy.1 xy.2)) d =
      (b.zip a).foldl (fun acc xy => ar.add acc (ar.mul xy.1 xy.2)) d := by
  induction a generalizing b d with
  | nil => cases b <;> rfl
  | cons x xs ih =>
    cases b with
    | nil => rfl
    | cons y ys =>
      simp only [List.zip_cons_cons, List.foldl_cons]
      rw [hmul x y]
      exact ih ys _

theorem ieee_mul_comm (x y : Float32) : ieee.arith.mul x y = ieee.arith.mul y x := by
  cases x <;> cases y <;> simp [ieee.arith, mul_comm]

/-- C11 (counterexample): in IEEE arithmetic the vectors `a = b = [1, 1]` have
equal length and the non-zero sum of squares 2, and `CosineSimilarity a b`
returns `1 + 2^-23`, which is greater than 1: the square root of 2 rounds to
`11863283 / 2^23`, whose square rounds to `2 - 2^-23`. -/
theorem CosineSimilarity_exceeds_one :
    spec.sumSquares ieee.arith [Float32.fin 1, Float32.fin 1] = Float32.fin 2 ∧
      ieee.arith.sqrt (Float32.fin 2) = Float32.fin (11863283 / 8388608) ∧
      ieee.arith.mul (Float32.fin (11863283 / 8388608)) (Float32.fin (11863283 / 8388608)) =
        Float32.fin (16777215 / 8388608) ∧
      CosineSimilarity ieee.arith [Float32.fin 1, Float32.fin 1] [Float32.fin 1, Float32.fin 1] =
        (Float32.fin (8388609 / 8388608), none) ∧
      Float32.gt (Float32.fin (8388609 / 8388608)) (Float32.fin 1) = true := by
  decide!

/-- C11 (amended): for vectors of equal length, in an arithmetic whose product
is commutative (as the IEEE product is), `CosineSimilarity a b` and
`CosineSimilarity b a` return the same value and the same error. -/
theorem CosineSimilarity_symmetric (ar : Float32Arith)
    (hmul : ∀ x y, ar.mul x y = ar.mul y x) (a b : List Float32)
    (hlen : a.length = b.length) :
    CosineSimilarity ar a b = CosineSimilarity ar b a := by
  simp only [CosineSimilarity, hlen, ne_eq, not_true_eq_false, if_false,
    cosineLoop_eq ar a b hlen, cosineLoop_eq ar b a hlen.symm]
  rw [dot_foldl_comm ar hmul a b, Bool.or_comm, hmul]

theorem CosineSimilarity_symmetric_witness :
    CosineSimilarity ieee.arith [Float32.fin 1, Float32.fin 2] [Float32.fin 3, Float32.fin 4] =
        CosineSimilarity ieee.arith [Float32.fin 3, Float32.fin 4]
          [Float32.fin 1, Float32.fin 2] ∧
      CosineSimilarity ieee.arith [Float32.fin 1, Float32.fin 2] [Float32.fin 3, Float32.fin 4] =
        (Float32.fin (8253299 / 8388608), none) :=
  ⟨CosineSimilarity_symmetric ieee.arith ieee_mul_comm
      [Float32.fin 1, Float32.fin 2] [Float32.fin 3, Float32.fin 4] rfl,
    by decide!⟩

end openai

/-! ## Failure handling of `processWorkflow` -/

namespace agent

open memory_store (MemoryStore)

/-- Every exit of `processWorkflow` with an execution error returns the
failure result built from that error. -/
theorem processWorkflow_error_result (E : Env) (input : WorkflowInput)
    (eff : Effect workflowProcessResult) (e : GoError)
    (hret : processWorkflow E input = Outcome.returns eff)
    (herr : eff.result.executionError = some e) :
    eff.result = failureResult e := by
  unfold processWorkflow at hret
  split at hret
  · cases hret
    simp only [failureResult, Option.some.injEq] at herr
    rw [← herr]
  · split at hret
    · cases hret
    · split at hret
      · cases hret
        simp only [failureResult, Option.some.injEq] at herr
        rw [← herr]
      · simp only at hret
        split at hret
        · cases hret
        · split at hret
          · cases hret
            simp only [failureResult, Option.some.injEq] at herr
            rw [← herr]
          · split at hret <;> cases hret <;> simp at herr

/-- When the action path returns no error, every step of it has succeeded:
the payload was found and converted, the PreAction hook (if any) succeeded,
the action is registered and succeeded, and the PostAction hook (if any)
succeeded. So a failure of any step is an error of `executeActionWorkflow`. -/
theorem executeActionWorkflow_no_error (E : Env) (skill : BaseSkill) (input : WorkflowInput)
    (h : (executeActionWorkflow E skill input).1.2 = none) :
    ∃ actionName payload typed action,
      GetActionDetailsFromMessage input.Message input.MemoryStore = (actionName, payload, none) ∧
      ConvertToSchema E (anyType E) payload = (typed, none) ∧
      spec.hookError skill.GetHooks.PreAction typed = none ∧
      skill.GetActions.get actionName = some action ∧
      executeAction action (spec.afterHook skill.GetHooks.PreAction typed) = none ∧
      spec.hookError skill.GetHooks.PostAction
        (spec.afterHook skill.GetHooks.PreAction typed) = none := by
  unfold executeActionWorkflow at h
  rcases hg : GetActionDetailsFromMessage input.Message input.MemoryStore with
    ⟨actionName, payload, e0⟩
  cases e0 with
  | some e0 => simp only [hg] at h; cases h
  | none =>
    rcases hc : ConvertToSchema E (anyType E) payload with ⟨typed, e1⟩
    cases e1 with
    | some e1 => simp only [hg, hc] at h; cases h
    | none =>
      simp only [hg, hc] at h
      refine ⟨actionName, payload, typed, ?_⟩
      cases hpre : skill.GetHooks.PreAction with
      | none =>
        simp only [hpre] at h
        cases hact : skill.GetActions.get actionName with
        | none => simp only [hact] at h; cases h
        | some action =>
          simp only [hact] at h
          cases hx : executeAction action typed with
          | some e2 => simp only [hx] at h; cases h
          | none =>
            simp only [hx] at h
            refine ⟨action, rfl, hc, rfl, rfl, hx, ?_⟩
            cases hpost : skill.GetHooks.PostAction with
            | none => rfl
            | some post =>
              simp only [hpost] at h
              rcases hp : executeHook post typed with ⟨e3, out⟩
              cases e3 with
              | some e3 => simp only [hp] at h; cases h
              | none => simp [spec.hookError, spec.afterHook, hp]
      | some hook =>
        rcases hh : executeHook hook typed with ⟨e2, out⟩
        cases e2 with
        | some e2 => simp only [hpre, hh] at h; cases h
        | none =>
          simp only [hpre, hh] at h
          cases hact : skill.GetActions.get actionName with
          | none => simp only [hact] at h; cases h
          | some action =>
            simp only [hact] at h
            cases hx : executeAction action out with
            | some e3 => simp only [hx] at h; cases h
            | none =>
              simp only [hx] at h
              refine ⟨action, rfl, hc, by simp [spec.hookError, hh], rfl,
                by simpa [spec.afterHook, hh] using hx, ?_⟩
              cases hpost : skill.GetHooks.PostAction with
              | none => rfl
              | some post =>
                simp only [hpost] at h
                rcases hp : executeHook post out with ⟨e4, out1⟩
                cases e4 with
                | some e4 => simp only [hp] at h; cases h
                | none => simp [spec.hookError, spec.afterHook, hh, hp]

/-- When the query path returns no error, every step of it has succeeded: the
LLM answered, the answer was converted, the three hooks succeeded and every
validator accepted the payload. So a failure of any step is an error of
`executeLLMWorkflow`. -/
theorem executeLLMWorkflow_no_error (E : Env) (skill : BaseSkill) (input : WorkflowInput)
    (eff : Effect (Value × Option GoError))
    (hret : executeLLMWorkflow E skill input = Outcome.returns eff)
    (h : eff.result.2 = none) :
    ∃ client response typed payload hookCalls validatorCalls,
      input.LLMClient = some client ∧
      client.QueryWithSchema
          ({ Role := openai.RoleSystem, Content := skill.GetPrompt } :: input.ChatHistory)
          skill.GetSchema = .ok response ∧
      ConvertToSchema E (anyType E) response = (typed, none) ∧
      runHooks [("PostLLMRequest", skill.GetHooks.PostLLMRequest),
          ("PreValidate", skill.GetHooks.PreValidate),
          ("PostValidate", skill.GetHooks.PostValidate)] typed = (none, payload, hookCalls) ∧
      runValidators skill.GetValidators payload = (none, validatorCalls) ∧
      eff.result = (payload, none) := by
  unfold executeLLMWorkflow at hret
  simp only at hret
  cases hc : input.LLMClient with
  | none => simp only [hc] at hret; cases hret
  | some client =>
    simp only [hc] at hret
    cases hq : client.QueryWithSchema
        ({ Role := openai.RoleSystem, Content := skill.GetPrompt } :: input.ChatHistory)
        skill.GetSchema with
    | error err =>
      simp only [hq] at hret
      cases hret
      cases h
    | ok response =>
      simp only [hq] at hret
      rcases hconv : ConvertToSchema E (anyType E) response with ⟨typed, e⟩
      cases e with
      | some err =>
        simp only [hconv] at hret
        cases hret
        cases h
      | none =>
        simp only [hconv] at hret
        rcases hh : runHooks [("PostLLMRequest", skill.GetHooks.PostLLMRequest),
            ("PreValidate", skill.GetHooks.PreValidate),
            ("PostValidate", skill.GetHooks.PostValidate)] typed with ⟨he, payload, hookCalls⟩
        cases he with
        | some err =>
          simp only [hh] at hret
          cases hret
          cases h
        | none =>
          simp only [hh] at hret
          rcases hv : runValidators skill.GetValidators payload with ⟨ve, validatorCalls⟩
          cases ve with
          | some err =>
            simp only [hv] at hret
            cases hret
            cases h
          | none =>
            simp only [hv] at hret
            cases hret
            exact ⟨client, response, typed, payload, hookCalls, validatorCalls, rfl, hq, hconv, hh,
              hv, rfl⟩

/-- C12: whenever `processWorkflow` returns with an execution error `e`, its
template data is the map with "error" set to the message of `e` and "success"
set to false, its template is `DefaultErrorTemplate` and no skill is attached;
at render time the template and the data then reach the renderer as they are,
without an available-actions block, whatever the input. And every failure ends
in this way: an invalid input, a skill matcher error, an error of the action
path and an error of the query path each make `processWorkflow` return the
failure result of that error; the action path and the query path return an
error as soon as one of their steps fails. -/
theorem processWorkflow_uniform_failure (E : Env) (input : WorkflowInput) :
    (∀ (eff : Effect workflowProcessResult) (e : GoError),
        processWorkflow E input = Outcome.returns eff → eff.result.executionError = some e →
        eff.result.templateData =
            Value.obj [("error", Value.str e.Error), ("success", Value.bool false)] ∧
          eff.result.templateToUse = DefaultErrorTemplate ∧
          eff.result.baseSkill = none ∧
          ∀ input1 : WorkflowInput,
            renderWorkflowResponse E eff.result.templateData eff.result.templateToUse
                eff.result.baseSkill eff.result.executionError input1 =
              Outcome.returns (template.RenderAgentTemplate E DefaultErrorTemplate
                (Value.obj [("error", Value.str e.Error), ("success", Value.bool false)]))) ∧
      (∀ err, validateWorkflowInput input = some err →
        processWorkflow E input =
          Outcome.returns
            { result := failureResult
                (GoError.wrapf (ErrInvalidInput.Error ++ ": " ++ err.Error) ErrInvalidInput),
              store := input.MemoryStore, calls := [] }) ∧
      (∀ skillMatcher skillErr, validateWorkflowInput input = none →
        input.SkillMatcher = some skillMatcher →
        skillMatcher input.Message input.Agent = .error skillErr →
        processWorkflow E input =
          Outcome.returns
            { result := failureResult
                (GoError.wrapf (ErrSkillNotFound.Error ++ ": " ++ skillErr.Error)
                  ErrSkillNotFound),
              store := input.MemoryStore, calls := [Call.skillMatcher input.Message] }) ∧
      (∀ skillMatcher skill err, validateWorkflowInput input = none →
        input.SkillMatcher = some skillMatcher →
        skillMatcher input.Message input.Agent = .ok skill → input.IsAction = true →
        (executeActionWorkflow E skill input).1.2 = some err →
        ∃ eff, processWorkflow E input = Outcome.returns eff ∧
          eff.result = failureResult err ∧
          eff.calls = Call.skillMatcher input.Message ::
            (executeActionWorkflow E skill input).2) ∧
      (∀ skillMatcher skill eff1 err, validateWorkflowInput input = none →
        input.SkillMatcher = some skillMatcher →
        skillMatcher input.Message input.Agent = .ok skill → input.IsAction = false →
        executeLLMWorkflow E skill input = Outcome.returns eff1 → eff1.result.2 = some err →
        processWorkflow E input =
          Outcome.returns
            { result := failureResult err, store := eff1.store,
              calls := Call.skillMatcher input.Message :: eff1.calls }) ∧
      (∀ skill : BaseSkill, (executeActionWorkflow E skill input).1.2 = none →
        ∃ actionName payload typed action,
          GetActionDetailsFromMessage input.Message input.MemoryStore =
            (actionName, payload, none) ∧
          ConvertToSchema E (anyType E) payload = (typed, none) ∧
          spec.hookError skill.GetHooks.PreAction typed = none ∧
          skill.GetActions.get actionName = some action ∧
          executeAction action (spec.afterHook skill.GetHooks.PreAction typed) = none ∧
          spec.hookError skill.GetHooks.PostAction
            (spec.afterHook skill.GetHooks.PreAction typed) = none) ∧
      (∀ (skill : BaseSkill) (eff1 : Effect (Value × Option GoError)),
        executeLLMWorkflow E skill input = Outcome.returns eff1 → eff1.result.2 = none →
        ∃ client response typed payload hookCalls validatorCalls,
          input.LLMClient = some client ∧
          client.QueryWithSchema
              ({ Role := openai.RoleSystem, Content := skill.GetPrompt } :: input.ChatHistory)
              skill.GetSchema = .ok response ∧
          ConvertToSchema E (anyType E) response = (typed, none) ∧
          runHooks [("PostLLMRequest", skill.GetHooks.PostLLMRequest),
              ("PreValidate", skill.GetHooks.PreValidate),
              ("PostValidate", skill.GetHooks.PostValidate)] typed =
            (none, payload, hookCalls) ∧
          runValidators skill.GetValidators payload = (none, validatorCalls) ∧
          eff1.result = (payload, none)) := by
  refine ⟨?_, ?_, ?_, ?_, ?_, fun skill => executeActionWorkflow_no_error E skill input,
    fun skill => executeLLMWorkflow_no_error E skill input⟩
  · intro eff e hret herr
    have h := processWorkflow_error_result E input eff e hret herr
    rw [h]
    exact ⟨rfl, rfl, rfl, fun _ => rfl⟩
  · intro err hv
    simp only [processWorkflow, hv]
  · intro skillMatcher skillErr hv hm hs
    simp only [processWorkflow, hv, hm, hs]
  · intro skillMatcher skill err hv hm hs hact herr
    simp only [processWorkflow, hv, hm, hs, hact, if_true]
    rcases hx : executeActionWorkflow E skill input with ⟨⟨templateData, e⟩, calls⟩
    rw [hx] at herr
    simp only at herr
    subst herr
    exact ⟨_, rfl, rfl, rfl⟩
  · intro skillMatcher skill eff1 err hv hm hs hact hret herr
    simp only [processWorkflow, hv, hm, hs, hact, Bool.false_eq_true, if_false, hret]
    rcases hres : eff1.result with ⟨templateData, e⟩
    rw [hres] at herr
    simp only at herr
    subst herr
    rfl

theorem processWorkflow_uniform_failure_witness :
    processWorkflow demo.env demo.unmatchedInput =
        Outcome.returns (Effect.mk
          (failureResult (GoError.wrapf "no suitable skill found: no suitable skill found"
            ErrSkillNotFound))
          (some demo.seededStore) [Call.skillMatcher "hello world"]) ∧
      (failureResult (GoError.wrapf "no suitable skill found: no suitable skill found"
          ErrSkillNotFound)).templateData =
        Value.obj [("error", Value.str "no suitable skill found: no suitable skill found"),
          ("success", Value.bool false)] ∧
      ∃ eff, processWorkflow demo.env (demo.actionInput demo.guardedSkill) =
          Outcome.returns eff ∧
        eff.result = failureResult
          (GoError.wrapf "pre-action hook failed: blocked by policy"
            (GoError.new "blocked by policy")) ∧
        eff.calls = Call.skillMatcher "@ber approve ab12cd34" ::
          (executeActionWorkflow demo.env demo.guardedSkill
            (demo.actionInput demo.guardedSkill)).2 :=
  ⟨rfl, ((processWorkflow_uniform_failure demo.env demo.unmatchedInput).1
    (Effect.mk
      (failureResult (GoError.wrapf "no suitable skill found: no suitable skill found"
        ErrSkillNotFound))
      (some demo.seededStore) [Call.skillMatcher "hello world"])
    (GoError.wrapf "no suitable skill found: no suitable skill found" ErrSkillNotFound)
    rfl rfl).1,
    (processWorkflow_uniform_failure demo.env (demo.actionInput demo.guardedSkill)).2.2.2.1
      (fun _ _ => .ok demo.guardedSkill) demo.guardedSkill
      (GoError.wrapf "pre-action hook failed: blocked by policy"
        (GoError.new "blocked by policy")) rfl rfl rfl rfl rfl⟩

/-! ## The query path (`executeLLMWorkflow`) -/

/-- When some validator of the map fails on the payload, the loop stops at the
first one that does and names it in its error. -/
theorem runValidators_failure (vs : GoMap AnyFunc) (v : Value)
    (hfail : ∃ nv ∈ vs, executeValidator nv.2 v ≠ none) :
    ∃ name validator err calls, (name, validator) ∈ vs ∧
      executeValidator validator v = some err ∧
      runValidators vs v =
        (some (GoError.wrapf ("Validator " ++ name ++ " failed:\n " ++ err.Error) err), calls) := by
  induction vs with
  | nil =>
    obtain ⟨nv, hmem, _⟩ := hfail
    cases hmem
  | cons head rest ih =>
    obtain ⟨name, validator⟩ := head
    cases hv : executeValidator validator v with
    | some err =>
      exact ⟨name, validator, err, [Call.validator name v], List.mem_cons_self _ _, hv,
        by simp [runValidators, hv]⟩
    | none =>
      have hrest : ∃ nv ∈ rest, executeValidator nv.2 v ≠ none := by
        obtain ⟨nv, hmem, hne⟩ := hfail
        rcases List.mem_cons.mp hmem with rfl | hmem
        · exact absurd hv hne
        · exact ⟨nv, hmem, hne⟩
      obtain ⟨name1, validator1, err, calls, hmem, herr, hrun⟩ := ih hrest
      exact ⟨name1, validator1, err, Call.validator name v :: calls,
        List.mem_cons_of_mem _ hmem, herr, by simp [runValidators, hv, hrun]⟩

/-- When every validator of the map accepts the payload, the loop runs each of
them on it, in order. -/
theorem runValidators_success (vs : GoMap AnyFunc) (v : Value)
    (hok : ∀ nv ∈ vs, executeValidator nv.2 v = none) :
    runValidators vs v = (none, vs.map (fun nv => Call.validator nv.1 v)) := by
  induction vs with
  | nil => rfl
  | cons head rest ih =>
    obtain ⟨name, validator⟩ := head
    have hv : executeValidator validator v = none := hok (name, validator) (List.mem_cons_self _ _)
    have hrest := ih (fun nv hmem => hok nv (List.mem_cons_of_mem _ hmem))
    simp [runValidators, hv, hrest]

/-- C13: in a query workflow that reaches the validators with payload `v`, if
some validator of the skill fails on `v`, then `executeLLMWorkflow` returns the
nil payload and an error whose message starts with "Validator <name> failed",
`<name>` being a key of the skill's validators whose validator fails on `v`;
and the error data that `processWorkflow` then returns carries that message. -/
theorem executeLLMWorkflow_validator_failure (E : Env) (skill : BaseSkill)
    (input : WorkflowInput) (client : openai.Client) (response typed v : Value)
    (hookCalls : List Call)
    (hclient : input.LLMClient = some client)
    (hquery : client.QueryWithSchema
      ({ Role := openai.RoleSystem, Content := skill.GetPrompt } :: input.ChatHistory)
      skill.GetSchema = .ok response)
    (hconv : ConvertToSchema E (anyType E) response = (typed, none))
    (hhooks : runHooks [("PostLLMRequest", skill.GetHooks.PostLLMRequest),
      ("PreValidate", skill.GetHooks.PreValidate),
      ("PostValidate", skill.GetHooks.PostValidate)] typed = (none, v, hookCalls))
    (hfail : ∃ nv ∈ skill.GetValidators, executeValidator nv.2 v ≠ none) :
    ∃ name validator err eff, (name, validator) ∈ skill.GetValidators ∧
      executeValidator validator v = some err ∧
      executeLLMWorkflow E skill input = Outcome.returns eff ∧
      eff.result = (Value.null,
        some (GoError.wrapf ("Validator " ++ name ++ " failed:\n " ++ err.Error) err)) ∧
      strings.HasPrefix
        (GoError.wrapf ("Validator " ++ name ++ " failed:\n " ++ err.Error) err).Error
        ("Validator " ++ name ++ " failed") = true ∧
      ∀ skillMatcher, validateWorkflowInput input = none →
        input.SkillMatcher = some skillMatcher →
        skillMatcher input.Message input.Agent = .ok skill → input.IsAction = false →
        ∃ eff1, processWorkflow E input = Outcome.returns eff1 ∧
          eff1.result.templateData =
            Value.obj [("error",
              Value.str ("Validator " ++ name ++ " failed:\n " ++ err.Error)),
              ("success", Value.bool false)] := by
  obtain ⟨name, validator, err, calls, hmem, herr, hrun⟩ :=
    runValidators_failure skill.GetValidators v hfail
  have hexec : executeLLMWorkflow E skill input =
      Outcome.returns
        { result := (Value.null,
            some (GoError.wrapf ("Validator " ++ name ++ " failed:\n " ++ err.Error) err)),
          store := input.MemoryStore,
          calls := [Call.queryWithSchema
            ({ Role := openai.RoleSystem, Content := skill.GetPrompt } :: input.ChatHistory)
            skill.GetSchema] ++ hookCalls ++ calls } := by
    simp only [executeLLMWorkflow, hclient, hquery, hconv, hhooks, hrun]
  refine ⟨name, validator, err, _, hmem, herr, hexec, rfl, ?_, ?_⟩
  · have hsplit : (" failed:\n " : String) = " failed" ++ ":\n " := by decide
    simp only [GoError.Error, hsplit, ← String.append_assoc]
    rw [String.append_assoc ("Validator " ++ name ++ " failed")]
    exact HasPrefix_append _ _
  · intro skillMatcher hvalid hmatcher hskill haction
    refine ⟨Effect.mk
      (failureResult (GoError.wrapf ("Validator " ++ name ++ " failed:\n " ++ err.Error) err))
      input.MemoryStore
      (Call.skillMatcher input.Message ::
        ([Call.queryWithSchema
          ({ Role := openai.RoleSystem, Content := skill.GetPrompt } :: input.ChatHistory)
          skill.GetSchema] ++ hookCalls ++ calls)), ?_, ?_⟩
    · simp only [processWorkflow, hvalid, hmatcher, hskill, haction, hexec]
      rfl
    · simp [failureResult, GoError.Error]

theorem executeLLMWorkflow_validator_failure_witness :
    executeLLMWorkflow demo.env demo.dnsSkill (demo.queryInput demo.dnsSkill) =
        Outcome.returns
          { result := (Value.null,
              some (GoError.wrapf
                "Validator Allowed Domains failed:\n invalid domain: evil.example.org"
                (GoError.new "invalid domain: evil.example.org"))),
            store := some demo.seededStore,
            calls := [Call.queryWithSchema [{ Role := "system", Content := "dns prompt" }]
                (Value.obj []),
              Call.validator "Valid DNS Record" (Value.arr []),
              Call.validator "Allowed Domains" (Value.arr [])] } ∧
      ∃ name eff, executeLLMWorkflow demo.env demo.dnsSkill (demo.queryInput demo.dnsSkill) =
          Outcome.returns eff ∧
        strings.HasPrefix ((eff.result.2.map GoError.Error).getD "")
          ("Validator " ++ name ++ " failed") = true := by
  refine ⟨rfl, ?_⟩
  obtain ⟨name, _, err, eff, _, _, hexec, hres, hpre, _⟩ :=
    executeLLMWorkflow_validator_failure demo.env demo.dnsSkill (demo.queryInput demo.dnsSkill)
      demo.listClient (Value.arr []) (Value.arr []) (Value.arr []) [] rfl rfl rfl rfl
      ⟨("Allowed Domains", demo.allowedDomains),
        List.mem_cons_of_mem _ (List.mem_cons_self _ _), by decide⟩
  exact ⟨name, eff, hexec, by rw [hres]; exact hpre⟩

theorem GoMap_get_set_self {α : Type} (m : GoMap α) (k : String) (v : α) :
    (m.set k v).get k = some v := by
  induction m with
  | nil => simp [GoMap.set, GoMap.get, List.lookup]
  | cons head rest ih =>
    obtain ⟨k0, v0⟩ := head
    by_cases h : k0 = k
    · simp [GoMap.set, GoMap.get, List.lookup, h]
    · have hne : (k == k0) = false := by simpa using fun heq => h heq.symm
      simp only [GoMap.set, h, if_false, GoMap.get, List.lookup, hne]
      exact ih

theorem GoMap_get_set_ne {α : Type} (m : GoMap α) (k k1 : String) (v : α) (hne : k1 ≠ k) :
    (m.set k v).get k1 = m.get k1 := by
  induction m with
  | nil =>
    have h : (k1 == k) = false := by simpa using hne
    simp [GoMap.set, GoMap.get, List.lookup, h]
  | cons head rest ih =>
    obtain ⟨k0, v0⟩ := head
    by_cases h : k0 = k
    · subst h
      have h1 : (k1 == k0) = false := by simpa using hne
      simp [GoMap.set, GoMap.get, List.lookup, h1]
    · simp only [GoMap.set, h, if_false, GoMap.get, List.lookup]
      cases hk : k1 == k0 with
      | true => rfl
      | false => exact ih

/-- After the storing loop of `executeLLMWorkflow` a key holds the response if
it is one of the keys "<actionName>-<workflowId>", and what it held before
otherwise. -/
theorem storeResponse_get (actions : GoMap AnyFunc) (st : MemoryStore) (w : String)
    (v : Value) (k : String) :
    (storeResponse st actions w v).data.get k =
      if k ∈ actions.map (fun e => e.1 ++ "-" ++ w) then some v else st.data.get k := by
  unfold storeResponse
  induction actions generalizing st with
  | nil => simp
  | cons head rest ih =>
    simp only [List.foldl_cons, List.map_cons, List.mem_cons]
    rw [ih]
    by_cases hrest : k ∈ rest.map (fun e => e.1 ++ "-" ++ w)
    · simp [hrest]
    · by_cases hk : k = head.1 ++ "-" ++ w
      · subst hk
        simp [hrest, MemoryStore.Set, GoMap_get_set_self]
      · simp [hrest, hk, MemoryStore.Set, GoMap_get_set_ne _ _ _ _ hk]

/-- What `executeLLMWorkflow` leaves in the store: after a success, the store
with the payload written under each action key (when there is a store); after
an error, the store as it was. -/
theorem executeLLMWorkflow_store (E : Env) (skill : BaseSkill) (input : WorkflowInput)
    (eff : Effect (Value × Option GoError))
    (hret : executeLLMWorkflow E skill input = Outcome.returns eff) :
    (∀ payload, eff.result = (payload, none) →
        eff.store = input.MemoryStore.map (fun st =>
          if skill.GetActions.length > 0 then
            storeResponse st skill.GetActions input.WorkflowId payload
          else st)) ∧
      (∀ payload e, eff.result = (payload, some e) → eff.store = input.MemoryStore) := by
  unfold executeLLMWorkflow at hret
  simp only at hret
  split at hret
  · cases hret
  · split at hret
    · cases hret
      simp
    · split at hret
      · cases hret
        simp
      · split at hret
        · cases hret
          simp
        · split at hret
          · cases hret
            simp
          · cases hret
            refine ⟨?_, by simp⟩
            intro payload hp
            simp only [Prod.mk.injEq, and_true] at hp
            subst hp
            cases input.MemoryStore with
            | none => simp
            | some st => simp only [Option.map_some', gt_iff_lt]; split <;> rfl

/-- C14: after a query workflow that succeeds with payload `payload` on a
store `st`, the store maps every key "<a>-<workflowId>", `a` an action name of
the skill, to `payload`, and every other key to what `st` held; when the skill
has no actions the store is `st`. -/
theorem executeLLMWorkflow_persists_payload (E : Env) (skill : BaseSkill)
    (input : WorkflowInput) (st : MemoryStore) (eff : Effect (Value × Option GoError))
    (payload : Value)
    (hst : input.MemoryStore = some st)
    (hret : executeLLMWorkflow E skill input = Outcome.returns eff)
    (hok : eff.result = (payload, none)) :
    ∃ st1, eff.store = some st1 ∧
      (∀ a ∈ spec.keys skill.GetActions,
        st1.Get (a ++ "-" ++ input.WorkflowId) = (payload, true)) ∧
      (∀ k, (∀ a ∈ spec.keys skill.GetActions, k ≠ a ++ "-" ++ input.WorkflowId) →
        st1.Get k = st.Get k) ∧
      (skill.GetActions = [] → st1 = st) := by
  have hstore := (executeLLMWorkflow_store E skill input eff hret).1 payload hok
  rw [hst] at hstore
  have hsame : (if skill.GetActions.length > 0 then
      storeResponse st skill.GetActions input.WorkflowId payload else st) =
      storeResponse st skill.GetActions input.WorkflowId payload := by
    split
    · rfl
    · next hlen =>
      have hnil : skill.GetActions = [] := by
        cases hact : skill.GetActions with
        | nil => rfl
        | cons _ _ => rw [hact] at hlen; simp at hlen
      rw [hnil]
      rfl
  simp only [Option.map_some', hsame] at hstore
  refine ⟨_, hstore, ?_, ?_, ?_⟩
  · intro a ha
    have hmem : a ++ "-" ++ input.WorkflowId ∈
        skill.GetActions.map (fun e => e.1 ++ "-" ++ input.WorkflowId) := by
      obtain ⟨e, he, rfl⟩ := List.mem_map.mp ha
      exact List.mem_map.mpr ⟨e, he, rfl⟩
    simp only [MemoryStore.Get, storeResponse_get, hmem, if_true]
  · intro k hk
    have hmem : k ∉ skill.GetActions.map (fun e => e.1 ++ "-" ++ input.WorkflowId) := by
      intro hin
      obtain ⟨e, he, rfl⟩ := List.mem_map.mp hin
      exact hk e.1 (List.mem_map.mpr ⟨e, he, rfl⟩) rfl
    simp only [MemoryStore.Get, storeResponse_get, hmem, if_false]
  · intro hnil
    rw [hnil]
    rfl

theorem executeLLMWorkflow_persists_payload_witness :
    executeLLMWorkflow demo.env demo.hookedSkill (demo.queryInput demo.hookedSkill) =
        Outcome.returns demo.hookedQueryEffect ∧
      ∃ st1, demo.hookedQueryEffect.store = some st1 ∧
        st1.Get "approve-00ff00ff00ff00ff" = (demo.hookedPayload, true) ∧
        st1.Get "approve-ab12cd34" = demo.seededStore.Get "approve-ab12cd34" := by
  refine ⟨rfl, ?_⟩
  obtain ⟨st1, hs, hkeys, hother, _⟩ :=
    executeLLMWorkflow_persists_payload demo.env demo.hookedSkill
      (demo.queryInput demo.hookedSkill) demo.seededStore demo.hookedQueryEffect
      demo.hookedPayload rfl rfl rfl
  refine ⟨st1, hs, hkeys "approve" (by simp [spec.keys, demo.hookedSkill]), ?_⟩
  apply hother
  intro a ha
  simp only [spec.keys, demo.hookedSkill, List.map_cons, List.map_nil, List.mem_singleton] at ha
  subst ha
  decide

/-! ## The action path (`executeActionWorkflow`) -/

/-- The action path when every step succeeds: the payload after the PostAction
hook is returned, and the calls are the PreAction hook (if present), the action
handler, the PostAction hook (if present). -/
theorem executeActionWorkflow_success (E : Env) (skill : BaseSkill) (input : WorkflowInput)
    (name : String) (payload typed : Value) (action : AnyFunc)
    (hfound : GetActionDetailsFromMessage input.Message input.MemoryStore = (name, payload, none))
    (hconv : ConvertToSchema E (anyType E) payload = (typed, none))
    (hpre : spec.hookError skill.GetHooks.PreAction typed = none)
    (hreg : skill.GetActions.get name = some action)
    (hact : executeAction action (spec.afterHook skill.GetHooks.PreAction typed) = none)
    (hpost : spec.hookError skill.GetHooks.PostAction
      (spec.afterHook skill.GetHooks.PreAction typed) = none) :
    executeActionWorkflow E skill input =
      ((spec.afterHook skill.GetHooks.PostAction (spec.afterHook skill.GetHooks.PreAction typed),
          none),
        spec.hookCalls "PreAction" skill.GetHooks.PreAction typed ++
          [Call.action name (spec.afterHook skill.GetHooks.PreAction typed)] ++
          spec.hookCalls "PostAction" skill.GetHooks.PostAction
            (spec.afterHook skill.GetHooks.PreAction typed)) := by
  unfold executeActionWorkflow
  simp only [hfound, hconv]
  cases hP : skill.GetHooks.PreAction with
  | none =>
    simp only [hP, spec.afterHook, spec.hookError, spec.hookCalls] at hpre hact hpost ⊢
    simp only [hreg, hact]
    cases hQ : skill.GetHooks.PostAction with
    | none => simp
    | some post =>
      simp only [hQ] at hpost
      rcases hx : executeHook post typed with ⟨e, out⟩
      rw [hx] at hpost
      simp only at hpost
      subst hpost
      simp [hx]
  | some pre =>
    simp only [hP, spec.afterHook, spec.hookError, spec.hookCalls] at hpre hact hpost ⊢
    rcases hy : executeHook pre typed with ⟨e1, out1⟩
    rw [hy] at hpre hact hpost
    simp only at hpre hact hpost
    subst hpre
    simp only [hreg, hact]
    cases hQ : skill.GetHooks.PostAction with
    | none => simp
    | some post =>
      simp only [hQ] at hpost
      rcases hx : executeHook post out1 with ⟨e, out⟩
      rw [hx] at hpost
      simp only at hpost
      subst hpost
      simp [hx]

/-- C15: on an action command whose payload is found and converted, with the
named action registered on the matched skill, and the PreAction hook, the
action handler and the PostAction hook (each if present) succeeding,
`processWorkflow` returns no error, the fixed success template and the success
data; after the skill matcher the calls are the PreAction hook (if present),
the handler once, the PostAction hook (if present); and at render time the
template and data reach the renderer without an available-actions block. -/
theorem processWorkflow_action_success (E : Env) (input : WorkflowInput) (skill : BaseSkill)
    (skillMatcher : String → Option BERAgent → Except GoError BaseSkill)
    (name : String) (payload typed : Value) (action : AnyFunc)
    (hvalid : validateWorkflowInput input = none)
    (hmatcher : input.SkillMatcher = some skillMatcher)
    (hskill : skillMatcher input.Message input.Agent = .ok skill)
    (haction : input.IsAction = true)
    (hfound : GetActionDetailsFromMessage input.Message input.MemoryStore = (name, payload, none))
    (hconv : ConvertToSchema E (anyType E) payload = (typed, none))
    (hpre : spec.hookError skill.GetHooks.PreAction typed = none)
    (hreg : skill.GetActions.get name = some action)
    (hact : executeAction action (spec.afterHook skill.GetHooks.PreAction typed) = none)
    (hpost : spec.hookError skill.GetHooks.PostAction
      (spec.afterHook skill.GetHooks.PreAction typed) = none) :
    ∃ eff, processWorkflow E input = Outcome.returns eff ∧
      eff.result.executionError = none ∧
      eff.result.templateToUse =
        "\x7b\x7bif .success\x7d\x7d\x7b\x7b.message\x7d\x7d\x7b\x7belse\x7d\x7d\x7b\x7b.error\x7d\x7d\x7b\x7bend\x7d\x7d" ∧
      eff.result.templateData =
        Value.obj [("success", Value.bool true),
          ("message", Value.str "✅ Action executed successfully")] ∧
      eff.calls =
        [Call.skillMatcher input.Message] ++
          spec.hookCalls "PreAction" skill.GetHooks.PreAction typed ++
          [Call.action name (spec.afterHook skill.GetHooks.PreAction typed)] ++
          spec.hookCalls "PostAction" skill.GetHooks.PostAction
            (spec.afterHook skill.GetHooks.PreAction typed) ∧
      renderWorkflowResponse E eff.result.templateData eff.result.templateToUse
          eff.result.baseSkill eff.result.executionError input =
        Outcome.returns (template.RenderAgentTemplate E
          "\x7b\x7bif .success\x7d\x7d\x7b\x7b.message\x7d\x7d\x7b\x7belse\x7d\x7d\x7b\x7b.error\x7d\x7d\x7b\x7bend\x7d\x7d"
          (Value.obj [("success", Value.bool true),
            ("message", Value.str "✅ Action executed successfully")])) := by
  have hexec := executeActionWorkflow_success E skill input name payload typed action
    hfound hconv hpre hreg hact hpost
  refine ⟨Effect.mk
    (workflowProcessResult.mk
      (Value.obj [("success", Value.bool true),
        ("message", Value.str "✅ Action executed successfully")])
      "\x7b\x7bif .success\x7d\x7d\x7b\x7b.message\x7d\x7d\x7b\x7belse\x7d\x7d\x7b\x7b.error\x7d\x7d\x7b\x7bend\x7d\x7d"
      (some skill) none)
    input.MemoryStore
    (Call.skillMatcher input.Message ::
      (spec.hookCalls "PreAction" skill.GetHooks.PreAction typed ++
        [Call.action name (spec.afterHook skill.GetHooks.PreAction typed)] ++
        spec.hookCalls "PostAction" skill.GetHooks.PostAction
          (spec.afterHook skill.GetHooks.PreAction typed))), ?_, ?_⟩
  · simp only [processWorkflow, hvalid, hmatcher, hskill, haction, hexec, if_true]
  · refine ⟨rfl, rfl, rfl, ?_, ?_⟩
    · simp
    · simp [renderWorkflowResponse, haction]

theorem processWorkflow_action_success_witness :
    ∃ eff, processWorkflow demo.env (demo.actionInput demo.hookedSkill) = Outcome.returns eff ∧
      eff.result.executionError = none ∧
      eff.result.templateData =
        Value.obj [("success", Value.bool true),
          ("message", Value.str "✅ Action executed successfully")] ∧
      eff.calls = [Call.skillMatcher "@ber approve ab12cd34",
        Call.hook "PreAction" demo.payload, Call.action "approve" demo.payload,
        Call.hook "PostAction" demo.payload] := by
  obtain ⟨eff, hret, herr, _, hdata, hcalls, _⟩ :=
    processWorkflow_action_success demo.env (demo.actionInput demo.hookedSkill) demo.hookedSkill
      (fun _ _ => .ok demo.hookedSkill) "approve" demo.payload demo.payload demo.approve
      rfl rfl rfl rfl rfl rfl rfl rfl rfl rfl
  exact ⟨eff, hret, herr, hdata, by rw [hcalls]; rfl⟩

/-- C16 (counterexample): the command "@ber approve ab12cd34" on the seeded
store parses to the action name "approve", which is not a key of the actions of
`guardedSkill`; its PreAction hook fails, and `executeActionWorkflow` returns
the error "pre-action hook failed: blocked by policy", not "action approve not
found". -/
theorem executeActionWorkflow_pre_action_error_first :
    (GetActionDetailsFromMessage "@ber approve ab12cd34" (some demo.seededStore)).1 = "approve" ∧
      (GetActionDetailsFromMessage "@ber approve ab12cd34" (some demo.seededStore)).2.2 = none ∧
      (demo.guardedSkill.GetActions.get "approve").isNone = true ∧
      (executeActionWorkflow demo.env demo.guardedSkill
          (demo.actionInput demo.guardedSkill)).1.2 =
        some (GoError.wrapf "pre-action hook failed: blocked by policy"
          (GoError.new "blocked by policy")) ∧
      (executeActionWorkflow demo.env demo.guardedSkill
          (demo.actionInput demo.guardedSkill)).1.2 ≠
        some (GoError.new "action approve not found") := by
  decide

/-- C16 (amended): when the payload of an action command is found and
converted and the parsed action name is not a key of the skill's actions, then
`executeActionWorkflow` fails with "action <name> not found" if the PreAction
hook is absent or succeeds, and with "pre-action hook failed: ..." if that
hook fails; in both cases the only call made is the PreAction hook, so no
action handler and no PostAction hook is executed. -/
theorem executeActionWorkflow_action_not_found (E : Env) (skill : BaseSkill)
    (input : WorkflowInput) (name : String) (payload typed : Value)
    (hfound : GetActionDetailsFromMessage input.Message input.MemoryStore = (name, payload, none))
    (hconv : ConvertToSchema E (anyType E) payload = (typed, none))
    (hmiss : skill.GetActions.get name = none) :
    (spec.hookError skill.GetHooks.PreAction typed = none →
        executeActionWorkflow E skill input =
          ((Value.null, some (GoError.new ("action " ++ name ++ " not found"))),
            spec.hookCalls "PreAction" skill.GetHooks.PreAction typed)) ∧
      (∀ err, spec.hookError skill.GetHooks.PreAction typed = some err →
        executeActionWorkflow E skill input =
          ((Value.null, some (GoError.wrapf ("pre-action hook failed: " ++ err.Error) err)),
            spec.hookCalls "PreAction" skill.GetHooks.PreAction typed)) ∧
      (∀ c ∈ (executeActionWorkflow E skill input).2, c = Call.hook "PreAction" typed) := by
  unfold executeActionWorkflow
  simp only [hfound, hconv]
  cases hP : skill.GetHooks.PreAction with
  | none => simp [spec.hookError, spec.hookCalls, hmiss]
  | some pre =>
    simp only [spec.hookError, spec.hookCalls]
    rcases hy : executeHook pre typed with ⟨e1, out1⟩
    cases e1 with
    | none => simp [hmiss]
    | some err => simp

theorem executeActionWorkflow_action_not_found_witness :
    executeActionWorkflow demo.env (demo.plainSkill "echo" "Repeat the message")
        (demo.actionInput (demo.plainSkill "echo" "Repeat the message")) =
      ((Value.null, some (GoError.new ("action " ++ "approve" ++ " not found"))),
        spec.hookCalls "PreAction" (demo.plainSkill "echo" "Repeat the message").GetHooks.PreAction
          demo.payload) :=
  (executeActionWorkflow_action_not_found demo.env (demo.plainSkill "echo" "Repeat the message")
    (demo.actionInput (demo.plainSkill "echo" "Repeat the message")) "approve" demo.payload
    demo.payload rfl rfl rfl).1 rfl

/-- One step of the hook loop of `executeLLMWorkflow`. -/
theorem runHooks_cons (name : String) (hook : Option HookFunc)
    (hs : List (String × Option HookFunc)) (v : Value) :
    runHooks ((name, hook) :: hs) v =
      match spec.hookError hook v with
      | some err =>
          (some (GoError.wrapf (name ++ " hook failed: " ++ err.Error) err), v,
            spec.hookCalls name hook v)
      | none =>
          ((runHooks hs (spec.afterHook hook v)).1, (runHooks hs (spec.afterHook hook v)).2.1,
            spec.hookCalls name hook v ++ (runHooks hs (spec.afterHook hook v)).2.2) := by
  cases hook with
  | none => simp [runHooks, spec.hookError, spec.afterHook, spec.hookCalls]
  | some h =>
    simp only [runHooks, spec.hookError, spec.afterHook, spec.hookCalls]
    rcases hx : executeHook h v with ⟨e, out⟩
    cases e <;> simp

/-- Every call made by the validator loop is a validator call on the payload
it was given. -/
theorem runValidators_calls (vs : GoMap AnyFunc) (v : Value) :
    ∀ c ∈ (runValidators vs v).2, ∃ name, c = Call.validator name v := by
  induction vs with
  | nil => simp [runValidators]
  | cons head rest ih =>
    obtain ⟨name, validator⟩ := head
    simp only [runValidators]
    cases executeValidator validator v with
    | some err => simp
    | none =>
      intro c hc
      simp only [List.mem_cons] at hc
      rcases hc with rfl | hc
      · exact ⟨name, rfl⟩
      · exact ih c hc

/-- C18: in a query workflow whose LLM response is `typed`, the hooks
PostLLMRequest, PreValidate and PostValidate run in that order, each present
one on the payload left by the previous one (`afterHook`), absent ones being
skipped. The first hook that fails ends the workflow with the error
"<HookName> hook failed: ..." and the calls stop at that hook; when none
fails, the validators run after the three hooks, on the payload left by the
last one. A typed hook wrapped by `convertHookToAny` receives the conversion
of the payload and leaves its own result as the new payload; a nil hook
stays nil. -/
theorem executeLLMWorkflow_hook_order (E : Env) (skill : BaseSkill) (input : WorkflowInput)
    (client : openai.Client) (response typed : Value)
    (hclient : input.LLMClient = some client)
    (hquery : client.QueryWithSchema
      ({ Role := openai.RoleSystem, Content := skill.GetPrompt } :: input.ChatHistory)
      skill.GetSchema = .ok response)
    (hconv : ConvertToSchema E (anyType E) response = (typed, none)) :
    (∀ err, spec.hookError skill.GetHooks.PostLLMRequest typed = some err →
        executeLLMWorkflow E skill input =
          Outcome.returns
            { result := (Value.null,
                some (GoError.wrapf ("PostLLMRequest hook failed: " ++ err.Error) err)),
              store := input.MemoryStore,
              calls := [Call.queryWithSchema
                  ({ Role := openai.RoleSystem, Content := skill.GetPrompt } :: input.ChatHistory)
                  skill.GetSchema,
                Call.hook "PostLLMRequest" typed] }) ∧
      (spec.hookError skill.GetHooks.PostLLMRequest typed = none →
        ∀ err, spec.hookError skill.GetHooks.PreValidate
            (spec.afterHook skill.GetHooks.PostLLMRequest typed) = some err →
          executeLLMWorkflow E skill input =
            Outcome.returns
              { result := (Value.null,
                  some (GoError.wrapf ("PreValidate hook failed: " ++ err.Error) err)),
                store := input.MemoryStore,
                calls := [Call.queryWithSchema
                    ({ Role := openai.RoleSystem, Content := skill.GetPrompt } ::
                      input.ChatHistory) skill.GetSchema] ++
                  spec.hookCalls "PostLLMRequest" skill.GetHooks.PostLLMRequest typed ++
                  [Call.hook "PreValidate"
                    (spec.afterHook skill.GetHooks.PostLLMRequest typed)] }) ∧
      (spec.hookError skill.GetHooks.PostLLMRequest typed = none →
        spec.hookError skill.GetHooks.PreValidate
            (spec.afterHook skill.GetHooks.PostLLMRequest typed) = none →
        ∀ err, spec.hookError skill.GetHooks.PostValidate
            (spec.afterHook skill.GetHooks.PreValidate
              (spec.afterHook skill.GetHooks.PostLLMRequest typed)) = some err →
          executeLLMWorkflow E skill input =
            Outcome.returns
              { result := (Value.null,
                  some (GoError.wrapf ("PostValidate hook failed: " ++ err.Error) err)),
                store := input.MemoryStore,
                calls := [Call.queryWithSchema
                    ({ Role := openai.RoleSystem, Content := skill.GetPrompt } ::
                      input.ChatHistory) skill.GetSchema] ++
                  spec.hookCalls "PostLLMRequest" skill.GetHooks.PostLLMRequest typed ++
                  spec.hookCalls "PreValidate" skill.GetHooks.PreValidate
                    (spec.afterHook skill.GetHooks.PostLLMRequest typed) ++
                  [Call.hook "PostValidate"
                    (spec.afterHook skill.GetHooks.PreValidate
                      (spec.afterHook skill.GetHooks.PostLLMRequest typed))] }) ∧
      (spec.hookError skill.GetHooks.PostLLMRequest typed = none →
        spec.hookError skill.GetHooks.PreValidate
            (spec.afterHook skill.GetHooks.PostLLMRequest typed) = none →
        spec.hookError skill.GetHooks.PostValidate
            (spec.afterHook skill.GetHooks.PreValidate
              (spec.afterHook skill.GetHooks.PostLLMRequest typed)) = none →
        ∃ eff, executeLLMWorkflow E skill input = Outcome.returns eff ∧
          eff.calls =
            [Call.queryWithSchema
                ({ Role := openai.RoleSystem, Content := skill.GetPrompt } :: input.ChatHistory)
                skill.GetSchema] ++
              spec.hookCalls "PostLLMRequest" skill.GetHooks.PostLLMRequest typed ++
              spec.hookCalls "PreValidate" skill.GetHooks.PreValidate
                (spec.afterHook skill.GetHooks.PostLLMRequest typed) ++
              spec.hookCalls "PostValidate" skill.GetHooks.PostValidate
                (spec.afterHook skill.GetHooks.PreValidate
                  (spec.afterHook skill.GetHooks.PostLLMRequest typed)) ++
              (runValidators skill.GetValidators
                (spec.afterHook skill.GetHooks.PostValidate
                  (spec.afterHook skill.GetHooks.PreValidate
                    (spec.afterHook skill.GetHooks.PostLLMRequest typed)))).2 ∧
          ∀ c ∈ (runValidators skill.GetValidators
              (spec.afterHook skill.GetHooks.PostValidate
                (spec.afterHook skill.GetHooks.PreValidate
                  (spec.afterHook skill.GetHooks.PostLLMRequest typed)))).2,
            ∃ name, c = Call.validator name
              (spec.afterHook skill.GetHooks.PostValidate
                (spec.afterHook skill.GetHooks.PreValidate
                  (spec.afterHook skill.GetHooks.PostLLMRequest typed)))) ∧
      (∀ (T : Type) (ty : GoType T) (f : TypedFunc T) (a : Value) (t t1 : T),
        ConvertToSchema E ty a = (t, none) → f t = Run.returned none t1 →
        ∃ h, convertHookToAny E ty (some f) = some h ∧ executeHook h a = (none, ty.box t1)) ∧
      (∀ (T : Type) (ty : GoType T), convertHookToAny E ty none = none) := by
  refine ⟨?_, ?_, ?_, ?_, ?_, ?_⟩
  · intro err h1
    have hc : spec.hookCalls "PostLLMRequest" skill.GetHooks.PostLLMRequest typed =
        [Call.hook "PostLLMRequest" typed] := by
      cases hP : skill.GetHooks.PostLLMRequest with
      | none => rw [hP] at h1; simp [spec.hookError] at h1
      | some h => rfl
    simp only [executeLLMWorkflow, hclient, hquery, hconv, runHooks_cons, h1, hc]
    rfl
  · intro h1 err h2
    have hc : spec.hookCalls "PreValidate" skill.GetHooks.PreValidate
        (spec.afterHook skill.GetHooks.PostLLMRequest typed) =
        [Call.hook "PreValidate" (spec.afterHook skill.GetHooks.PostLLMRequest typed)] := by
      cases hP : skill.GetHooks.PreValidate with
      | none => rw [hP] at h2; simp [spec.hookError] at h2
      | some h => rfl
    simp only [executeLLMWorkflow, hclient, hquery, hconv, runHooks_cons, h1, h2, hc]
    simp
  · intro h1 h2 err h3
    have hc : spec.hookCalls "PostValidate" skill.GetHooks.PostValidate
        (spec.afterHook skill.GetHooks.PreValidate
          (spec.afterHook skill.GetHooks.PostLLMRequest typed)) =
        [Call.hook "PostValidate" (spec.afterHook skill.GetHooks.PreValidate
          (spec.afterHook skill.GetHooks.PostLLMRequest typed))] := by
      cases hP : skill.GetHooks.PostValidate with
      | none => rw [hP] at h3; simp [spec.hookError] at h3
      | some h => rfl
    simp only [executeLLMWorkflow, hclient, hquery, hconv, runHooks_cons, h1, h2, h3, hc]
    simp
  · intro h1 h2 h3
    have hcalls := runValidators_calls skill.GetValidators
      (spec.afterHook skill.GetHooks.PostValidate
        (spec.afterHook skill.GetHooks.PreValidate
          (spec.afterHook skill.GetHooks.PostLLMRequest typed)))
    simp only [executeLLMWorkflow, hclient, hquery, hconv, runHooks_cons, h1, h2, h3, runHooks]
    rcases hv : runValidators skill.GetValidators
        (spec.afterHook skill.GetHooks.PostValidate
          (spec.afterHook skill.GetHooks.PreValidate
            (spec.afterHook skill.GetHooks.PostLLMRequest typed))) with ⟨e, vcalls⟩
    rw [hv] at hcalls
    cases e with
    | none => exact ⟨_, rfl, by simp, hcalls⟩
    | some err => exact ⟨_, rfl, by simp, hcalls⟩
  · intro T ty f a t t1 hc hf
    refine ⟨_, rfl, ?_⟩
    simp [executeHook, hc, hf]
  · intro T ty
    rfl

theorem executeLLMWorkflow_hook_order_witness :
    (demo.queryInput demo.hookedSkill).LLMClient = some demo.listClient ∧
      ConvertToSchema demo.env (anyType demo.env) (Value.arr []) = (Value.arr [], none) ∧
      ∃ eff, executeLLMWorkflow demo.env demo.hookedSkill (demo.queryInput demo.hookedSkill) =
          Outcome.returns eff ∧
        eff.calls = demo.hookedQueryEffect.calls ∧
        ∀ c ∈ (runValidators demo.hookedSkill.GetValidators demo.hookedPayload).2,
          ∃ name, c = Call.validator name demo.hookedPayload := by
  refine ⟨rfl, rfl, ?_⟩
  obtain ⟨eff, heff, hcalls, hval⟩ :=
    (executeLLMWorkflow_hook_order demo.env demo.hookedSkill (demo.queryInput demo.hookedSkill)
      demo.listClient (Value.arr []) (Value.arr []) rfl rfl rfl).2.2.2.1 rfl rfl rfl
  exact ⟨eff, heff, hcalls.trans rfl, hval⟩

/-! ## Rendering (`renderWorkflowResponse`) -/

/-- The keys of the map built by the loop of `createActionNames` are the keys
it started with and the action names. -/
theorem actionNames_foldl_get (actions : GoMap AnyFunc) (acc : GoMap Value) (k : String) :
    (actions.foldl (fun actionNames e => GoMap.set actionNames e.1 emptyStruct) acc).get k =
      if k ∈ spec.keys actions then some emptyStruct else acc.get k := by
  induction actions generalizing acc with
  | nil => simp [spec.keys]
  | cons head rest ih =>
    simp only [List.foldl_cons, spec.keys, List.map_cons, List.mem_cons]
    rw [ih]
    by_cases hrest : k ∈ spec.keys rest
    · have hrest1 : k ∈ List.map Prod.fst rest := hrest
      simp [hrest, hrest1]
    · have hrest1 : k ∉ List.map Prod.fst rest := hrest
      by_cases hk : k = head.1
      · subst hk
        simp [hrest, GoMap_get_set_self]
      · simp only [hrest, hrest1, hk, if_false, or_self]
        exact GoMap_get_set_ne _ _ _ _ hk

/-- The keys of `createActionNames actions` are exactly the action names. -/
theorem createActionNames_get (actions : GoMap AnyFunc) (k : String) :
    (createActionNames actions).get k =
      if k ∈ spec.keys actions then some emptyStruct else none := by
  unfold createActionNames
  rw [actionNames_foldl_get]
  rfl

/-- What `convertTemplateDataToMap` does: it returns a map whose "actions"
entry is the map of the action names, or the JSON text of the data decodes to
a nil map and the assignment into it panics. -/
theorem convertTemplateDataToMap_cases (E : Env) (templateData : Value)
    (actions : GoMap AnyFunc) :
    (∃ m, convertTemplateDataToMap E templateData actions = Outcome.returns m ∧
        GoMap.get m "actions" = some (Value.obj (createActionNames actions))) ∨
      (convertTemplateDataToMap E templateData actions =
          Outcome.panics "assignment to entry in nil map" ∧
        ∃ jsonBytes, E.jsonMarshal templateData = .ok jsonBytes ∧
          E.jsonUnmarshalMap jsonBytes = .ok none) := by
  have hvia : ∀ data : Value,
      (∃ m, (match E.jsonMarshal data with
          | .error _ =>
              Outcome.returns
                [("success", Value.bool false),
                  ("error", Value.str "Failed to process template data"),
                  ("actions", Value.obj (createActionNames actions))]
          | .ok jsonBytes =>
            match E.jsonUnmarshalMap jsonBytes with
            | .error _ =>
                Outcome.returns
                  [("success", Value.bool false),
                    ("error", Value.str "Failed to process template data"),
                    ("actions", Value.obj (createActionNames actions))]
            | .ok none => Outcome.panics "assignment to entry in nil map"
            | .ok (some dataMap) =>
                Outcome.returns
                  ((GoMap.set dataMap "success" (Value.bool true)).set "actions"
                    (Value.obj (createActionNames actions)))) = Outcome.returns m ∧
          GoMap.get m "actions" = some (Value.obj (createActionNames actions))) ∨
        ((match E.jsonMarshal data with
          | .error _ =>
              Outcome.returns
                [("success", Value.bool false),
                  ("error", Value.str "Failed to process template data"),
                  ("actions", Value.obj (createActionNames actions))]
          | .ok jsonBytes =>
            match E.jsonUnmarshalMap jsonBytes with
            | .error _ =>
                Outcome.returns
                  [("success", Value.bool false),
                    ("error", Value.str "Failed to process template data"),
                    ("actions", Value.obj (createActionNames actions))]
            | .ok none => Outcome.panics "assignment to entry in nil map"
            | .ok (some dataMap) =>
                Outcome.returns
                  ((GoMap.set dataMap "success" (Value.bool true)).set "actions"
                    (Value.obj (createActionNames actions)))) =
            Outcome.panics "assignment to entry in nil map" ∧
          ∃ jsonBytes, E.jsonMarshal data = .ok jsonBytes ∧
            E.jsonUnmarshalMap jsonBytes = .ok none) := by
    intro data
    cases h1 : E.jsonMarshal data with
    | error e => exact Or.inl ⟨_, rfl, rfl⟩
    | ok jsonBytes =>
      dsimp only
      cases h2 : E.jsonUnmarshalMap jsonBytes with
      | error e => exact Or.inl ⟨_, rfl, rfl⟩
      | ok decoded =>
        cases decoded with
        | none => exact Or.inr ⟨rfl, jsonBytes, rfl, h2⟩
        | some dataMap => exact Or.inl ⟨_, rfl, GoMap_get_set_self _ _ _⟩
  cases templateData with
  | obj templateMap =>
    exact Or.inl ⟨_, rfl, GoMap_get_set_self _ _ _⟩
  | struct typ fields =>
    by_cases htyp : typ = "struct { Records []interface {} }"
    · simp only [convertTemplateDataToMap, htyp, if_true]
      exact Or.inl ⟨_, rfl, rfl⟩
    · simp only [convertTemplateDataToMap, htyp, if_false]
      exact hvia _
  | null => exact hvia _
  | bool b => exact hvia _
  | num n => exact hvia _
  | str s => exact hvia _
  | arr xs => exact hvia _

/-- The template that `renderWorkflowResponse` builds by its five appends is
the given template followed by the actions block. -/
theorem actionsBlock_append (tpl w : String) :
    ((((tpl ++ "\n\n---\n\n#### Available Actions\n") ++
          "\x7b\x7bif .success\x7d\x7d\nThe following actions are available:\n") ++
        "\x7b\x7brange $name, $_ := .actions\x7d\x7d\n") ++
      ("- Type `@ber \x7b\x7b$name\x7d\x7d " ++ w ++ "` to execute this action\n")) ++
        "\x7b\x7bend\x7d\x7d\x7b\x7bend\x7d\x7d" = tpl ++ spec.actionsBlock w := by
  simp only [spec.actionsBlock, String.append_assoc]

/-- C19: `renderWorkflowResponse` passes the template and the data to the
renderer unchanged when no skill is attached, when the execution is an action
execution, or when the skill has no action. Otherwise it extends the template
with the actions block, which contains the invocation line
"@ber \x7b\x7b$name\x7d\x7d <workflowId>" with the workflow id of the input, and either
renders the converted data map, whose "actions" entry has exactly the
skill's action names as keys, or panics on the assignment into a nil map,
which happens when the JSON text of the data decodes to a nil map. The data
nil is such an input: with a skill that has actions, `renderWorkflowResponse`
panics. -/
theorem renderWorkflowResponse_actions_block (E : Env) (templateData : Value)
    (templateToUse : String) (executionError : Option GoError) (input : WorkflowInput) :
    renderWorkflowResponse E templateData templateToUse none executionError input =
        Outcome.returns (template.RenderAgentTemplate E templateToUse templateData) ∧
      (∀ skill : BaseSkill, input.IsAction = true ∨ skill.GetActions = [] →
        renderWorkflowResponse E templateData templateToUse (some skill) executionError input =
          Outcome.returns (template.RenderAgentTemplate E templateToUse templateData)) ∧
      (∀ skill : BaseSkill, input.IsAction = false → skill.GetActions ≠ [] →
        (∃ m names, convertTemplateDataToMap E templateData skill.GetActions = Outcome.returns m ∧
            renderWorkflowResponse E templateData templateToUse (some skill) executionError
                input =
              Outcome.returns (template.RenderAgentTemplate E
                (templateToUse ++ spec.actionsBlock input.WorkflowId) (Value.obj m)) ∧
            GoMap.get m "actions" = some (Value.obj names) ∧
            ∀ k, GoMap.get names k =
              if k ∈ spec.keys skill.GetActions then some emptyStruct else none) ∨
          (renderWorkflowResponse E templateData templateToUse (some skill) executionError
                input = Outcome.panics "assignment to entry in nil map" ∧
            ∃ jsonBytes, E.jsonMarshal templateData = .ok jsonBytes ∧
              E.jsonUnmarshalMap jsonBytes = .ok none)) ∧
      (∃ before after, spec.actionsBlock input.WorkflowId =
        before ++ ("@ber \x7b\x7b$name\x7d\x7d " ++ input.WorkflowId) ++ after) ∧
      (E.jsonMarshal Value.null = .ok "null" → E.jsonUnmarshalMap "null" = .ok none →
        ∀ skill : BaseSkill, input.IsAction = false → skill.GetActions ≠ [] →
          renderWorkflowResponse E Value.null templateToUse (some skill) executionError input =
            Outcome.panics "assignment to entry in nil map") ∧
      renderWorkflowResponse demo.env Value.null demo.dnsSkill.GetTemplate (some demo.dnsSkill)
          none (demo.queryInput demo.dnsSkill) =
        Outcome.panics "assignment to entry in nil map" := by
  have hext : ∀ (data : Value) (skill : BaseSkill), input.IsAction = false →
      skill.GetActions ≠ [] →
      renderWorkflowResponse E data templateToUse (some skill) executionError input =
        match convertTemplateDataToMap E data skill.GetActions with
        | Outcome.panics msg => Outcome.panics msg
        | Outcome.returns templateMap =>
            Outcome.returns (template.RenderAgentTemplate E
              (templateToUse ++ spec.actionsBlock input.WorkflowId) (Value.obj templateMap)) := by
    intro data skill hact hne
    have hlen : skill.GetActions.length > 0 := List.length_pos.mpr hne
    simp only [renderWorkflowResponse, hact, hlen, Bool.not_false, decide_True, Bool.and_self,
      if_true, actionsBlock_append]
  refine ⟨rfl, ?_, ?_, ?_, ?_, rfl⟩
  · intro skill h
    rcases h with h | h
    · simp [renderWorkflowResponse, h]
    · simp [renderWorkflowResponse, h]
  · intro skill hact hne
    rw [hext templateData skill hact hne]
    rcases convertTemplateDataToMap_cases E templateData skill.GetActions with
      ⟨m, hm, hget⟩ | ⟨hp, hjson⟩
    · left
      refine ⟨m, createActionNames skill.GetActions, hm, ?_, hget, createActionNames_get _⟩
      rw [hm]
    · right
      refine ⟨?_, hjson⟩
      rw [hp]
  · refine ⟨"\n\n---\n\n#### Available Actions\n" ++
      "\x7b\x7bif .success\x7d\x7d\nThe following actions are available:\n" ++
      "\x7b\x7brange $name, $_ := .actions\x7d\x7d\n" ++ "- Type `",
      "` to execute this action\n" ++ "\x7b\x7bend\x7d\x7d\x7b\x7bend\x7d\x7d", ?_⟩
    have hsplit : ("- Type `@ber \x7b\x7b$name\x7d\x7d " : String) =
        "- Type `" ++ "@ber \x7b\x7b$name\x7d\x7d " := by decide
    simp only [spec.actionsBlock, hsplit, String.append_assoc]
  · intro hmarshal hunmarshal skill hact hne
    rw [hext Value.null skill hact hne]
    simp only [convertTemplateDataToMap, hmarshal, hunmarshal]

/-! ## Conversion (`ConvertToSchema`) -/

/-- C20: `ConvertToSchema[T]` returns a value that already has type `T`
unchanged and without error, and it is idempotent: when
`ConvertToSchema[T](v) = (t, nil)`, converting `t` again gives `(t, nil)`. This
holds for every type for which the assertion `data.(T)` succeeds on the values
of `T` (the non-interface types, such as the named struct types), and for the
interface type `any`, where the nil interface is converted through JSON both
times. -/
theorem ConvertToSchema_idempotent (E : Env) :
    (∀ (T : Type) (ty : GoType T) (data : Value) (typed : T),
        ty.assert data = some typed → ConvertToSchema E ty data = (typed, none)) ∧
      (∀ (T : Type) (ty : GoType T), (∀ x, ty.assert (ty.box x) = some x) →
        ∀ (v : Value) (t : T), ConvertToSchema E ty v = (t, none) →
          ConvertToSchema E ty (ty.box t) = (t, none)) ∧
      (∀ v t : Value, ConvertToSchema E (anyType E) v = (t, none) →
        ConvertToSchema E (anyType E) ((anyType E).box t) = (t, none)) ∧
      (∀ (typ : String) (unmarshal : String → List (String × Value) × Option GoError)
          (v : Value) (t : List (String × Value)),
        ConvertToSchema E (namedStructType typ unmarshal) v = (t, none) →
          ConvertToSchema E (namedStructType typ unmarshal)
            ((namedStructType typ unmarshal).box t) = (t, none)) := by
  have hdirect : ∀ (T : Type) (ty : GoType T) (data : Value) (typed : T),
      ty.assert data = some typed → ConvertToSchema E ty data = (typed, none) := by
    intro T ty data typed h
    simp only [ConvertToSchema, h]
  refine ⟨hdirect, ?_, ?_, ?_⟩
  · intro T ty hbox v t _
    exact hdirect T ty _ t (hbox t)
  · intro v t h
    cases t with
    | null =>
      cases v with
      | null => exact h
      | bool b => simp [ConvertToSchema, anyType] at h
      | num n => simp [ConvertToSchema, anyType] at h
      | str s => simp [ConvertToSchema, anyType] at h
      | arr xs => simp [ConvertToSchema, anyType] at h
      | obj m => simp [ConvertToSchema, anyType] at h
      | struct typ fields => simp [ConvertToSchema, anyType] at h
    | bool b => exact hdirect _ _ _ _ rfl
    | num n => exact hdirect _ _ _ _ rfl
    | str s => exact hdirect _ _ _ _ rfl
    | arr xs => exact hdirect _ _ _ _ rfl
    | obj m => exact hdirect _ _ _ _ rfl
    | struct typ fields => exact hdirect _ _ _ _ rfl
  · intro typ unmarshal v t _
    refine hdirect _ _ _ t ?_
    simp [namedStructType]

/-! ## Guarded execution (`executeHook`, `executeValidator`, `executeAction`) -/

/-- In the embedding, where the client is described by what `QueryWithSchema`
returns (a run in which that function itself panics is not described), with a
client `executeLLMWorkflow` returns, whatever the hooks and the validators
do. -/
theorem executeLLMWorkflow_returns (E : Env) (skill : BaseSkill) (input : WorkflowInput)
    (client : openai.Client) (hclient : input.LLMClient = some client) :
    ∃ eff, executeLLMWorkflow E skill input = Outcome.returns eff := by
  unfold executeLLMWorkflow
  simp only [hclient]
  repeat' split
  all_goals exact ⟨_, rfl⟩

/-- In the embedding, where the skill matcher and the client are described by
what they return, `processWorkflow` returns on every input, whatever the hooks,
the validators and the actions do: the nil client and the nil matcher are
caught by the validation. -/
theorem processWorkflow_returns (E : Env) (input : WorkflowInput) :
    ∃ eff, processWorkflow E input = Outcome.returns eff := by
  unfold processWorkflow
  cases hv : validateWorkflowInput input with
  | some err => exact ⟨_, rfl⟩
  | none =>
    unfold validateWorkflowInput at hv
    split_ifs at hv with h1 h2 h3 h4 h5
    cases hm : input.SkillMatcher with
    | none => simp [hm] at h3
    | some skillMatcher =>
      cases hc : input.LLMClient with
      | none => simp [hc] at h2
      | some client =>
        simp only
        cases hs : skillMatcher input.Message input.Agent with
        | error skillErr => exact ⟨_, rfl⟩
        | ok baseSkill =>
          simp only
          cases hact : input.IsAction with
          | true =>
            simp only [if_true]
            rcases hx : executeActionWorkflow E baseSkill input with ⟨⟨templateData, e⟩, calls⟩
            cases e with
            | none => exact ⟨_, rfl⟩
            | some execErr => exact ⟨_, rfl⟩
          | false =>
            simp only [Bool.false_eq_true, if_false]
            obtain ⟨eff, heff⟩ := executeLLMWorkflow_returns E baseSkill input client hc
            rw [heff]
            rcases hres : eff.result with ⟨templateData, e⟩
            cases e with
            | none => simp only [hres]; exact ⟨_, rfl⟩
            | some execErr => simp only [hres]; exact ⟨_, rfl⟩

/-- C21: when the wrapped operation returns before the timer fires, each of
`executeHook`, `executeValidator` and `executeAction` returns exactly the
value (nil or an error) that the operation returned; when the operation
panics with a value printed as `r` before the timer fires, they return the
ordinary errors "hook panicked: r", "validator panicked: r" and
"action panicked: r". The panic does not reach the caller: the hook loop, the
validator loop and the action path go on with that error as with any other
and return it wrapped, after that one call. -/
theorem callbacks_return_or_recover (E : Env) :
    (∀ (op : Value → Timed Value) (data : Value) (elapsed : Nat) (err : Option GoError)
        (out : Value), op data = Timed.returns elapsed err out → elapsed < callbackTimeout →
        executeHook (fun d => (op d).select) data = (err, out)) ∧
      (∀ (op : Value → Timed Unit) (data : Value) (elapsed : Nat) (err : Option GoError),
        op data = Timed.returns elapsed err () → elapsed < callbackTimeout →
        executeValidator (fun d => (op d).select) data = err ∧
          executeAction (fun d => (op d).select) data = err) ∧
      (∀ (op : Value → Timed Value) (data : Value) (elapsed : Nat) (r : String),
        op data = Timed.panics elapsed r → elapsed < callbackTimeout →
        (executeHook (fun d => (op d).select) data).1 =
          some (GoError.new ("hook panicked: " ++ r))) ∧
      (∀ (op : Value → Timed Unit) (data : Value) (elapsed : Nat) (r : String),
        op data = Timed.panics elapsed r → elapsed < callbackTimeout →
        executeValidator (fun d => (op d).select) data =
            some (GoError.new ("validator panicked: " ++ r)) ∧
          executeAction (fun d => (op d).select) data =
            some (GoError.new ("action panicked: " ++ r))) ∧
      (∀ (hook : HookFunc) (validator action : AnyFunc) (data : Value),
        (∀ err out, hook data = Run.returned err out → executeHook hook data = (err, out)) ∧
        (∀ err, validator data = Run.returned err () → executeValidator validator data = err) ∧
        (∀ err, action data = Run.returned err () → executeAction action data = err) ∧
        (∀ r, hook data = Run.panicked r →
          (executeHook hook data).1 = some (GoError.new ("hook panicked: " ++ r))) ∧
        (∀ r, validator data = Run.panicked r →
          executeValidator validator data = some (GoError.new ("validator panicked: " ++ r))) ∧
        (∀ r, action data = Run.panicked r →
          executeAction action data = some (GoError.new ("action panicked: " ++ r)))) ∧
      (∀ (name : String) (hook : HookFunc) (hs : List (String × Option HookFunc)) (v : Value)
          (r : String), hook v = Run.panicked r →
        runHooks ((name, some hook) :: hs) v =
          (some (GoError.wrapf (name ++ " hook failed: " ++ ("hook panicked: " ++ r))
              (GoError.new ("hook panicked: " ++ r))), v, [Call.hook name v])) ∧
      (∀ (name : String) (validator : AnyFunc) (vs : GoMap AnyFunc) (v : Value) (r : String),
        validator v = Run.panicked r →
        runValidators ((name, validator) :: vs) v =
          (some (GoError.wrapf
              ("Validator " ++ name ++ " failed:\n " ++ ("validator panicked: " ++ r))
              (GoError.new ("validator panicked: " ++ r))), [Call.validator name v])) ∧
      (∀ (skill : BaseSkill) (input : WorkflowInput) (actionName : String)
          (payload typed : Value) (action : AnyFunc) (r : String),
        GetActionDetailsFromMessage input.Message input.MemoryStore =
          (actionName, payload, none) →
        ConvertToSchema E (anyType E) payload = (typed, none) →
        skill.GetHooks.PreAction = none →
        skill.GetActions.get actionName = some action →
        action typed = Run.panicked r →
        executeActionWorkflow E skill input =
          ((Value.null,
            some (GoError.wrapf
              ("action " ++ actionName ++ " failed: " ++ ("action panicked: " ++ r))
              (GoError.new ("action panicked: " ++ r)))),
            [Call.action actionName typed])) := by
  refine ⟨?_, ?_, ?_, ?_, ?_, ?_, ?_, ?_⟩
  · intro op data elapsed err out hop ht
    simp [executeHook, hop, Timed.select, ht]
  · intro op data elapsed err hop ht
    simp [executeValidator, executeAction, hop, Timed.select, ht]
  · intro op data elapsed r hop ht
    simp [executeHook, hop, Timed.select, ht]
  · intro op data elapsed r hop ht
    simp [executeValidator, executeAction, hop, Timed.select, ht]
  · intro hook validator action data
    refine ⟨?_, ?_, ?_, ?_, ?_, ?_⟩
    · intro err out h
      simp [executeHook, h]
    · intro err h
      simp [executeValidator, h]
    · intro err h
      simp [executeAction, h]
    · intro r h
      simp [executeHook, h]
    · intro r h
      simp [executeValidator, h]
    · intro r h
      simp [executeAction, h]
  · intro name hook hs v r h
    simp [runHooks, executeHook, h, GoError.Error]
  · intro name validator vs v r h
    simp [runValidators, executeValidator, h, GoError.Error]
  · intro skill input actionName payload typed action r hg hc hpre hact hrun
    simp [executeActionWorkflow, hg, hc, hpre, hact, executeAction, hrun, GoError.Error]

/-- C22: when the operation has not ended when the 10 second timer fires (it
takes longer, or never ends), `executeHook`, `executeValidator` and
`executeAction` return the errors "hook timed out", "validator timed out" and
"action timed out", whatever the operation would have returned. These are new
errors that wrap nothing; they differ from every wrapped error, from every
package error, from the errors that stand for a panic and from every error
with another message. The operation is called once: the hook loop stops at the
hook that timed out, with that one call, the validator loop likewise, and the
action path returns the wrapped error after the one call of the action. -/
theorem callbacks_time_out (E : Env) :
    callbackTimeout = 10000000000 ∧
      (∀ (op : Value → Timed Value) (data : Value),
        (op data = Timed.never ∨
          (∃ elapsed err out, op data = Timed.returns elapsed err out ∧
            callbackTimeout < elapsed) ∨
          (∃ elapsed r, op data = Timed.panics elapsed r ∧ callbackTimeout < elapsed)) →
        executeHook (fun d => (op d).select) data = (some (GoError.new "hook timed out"), data)) ∧
      (∀ (op : Value → Timed Unit) (data : Value),
        (op data = Timed.never ∨
          (∃ elapsed err, op data = Timed.returns elapsed err () ∧ callbackTimeout < elapsed) ∨
          (∃ elapsed r, op data = Timed.panics elapsed r ∧ callbackTimeout < elapsed)) →
        executeValidator (fun d => (op d).select) data =
            some (GoError.new "validator timed out") ∧
          executeAction (fun d => (op d).select) data = some (GoError.new "action timed out")) ∧
      (∀ r : String, GoError.new "hook timed out" ≠ GoError.new ("hook panicked: " ++ r) ∧
        GoError.new "validator timed out" ≠ GoError.new ("validator panicked: " ++ r) ∧
        GoError.new "action timed out" ≠ GoError.new ("action panicked: " ++ r)) ∧
      (∀ e : GoError,
        (e.Error ≠ "hook timed out" → GoError.new "hook timed out" ≠ e) ∧
        (e.Error ≠ "validator timed out" → GoError.new "validator timed out" ≠ e) ∧
        (e.Error ≠ "action timed out" → GoError.new "action timed out" ≠ e)) ∧
      (∀ (text message name : String) (inner : GoError),
        GoError.new text ≠ GoError.wrapf message inner ∧
          GoError.new text ≠ GoError.pkgVar name message) ∧
      (∀ (name : String) (hook : HookFunc) (hs : List (String × Option HookFunc)) (v : Value),
        hook v = Run.blocked →
        runHooks ((name, some hook) :: hs) v =
          (some (GoError.wrapf (name ++ " hook failed: " ++ "hook timed out")
              (GoError.new "hook timed out")), v, [Call.hook name v])) ∧
      (∀ (name : String) (validator : AnyFunc) (vs : GoMap AnyFunc) (v : Value),
        validator v = Run.blocked →
        runValidators ((name, validator) :: vs) v =
          (some (GoError.wrapf ("Validator " ++ name ++ " failed:\n " ++ "validator timed out")
              (GoError.new "validator timed out")), [Call.validator name v])) ∧
      (∀ (skill : BaseSkill) (input : WorkflowInput) (actionName : String)
          (payload typed : Value) (action : AnyFunc),
        GetActionDetailsFromMessage input.Message input.MemoryStore =
          (actionName, payload, none) →
        ConvertToSchema E (anyType E) payload = (typed, none) →
        skill.GetHooks.PreAction = none →
        skill.GetActions.get actionName = some action →
        action typed = Run.blocked →
        executeActionWorkflow E skill input =
          ((Value.null,
            some (GoError.wrapf ("action " ++ actionName ++ " failed: " ++ "action timed out")
              (GoError.new "action timed out"))),
            [Call.action actionName typed])) := by
  have hlate : ∀ elapsed, callbackTimeout < elapsed → ¬ elapsed < callbackTimeout :=
    fun elapsed h => Nat.not_lt.mpr (Nat.le_of_lt h)
  refine ⟨rfl, ?_, ?_, ?_, ?_, ?_, ?_, ?_, ?_⟩
  · intro op data h
    rcases h with h | ⟨elapsed, err, out, h, ht⟩ | ⟨elapsed, r, h, ht⟩
    · simp [executeHook, h, Timed.select]
    · simp [executeHook, h, Timed.select, hlate elapsed ht]
    · simp [executeHook, h, Timed.select, hlate elapsed ht]
  · intro op data h
    rcases h with h | ⟨elapsed, err, h, ht⟩ | ⟨elapsed, r, h, ht⟩
    · simp [executeValidator, executeAction, h, Timed.select]
    · simp [executeValidator, executeAction, h, Timed.select, hlate elapsed ht]
    · simp [executeValidator, executeAction, h, Timed.select, hlate elapsed ht]
  · intro r
    have key : ∀ (n : Nat) (a b : String) (x : String), a.data.take n ≠ b.data.take n →
        n ≤ b.length → GoError.new a ≠ GoError.new (b ++ x) := by
      intro n a b x hne hlen heq
      injection heq with heq
      apply hne
      rw [heq, String.data_append, List.take_append_of_le_length hlen]
    exact ⟨key 6 _ _ _ (by decide) (by decide), key 11 _ _ _ (by decide) (by decide),
      key 8 _ _ _ (by decide) (by decide)⟩
  · intro e
    refine ⟨?_, ?_, ?_⟩ <;>
    · intro hne heq
      apply hne
      rw [← heq]
      rfl
  · intro text message name inner
    exact ⟨fun h => (by cases h), fun h => (by cases h)⟩
  · intro name hook hs v h
    simp [runHooks, executeHook, h, GoError.Error]
  · intro name validator vs v h
    simp [runValidators, executeValidator, h, GoError.Error]
  · intro skill input actionName payload typed action hg hc hpre hact hrun
    simp [executeActionWorkflow, hg, hc, hpre, hact, executeAction, hrun, GoError.Error]

/-! ## Workflow ids (`generateRandomString`) -/

/-- Every digit that `hex.EncodeToString` writes is a hexadecimal character. -/
theorem hex_digit_isHexDigit (n : Nat) : spec.isHexDigit (hex.digit n) = true := by
  unfold hex.digit
  have h : n % 16 < 16 := Nat.mod_lt _ (by decide)
  generalize n % 16 = m at h
  interval_cases m <;> decide

/-- The text that `hex.EncodeToString` returns has two characters for each
byte, all of them hexadecimal. -/
theorem hex_EncodeToString_spec (src : List Nat) :
    (hex.EncodeToString src).length = 2 * src.length ∧
      ∀ c ∈ (hex.EncodeToString src).data, spec.isHexDigit c = true := by
  constructor
  · unfold hex.EncodeToString
    show (src.flatMap (fun b => [hex.digit (b / 16), hex.digit b])).length = 2 * src.length
    induction src with
    | nil => rfl
    | cons b rest ih =>
      simp only [List.flatMap_cons, List.length_append, List.length_cons, List.length_nil, ih]
      omega
  · intro c hc
    unfold hex.EncodeToString at hc
    simp only [List.mem_flatMap, List.mem_cons, List.mem_singleton, List.not_mem_nil,
      or_false] at hc
    obtain ⟨b, _, hb⟩ := hc
    rcases hb with rfl | rfl
    · exact hex_digit_isHexDigit _
    · exact hex_digit_isHexDigit _

/-- C23 (counterexample): when the random source fails and the clock reads
1700000000000000000 ns, `generateRandomString` returns the hexadecimal
encoding of the 19 decimal digits of that number, which has 38 characters. -/
theorem generateRandomString_fallback_38 :
    demo.envWithoutRandom.randRead = none ∧
      generateRandomString demo.envWithoutRandom =
        "31373030303030303030303030303030303030" ∧
      (generateRandomString demo.envWithoutRandom).length = 38 := by
  decide

/-- C23 (amended): every workflow id consists of hexadecimal characters
(0-9, a-f) only; it has exactly 16 of them when the random source succeeds,
and two for each character of the decimal numeral of the clock reading in
nanoseconds when the time-based fallback is used, so that it has 16 characters
in the fallback only if that numeral has 8 characters. -/
theorem generateRandomString_hex (E : Env) :
    (∀ c ∈ (generateRandomString E).data, spec.isHexDigit c = true) ∧
      (∀ randomBytes, E.randRead = some randomBytes →
        (generateRandomString E).length = 16) ∧
      (E.randRead = none →
        (generateRandomString E).length = 2 * (toString E.nowUnixNano).length ∧
        ((generateRandomString E).length = 16 ↔ (toString E.nowUnixNano).length = 8)) := by
  refine ⟨?_, ?_, ?_⟩
  · intro c hc
    unfold generateRandomString at hc
    cases hr : E.randRead with
    | none =>
      rw [hr] at hc
      exact (hex_EncodeToString_spec _).2 c hc
    | some randomBytes =>
      rw [hr] at hc
      exact (hex_EncodeToString_spec _).2 c hc
  · intro randomBytes hr
    simp only [generateRandomString, hr]
    rw [(hex_EncodeToString_spec _).1]
    simp
  · intro hr
    have hlen : (generateRandomString E).length = 2 * (toString E.nowUnixNano).length := by
      simp only [generateRandomString, hr]
      rw [(hex_EncodeToString_spec _).1, List.length_map]
      rfl
    refine ⟨hlen, ?_⟩
    rw [hlen]
    omega

/-! ## The agent registry -/

/-- Registering a list of agents appends it to the registry. -/
theorem foldl_RegisterAgent (registered : List BERAgent) (globalRegistry : AgentRegistry) :
    GetRegisteredAgents (registered.foldl RegisterAgent globalRegistry) =
      GetRegisteredAgents globalRegistry ++ registered := by
  induction registered generalizing globalRegistry with
  | nil => simp [GetRegisteredAgents]
  | cons a rest ih =>
    simp only [List.foldl_cons]
    rw [ih]
    simp [GetRegisteredAgents, RegisterAgent]

/-- The loop of `GetAgentByTag` returns the first agent with the tag. -/
theorem agentByTagLoop_first (tag : String) (agents : List BERAgent) (i : Nat) (a : BERAgent)
    (hi : agents[i]? = some a) (htag : a.Tag = tag)
    (hfirst : ∀ j b, j < i → agents[j]? = some b → b.Tag ≠ tag) :
    agentByTagLoop tag agents = some a := by
  induction agents generalizing i with
  | nil => simp at hi
  | cons head rest ih =>
    cases i with
    | zero =>
      simp only [List.getElem?_cons_zero, Option.some.injEq] at hi
      subst hi
      simp [agentByTagLoop, htag]
    | succ i =>
      have hhead : head.Tag ≠ tag := hfirst 0 head (Nat.succ_pos i) (by simp)
      simp only [agentByTagLoop, hhead, if_false]
      refine ih i ?_ ?_
      · simpa using hi
      · intro j b hj hb
        exact hfirst (j + 1) b (Nat.succ_lt_succ hj) (by simpa using hb)

/-- The loop of `GetAgentByTag` returns nil exactly when no agent has the
tag. -/
theorem agentByTagLoop_none (tag : String) (agents : List BERAgent) :
    agentByTagLoop tag agents = none ↔ ∀ a ∈ agents, a.Tag ≠ tag := by
  induction agents with
  | nil => simp [agentByTagLoop]
  | cons head rest ih =>
    by_cases h : head.Tag = tag
    · simp [agentByTagLoop, h]
    · simp [agentByTagLoop, h, ih]

/-- C24: after the agents of the list `registered` have been registered in
order in a new registry, `GetRegisteredAgents` returns `registered`; one more
registration appends its agent and leaves the earlier entries as they were;
`GetAgentByTag t` returns the agent with the smallest index whose tag is `t`,
and nil exactly when no registered agent has tag `t`. With two agents that
share a tag the one registered first is returned. -/
theorem registry_append_and_first_match (registered : List BERAgent) :
    GetRegisteredAgents (registered.foldl RegisterAgent NewAgentRegistry) = registered ∧
      (∀ (globalRegistry : AgentRegistry) (a : BERAgent),
        GetRegisteredAgents (RegisterAgent globalRegistry a) =
          GetRegisteredAgents globalRegistry ++ [a]) ∧
      (∀ (globalRegistry : AgentRegistry) (later : List BERAgent) (i : Nat),
        i < (GetRegisteredAgents globalRegistry).length →
        (GetRegisteredAgents (later.foldl RegisterAgent globalRegistry))[i]? =
          (GetRegisteredAgents globalRegistry)[i]?) ∧
      (∀ (t : String) (i : Nat) (a : BERAgent), registered[i]? = some a → a.Tag = t →
        (∀ j b, j < i → registered[j]? = some b → b.Tag ≠ t) →
        GetAgentByTag (registered.foldl RegisterAgent NewAgentRegistry) t = some a) ∧
      (∀ t : String, GetAgentByTag (registered.foldl RegisterAgent NewAgentRegistry) t = none ↔
        ∀ a ∈ registered, a.Tag ≠ t) ∧
      (GetAgentByTag
          ([demo.agentTagged "DNS" "cloudflare", demo.agentTagged "Weather" "weather",
            demo.agentTagged "Shadow" "cloudflare"].foldl RegisterAgent NewAgentRegistry)
          "cloudflare").map BERAgent.Name = some "DNS" := by
  have hall : (registered.foldl RegisterAgent NewAgentRegistry).agents = registered := by
    have h := foldl_RegisterAgent registered NewAgentRegistry
    simpa [GetRegisteredAgents, NewAgentRegistry] using h
  refine ⟨hall, fun _ _ => rfl, ?_, ?_, ?_, by decide⟩
  · intro globalRegistry later i hi
    rw [foldl_RegisterAgent]
    exact List.getElem?_append_left hi
  · intro t i a hi htag hfirst
    unfold GetAgentByTag
    rw [hall]
    exact agentByTagLoop_first t registered i a hi htag hfirst
  · intro t
    unfold GetAgentByTag
    rw [hall]
    exact agentByTagLoop_none t registered

end agent

/-! ## The memory store -/

namespace memory_store

/-- Go `delete(m, k)` removes the entry of `k`. -/
theorem GoMap_get_delete_self {α : Type} (m : GoMap α) (k : String) :
    (m.delete k).get k = none := by
  induction m with
  | nil => rfl
  | cons head rest ih =>
    obtain ⟨k0, v0⟩ := head
    by_cases h : k0 = k
    · simpa [GoMap.delete, GoMap.get, List.filter, h] using ih
    · have hne : (k == k0) = false := by simpa using fun heq => h heq.symm
      simp only [GoMap.delete, GoMap.get, List.filter, ne_eq, h, not_false_eq_true,
        decide_True, List.lookup, hne]
      exact ih

/-- Go `delete(m, k)` leaves the other entries. -/
theorem GoMap_get_delete_ne {α : Type} (m : GoMap α) (k k1 : String) (hne : k1 ≠ k) :
    (m.delete k).get k1 = m.get k1 := by
  induction m with
  | nil => rfl
  | cons head rest ih =>
    obtain ⟨k0, v0⟩ := head
    by_cases h : k0 = k
    · subst h
      have h1 : (k1 == k0) = false := by simpa using hne
      simpa [GoMap.delete, GoMap.get, List.filter, List.lookup, h1] using ih
    · simp only [GoMap.delete, GoMap.get, List.filter, ne_eq, h, not_false_eq_true,
        decide_True, List.lookup]
      cases hk : k1 == k0 with
      | true => rfl
      | false => exact ih

/-- Go `delete(m, k)` on a map without `k` leaves the map as it is. -/
theorem GoMap_delete_absent {α : Type} (m : GoMap α) (k : String) (habs : m.get k = none) :
    m.delete k = m := by
  induction m with
  | nil => rfl
  | cons head rest ih =>
    obtain ⟨k0, v0⟩ := head
    by_cases h : k0 = k
    · subst h
      simp [GoMap.get, List.lookup] at habs
    · have hne : (k == k0) = false := by simpa using fun heq => h heq.symm
      simp only [GoMap.get, List.lookup, hne] at habs
      have hrest : List.filter (fun e : String × α => decide (e.1 ≠ k)) rest = rest := ih habs
      show List.filter (fun e : String × α => decide (e.1 ≠ k)) ((k0, v0) :: rest) =
        (k0, v0) :: rest
      rw [List.filter_eq_self] at hrest ⊢
      intro a ha
      rcases List.mem_cons.mp ha with rfl | ha
      · simpa using h
      · exact hrest a ha

/-- C25: the memory store is a finite map. After `Set(k, v)`, `Get(k)` returns
`(v, true)` and `Get` of every other key returns what it returned before;
after `Delete(k)`, `Get(k)` returns `(nil, false)` and `Get` of every other
key returns what it returned before; `Delete` of an absent key leaves the
store as it is. (`Get` has no effect on the store: it only reads the map.) -/
theorem MemoryStore_finite_map (m : MemoryStore) (k : String) (v : Value) :
    (m.Set k v).Get k = (v, true) ∧
      (∀ k1, k1 ≠ k → (m.Set k v).Get k1 = m.Get k1) ∧
      (m.Delete k).Get k = (Value.null, false) ∧
      (∀ k1, k1 ≠ k → (m.Delete k).Get k1 = m.Get k1) ∧
      ((m.Get k).2 = false → m.Delete k = m) ∧
      ((m.Get k).2 = false ↔ m.data.get k = none) := by
  have habs : (m.Get k).2 = false ↔ m.data.get k = none := by
    unfold MemoryStore.Get
    cases m.data.get k <;> simp
  refine ⟨?_, ?_, ?_, ?_, ?_, habs⟩
  · simp [MemoryStore.Get, MemoryStore.Set, agent.GoMap_get_set_self]
  · intro k1 hne
    simp [MemoryStore.Get, MemoryStore.Set, agent.GoMap_get_set_ne _ _ _ _ hne]
  · simp [MemoryStore.Get, MemoryStore.Delete, GoMap_get_delete_self]
  · intro k1 hne
    simp [MemoryStore.Get, MemoryStore.Delete, GoMap_get_delete_ne _ _ _ hne]
  · intro h
    have := GoMap_delete_absent m.data k (habs.mp h)
    simp [MemoryStore.Delete, this]

end memory_store

/-! ## The validator "Allowed Domains" -/

namespace cloudflare

/-- The function `isAllowedDomain` accepts a name exactly when some allowed
domain is a suffix of it. -/
theorem isAllowedDomain_iff (allowedDomains : List String) (domain : String) :
    isAllowedDomain allowedDomains domain = true ↔
      ∃ a ∈ allowedDomains, strings.HasSuffix domain a = true := by
  induction allowedDomains with
  | nil => simp [isAllowedDomain]
  | cons head rest ih =>
    by_cases h : strings.HasSuffix domain head = true
    · simp [isAllowedDomain, h]
    · simp [isAllowedDomain, h, ih]

/-- The loop of `validateAllowedDomains` returns nil exactly when
`isAllowedDomain` accepts every record name. -/
theorem validateRecords_none_iff (allowedDomains : List String) (records : List DNSRecord) :
    validateRecords allowedDomains records = none ↔
      ∀ r ∈ records, isAllowedDomain allowedDomains r.Name = true := by
  induction records with
  | nil => simp [validateRecords]
  | cons head rest ih =>
    by_cases h : isAllowedDomain allowedDomains head.Name = true
    · simp [validateRecords, h, ih]
    · simp [validateRecords, h]

/-- An error of the loop of `validateAllowedDomains` names the first record
that `isAllowedDomain` rejects. -/
theorem validateRecords_error (allowedDomains : List String) (records : List DNSRecord)
    (err : GoError) (herr : validateRecords allowedDomains records = some err) :
    ∃ before r after, records = before ++ r :: after ∧
      (∀ p ∈ before, isAllowedDomain allowedDomains p.Name = true) ∧
      isAllowedDomain allowedDomains r.Name = false ∧
      err = GoError.new ("invalid domain: " ++ r.Name) := by
  induction records with
  | nil => simp [validateRecords] at herr
  | cons head rest ih =>
    by_cases h : isAllowedDomain allowedDomains head.Name = true
    · simp only [validateRecords, h, Bool.not_true, Bool.false_eq_true, if_false] at herr
      obtain ⟨before, r, after, hrec, hbefore, hr, he⟩ := ih herr
      refine ⟨head :: before, r, after, by simp [hrec], ?_, hr, he⟩
      intro p hp
      rcases List.mem_cons.mp hp with rfl | hp
      · exact h
      · exact hbefore p hp
    · have hfalse : isAllowedDomain allowedDomains head.Name = false := by simpa using h
      simp only [validateRecords, hfalse, Bool.not_false, if_true, Option.some.injEq] at herr
      exact ⟨[], head, rest, rfl, by simp, hfalse, herr.symm⟩

/-- A name that belongs to a zone has the zone name as a suffix. -/
theorem inZone_HasSuffix (name zone : String) (h : spec.inZone name zone = true) :
    strings.HasSuffix name zone = true := by
  unfold spec.inZone at h
  unfold strings.HasSuffix at h ⊢
  simp only [Bool.or_eq_true, decide_eq_true_eq, List.isSuffixOf_iff_suffix] at h ⊢
  rcases h with h | h
  · subst h
    exact List.suffix_refl _
  · rw [String.data_append] at h
    exact (List.suffix_append _ _).trans h

/-- C26: `validateAllowedDomains` accepts a payload exactly when each record
name has some allowed domain as a suffix (`strings.HasSuffix`), and an error
names the first record in payload order without such a suffix. Every payload
whose records all belong to an allowed zone is accepted; but the converse
fails: with the allow-list ["example.com"] the record name "evilexample.com",
which is neither that zone nor a subdomain of it, is accepted. -/
theorem validateAllowedDomains_suffix_match (allowedDomains : List String)
    (schema : DNSRecordSchema) :
    (spec.inZone "evilexample.com" "example.com" = false ∧
        validateAllowedDomains ["example.com"]
          { Records := [demo.recordNamed "evilexample.com"] } = none) ∧
      (validateAllowedDomains allowedDomains schema = none ↔
        ∀ r ∈ schema.Records, ∃ a ∈ allowedDomains, strings.HasSuffix r.Name a = true) ∧
      (∀ err, validateAllowedDomains allowedDomains schema = some err →
        ∃ before r after, schema.Records = before ++ r :: after ∧
          (∀ p ∈ before, ∃ a ∈ allowedDomains, strings.HasSuffix p.Name a = true) ∧
          (∀ a ∈ allowedDomains, strings.HasSuffix r.Name a = false) ∧
          (∀ a ∈ allowedDomains, spec.inZone r.Name a = false) ∧
          err = GoError.new ("invalid domain: " ++ r.Name)) ∧
      ((∀ r ∈ schema.Records, ∃ a ∈ allowedDomains, spec.inZone r.Name a = true) →
        validateAllowedDomains allowedDomains schema = none) := by
  have hacc : validateAllowedDomains allowedDomains schema = none ↔
      ∀ r ∈ schema.Records, ∃ a ∈ allowedDomains, strings.HasSuffix r.Name a = true := by
    unfold validateAllowedDomains
    rw [validateRecords_none_iff]
    simp only [isAllowedDomain_iff]
  refine ⟨⟨by decide, by decide⟩, hacc, ?_, ?_⟩
  · intro err herr
    obtain ⟨before, r, after, hrec, hbefore, hr, he⟩ :=
      validateRecords_error allowedDomains schema.Records err herr
    have hnone : ∀ a ∈ allowedDomains, strings.HasSuffix r.Name a = false := by
      intro a ha
      cases hs : strings.HasSuffix r.Name a with
      | false => rfl
      | true =>
        have : isAllowedDomain allowedDomains r.Name = true :=
          (isAllowedDomain_iff _ _).mpr ⟨a, ha, hs⟩
        rw [hr] at this
        cases this
    refine ⟨before, r, after, hrec, ?_, hnone, ?_, he⟩
    · intro p hp
      exact (isAllowedDomain_iff _ _).mp (hbefore p hp)
    · intro a ha
      cases hz : spec.inZone r.Name a with
      | false => rfl
      | true =>
        have := inZone_HasSuffix _ _ hz
        rw [hnone a ha] at this
        cases this
  · intro hall
    rw [hacc]
    intro r hr
    obtain ⟨a, ha, hz⟩ := hall r hr
    exact ⟨a, ha, inZone_HasSuffix _ _ hz⟩

end cloudflare

namespace agent

open memory_store (MemoryStore)

/-! ## The store after a failed query -/

/-- C27: when `executeLLMWorkflow` returns an error, whatever its cause, the
memory store is the store of the input; and when the store has changed, the
workflow has returned a payload without error, the three hooks have all
succeeded and left that payload, and every validator has accepted it. -/
theorem executeLLMWorkflow_error_preserves_store (E : Env) (skill : BaseSkill)
    (input : WorkflowInput) (eff : Effect (Value × Option GoError))
    (hret : executeLLMWorkflow E skill input = Outcome.returns eff) :
    (∀ err, eff.result.2 = some err → eff.store = input.MemoryStore) ∧
      (eff.store ≠ input.MemoryStore →
        ∃ typed payload hookCalls validatorCalls,
          eff.result = (payload, none) ∧
          runHooks [("PostLLMRequest", skill.GetHooks.PostLLMRequest),
              ("PreValidate", skill.GetHooks.PreValidate),
              ("PostValidate", skill.GetHooks.PostValidate)] typed =
            (none, payload, hookCalls) ∧
          runValidators skill.GetValidators payload = (none, validatorCalls)) := by
  unfold executeLLMWorkflow at hret
  simp only at hret
  cases hc : input.LLMClient with
  | none => simp only [hc] at hret; cases hret
  | some client =>
    simp only [hc] at hret
    cases hq : client.QueryWithSchema
        ({ Role := openai.RoleSystem, Content := skill.GetPrompt } :: input.ChatHistory)
        skill.GetSchema with
    | error err =>
      simp only [hq] at hret
      cases hret
      exact ⟨fun _ _ => rfl, fun h => absurd rfl h⟩
    | ok response =>
      simp only [hq] at hret
      rcases hconv : ConvertToSchema E (anyType E) response with ⟨typed, e⟩
      cases e with
      | some err =>
        simp only [hconv] at hret
        cases hret
        exact ⟨fun _ _ => rfl, fun h => absurd rfl h⟩
      | none =>
        simp only [hconv] at hret
        rcases hh : runHooks [("PostLLMRequest", skill.GetHooks.PostLLMRequest),
            ("PreValidate", skill.GetHooks.PreValidate),
            ("PostValidate", skill.GetHooks.PostValidate)] typed with ⟨he, payload, hookCalls⟩
        cases he with
        | some err =>
          simp only [hh] at hret
          cases hret
          exact ⟨fun _ _ => rfl, fun h => absurd rfl h⟩
        | none =>
          simp only [hh] at hret
          rcases hv : runValidators skill.GetValidators payload with ⟨ve, validatorCalls⟩
          cases ve with
          | some err =>
            simp only [hv] at hret
            cases hret
            exact ⟨fun _ _ => rfl, fun h => absurd rfl h⟩
          | none =>
            simp only [hv] at hret
            cases hret
            refine ⟨fun err herr => ?_, fun _ => ⟨typed, payload, hookCalls, validatorCalls,
              rfl, hh, hv⟩⟩
            cases herr

theorem executeLLMWorkflow_error_preserves_store_witness :
    executeLLMWorkflow demo.env demo.dnsSkill (demo.queryInput demo.dnsSkill) =
        Outcome.returns demo.rejectedQueryEffect ∧
      demo.rejectedQueryEffect.store = (demo.queryInput demo.dnsSkill).MemoryStore :=
  ⟨rfl, (executeLLMWorkflow_error_preserves_store demo.env demo.dnsSkill
    (demo.queryInput demo.dnsSkill) demo.rejectedQueryEffect rfl).1 _ rfl⟩

/-! ## The conversion to `any` -/

/-- The first character of a text that starts with a given text. -/
theorem head_append (a x : String) (c : Char) (h : a.data.head? = some c) :
    (a ++ x).data.head? = some c := by
  rw [String.data_append]
  cases ha : a.data with
  | nil => rw [ha] at h; cases h
  | cons d rest => rw [ha] at h; simpa using h

/-- Two wrapped errors whose messages start with different characters are
different. -/
theorem wrapf_ne_of_head (m1 m2 : String) (e1 e2 : GoError)
    (heq : GoError.wrapf m1 e1 = GoError.wrapf m2 e2) (c1 c2 : Char)
    (h1 : m1.data.head? = some c1) (h2 : m2.data.head? = some c2) (hne : c1 ≠ c2) : False := by
  injection heq with hm _
  rw [hm, h2] at h1
  exact hne (Option.some.inj h1).symm

/-- The errors of `GetActionDetailsFromMessage` are made by `errors.New`. -/
theorem GetActionDetailsFromMessage_error_new (message : String) (store : Option MemoryStore)
    (a : String) (payload : Value) (e : GoError)
    (h : GetActionDetailsFromMessage message store = (a, payload, some e)) :
    ∃ text, e = GoError.new text := by
  unfold GetActionDetailsFromMessage at h
  simp only at h
  repeat' split at h
  all_goals first
    | (cases h; exact ⟨_, rfl⟩)
    | cases h

/-- An error of the hook loop is the wrapped error "<name> hook failed: ..."
of one of the hooks of the list. -/
theorem runHooks_error_form (hs : List (String × Option HookFunc)) (v : Value) (err : GoError)
    (h : (runHooks hs v).1 = some err) :
    ∃ name inner, name ∈ hs.map Prod.fst ∧
      err = GoError.wrapf (name ++ " hook failed: " ++ inner.Error) inner := by
  induction hs generalizing v with
  | nil => simp [runHooks] at h
  | cons head rest ih =>
    obtain ⟨name, hook⟩ := head
    cases hook with
    | none =>
      simp only [runHooks] at h
      obtain ⟨name1, inner, hmem, he⟩ := ih v h
      exact ⟨name1, inner, List.mem_cons_of_mem _ hmem, he⟩
    | some hook =>
      simp only [runHooks] at h
      rcases hx : executeHook hook v with ⟨e, out⟩
      cases e with
      | some inner =>
        simp only [hx, Option.some.injEq] at h
        exact ⟨name, inner, List.mem_cons_self _ _, h.symm⟩
      | none =>
        simp only [hx] at h
        obtain ⟨name1, inner, hmem, he⟩ := ih out h
        exact ⟨name1, inner, List.mem_cons_of_mem _ hmem, he⟩

/-- An error of the validator loop is the wrapped error
"Validator <name> failed: ...". -/
theorem runValidators_error_form (vs : GoMap AnyFunc) (v : Value) (err : GoError)
    (h : (runValidators vs v).1 = some err) :
    ∃ name inner,
      err = GoError.wrapf ("Validator " ++ name ++ " failed:\n " ++ inner.Error) inner := by
  induction vs with
  | nil => simp [runValidators] at h
  | cons head rest ih =>
    obtain ⟨name, validator⟩ := head
    simp only [runValidators] at h
    cases hx : executeValidator validator v with
    | some inner =>
      simp only [hx, Option.some.injEq] at h
      exact ⟨name, inner, h.symm⟩
    | none =>
      simp only [hx] at h
      exact ih h

/-- C28: with `json.Marshal(nil)` giving the text "null" and that text
decoding to nil, `ConvertToSchema[any]` returns `(x, nil)` for every value `x`,
nil included. Hence `executeActionWorkflow` never returns the error
"failed to convert payload: ..." and `executeLLMWorkflow` never returns the
error "failed to convert response: ...". -/
theorem ConvertToSchema_any_identity (E : Env)
    (hmarshal : E.jsonMarshal Value.null = .ok "null")
    (hunmarshal : E.jsonUnmarshalAny "null" = (Value.null, none)) :
    (∀ x : Value, ConvertToSchema E (anyType E) x = (x, none)) ∧
      (∀ (skill : BaseSkill) (input : WorkflowInput) (err : GoError),
        (executeActionWorkflow E skill input).1.2 ≠
          some (GoError.wrapf ("failed to convert payload: " ++ err.Error) err)) ∧
      (∀ (skill : BaseSkill) (input : WorkflowInput) (eff : Effect (Value × Option GoError))
          (err : GoError), executeLLMWorkflow E skill input = Outcome.returns eff →
        eff.result.2 ≠ some (GoError.wrapf ("failed to convert response: " ++ err.Error) err)) := by
  have hid : ∀ x : Value, ConvertToSchema E (anyType E) x = (x, none) := by
    intro x
    cases x with
    | null => simp [ConvertToSchema, anyType, hmarshal, hunmarshal]
    | bool b => rfl
    | num n => rfl
    | str s => rfl
    | arr xs => rfl
    | obj m => rfl
    | struct typ fields => rfl
  refine ⟨hid, ?_, ?_⟩
  · intro skill input err heq
    unfold executeActionWorkflow at heq
    rcases hg : GetActionDetailsFromMessage input.Message input.MemoryStore with
      ⟨actionName, payload, e0⟩
    cases e0 with
    | some e0 =>
      obtain ⟨text, ht⟩ := GetActionDetailsFromMessage_error_new _ _ _ _ _ hg
      simp only [hg, ht] at heq
      cases heq
    | none =>
      simp only [hg, hid payload] at heq
      cases hpre : skill.GetHooks.PreAction with
      | none =>
        simp only [hpre] at heq
        repeat' split at heq
        all_goals simp only at heq
        all_goals cases heq
      | some hook =>
        rcases hx : executeHook hook payload with ⟨e, out⟩
        cases e with
        | some e =>
          simp only [hpre, hx] at heq
          exact wrapf_ne_of_head _ _ _ _ (Option.some.inj heq) 'p' 'f' (head_append _ _ _ rfl)
            (head_append _ _ _ rfl) (by decide)
        | none =>
          simp only [hpre, hx] at heq
          repeat' split at heq
          all_goals simp only at heq
          all_goals cases heq
  · intro skill input eff err hret heq
    unfold executeLLMWorkflow at hret
    simp only at hret
    cases hc : input.LLMClient with
    | none => simp only [hc] at hret; cases hret
    | some client =>
      simp only [hc] at hret
      cases hq : client.QueryWithSchema
          ({ Role := openai.RoleSystem, Content := skill.GetPrompt } :: input.ChatHistory)
          skill.GetSchema with
      | error qerr =>
        simp only [hq] at hret
        cases hret
        exact wrapf_ne_of_head _ _ _ _ (Option.some.inj heq) 'L' 'f' (head_append _ _ _ (head_append _ _ _ rfl))
          (head_append _ _ _ rfl) (by decide)
      | ok response =>
        simp only [hq, hid response] at hret
        rcases hh : runHooks [("PostLLMRequest", skill.GetHooks.PostLLMRequest),
            ("PreValidate", skill.GetHooks.PreValidate),
            ("PostValidate", skill.GetHooks.PostValidate)] response with ⟨he, payload, hookCalls⟩
        cases he with
        | some herr =>
          simp only [hh] at hret
          cases hret
          obtain ⟨name, inner, hmem, hform⟩ :=
            runHooks_error_form _ _ herr (by rw [hh])
          have hP : name.data.head? = some 'P' := by
            simp only [List.map_cons, List.map_nil, List.mem_cons, List.mem_singleton,
              List.not_mem_nil, or_false] at hmem
            rcases hmem with rfl | rfl | rfl <;> rfl
          have heq1 := Option.some.inj heq
          simp only at heq1
          rw [hform] at heq1
          exact wrapf_ne_of_head _ _ _ _ heq1 'P' 'f' (head_append _ _ _ (head_append _ _ _ hP))
            (head_append _ _ _ rfl) (by decide)
        | none =>
          simp only [hh] at hret
          rcases hv : runValidators skill.GetValidators payload with ⟨ve, validatorCalls⟩
          cases ve with
          | some verr =>
            simp only [hv] at hret
            cases hret
            obtain ⟨name, inner, hform⟩ := runValidators_error_form _ _ verr (by rw [hv])
            have heq1 := Option.some.inj heq
            simp only at heq1
            rw [hform] at heq1
            exact wrapf_ne_of_head _ _ _ _ heq1 'V' 'f'
              (head_append _ _ _ (head_append _ _ _ (head_append _ _ _ rfl)))
              (head_append _ _ _ rfl) (by decide)
          | none =>
            simp only [hv] at hret
            cases hret
            cases heq

theorem ConvertToSchema_any_identity_witness :
    ConvertToSchema demo.env (anyType demo.env) Value.null = (Value.null, none) ∧
      ConvertToSchema demo.env (anyType demo.env) demo.payload = (demo.payload, none) :=
  ⟨(ConvertToSchema_any_identity demo.env rfl rfl).1 Value.null,
    (ConvertToSchema_any_identity demo.env rfl rfl).1 demo.payload⟩

/-! ## What `ExecuteWorkflow` ignores -/

/-- With a store, `ExecuteWorkflow` is `processWorkflow` followed by
`renderWorkflowResponse`, both on the input with the generated workflow id and
the mode read from the message. -/
theorem ExecuteWorkflow_unfold (E : Env) (input : WorkflowInput) (st : MemoryStore)
    (hst : input.MemoryStore = some st) :
    ExecuteWorkflow E input =
      match processWorkflow E (spec.normalized E input) with
      | Outcome.panics msg => Outcome.panics msg
      | Outcome.returns eff =>
        match renderWorkflowResponse E eff.result.templateData eff.result.templateToUse
            eff.result.baseSkill eff.result.executionError (spec.normalized E input) with
        | Outcome.panics msg => Outcome.panics msg
        | Outcome.returns (_, some err) =>
            Outcome.returns
              { result :=
                  { Response := "Template rendering failed: " ++ err.Error,
                    Error := some (GoError.wrapf (ErrTemplateFailure.Error ++ ": " ++ err.Error)
                      ErrTemplateFailure) },
                store := storeAfterRender eff.result (spec.normalized E input) eff.store,
                calls := eff.calls }
        | Outcome.returns (formattedResponse, none) =>
            Outcome.returns
              { result := { Response := formattedResponse, Error := eff.result.executionError },
                store := storeAfterRender eff.result (spec.normalized E input) eff.store,
                calls := eff.calls } := by
  obtain ⟨message, ag, history, client, matcher, isAction, store, workflowId⟩ := input
  simp only at hst
  subst hst
  rfl

/-- What `ExecuteWorkflow` takes from the run of `processWorkflow`: the calls,
and the store up to the write of the rendering. -/
theorem ExecuteWorkflow_calls_store (E : Env) (input : WorkflowInput) (st : MemoryStore)
    (hst : input.MemoryStore = some st) (eff : Effect WorkflowResult)
    (hret : ExecuteWorkflow E input = Outcome.returns eff) :
    ∃ eff0, processWorkflow E (spec.normalized E input) = Outcome.returns eff0 ∧
      eff.calls = eff0.calls ∧
      eff.store = storeAfterRender eff0.result (spec.normalized E input) eff0.store := by
  rw [ExecuteWorkflow_unfold E input st hst] at hret
  cases hp : processWorkflow E (spec.normalized E input) with
  | panics msg => rw [hp] at hret; cases hret
  | returns eff0 =>
    rw [hp] at hret
    simp only at hret
    refine ⟨eff0, rfl, ?_⟩
    cases hr : renderWorkflowResponse E eff0.result.templateData eff0.result.templateToUse
        eff0.result.baseSkill eff0.result.executionError (spec.normalized E input) with
    | panics msg => rw [hr] at hret; cases hret
    | returns out =>
      rw [hr] at hret
      obtain ⟨resp, e⟩ := out
      cases e with
      | none => simp only at hret; cases hret; exact ⟨rfl, rfl⟩
      | some err => simp only at hret; cases hret; exact ⟨rfl, rfl⟩

/-- The path that `processWorkflow` takes on a valid input with a matched
skill is the action path when `input.IsAction` holds and the query path
otherwise. -/
theorem processWorkflow_paths (E : Env) (input : WorkflowInput)
    (skillMatcher : String → Option BERAgent → Except GoError BaseSkill) (skill : BaseSkill)
    (hv : validateWorkflowInput input = none) (hm : input.SkillMatcher = some skillMatcher)
    (hs : skillMatcher input.Message input.Agent = .ok skill)
    (eff : Effect workflowProcessResult) (hret : processWorkflow E input = Outcome.returns eff) :
    (input.IsAction = true →
        eff.calls = Call.skillMatcher input.Message :: (executeActionWorkflow E skill input).2 ∧
          eff.store = input.MemoryStore) ∧
      (input.IsAction = false →
        ∃ eff1, executeLLMWorkflow E skill input = Outcome.returns eff1 ∧
          eff.calls = Call.skillMatcher input.Message :: eff1.calls ∧
          eff.store = eff1.store ∧
          ∀ payload, eff1.result = (payload, none) →
            eff.result =
              { templateData := payload, templateToUse := skill.GetTemplate,
                baseSkill := some skill, executionError := none }) := by
  unfold processWorkflow at hret
  simp only [hv, hm, hs] at hret
  constructor
  · intro hact
    simp only [hact, if_true] at hret
    rcases hx : executeActionWorkflow E skill input with ⟨⟨templateData, e⟩, calls⟩
    rw [hx] at hret
    cases e with
    | none => simp only at hret; cases hret; exact ⟨rfl, rfl⟩
    | some err => simp only at hret; cases hret; exact ⟨rfl, rfl⟩
  · intro hact
    simp only [hact, Bool.false_eq_true, if_false] at hret
    cases hx : executeLLMWorkflow E skill input with
    | panics msg => rw [hx] at hret; cases hret
    | returns eff1 =>
      rw [hx] at hret
      simp only at hret
      refine ⟨eff1, rfl, ?_⟩
      rcases hres : eff1.result with ⟨templateData, e⟩
      rw [hres] at hret
      cases e with
      | none =>
        simp only at hret
        cases hret
        refine ⟨rfl, rfl, ?_⟩
        intro payload hp
        cases hp
        rfl
      | some err =>
        simp only at hret
        cases hret
        refine ⟨rfl, rfl, ?_⟩
        intro payload hp
        cases hp

/-- The write of the rendering keeps every key of the store. -/
theorem storeAfterRender_keeps_keys (result : workflowProcessResult) (input : WorkflowInput)
    (st0 : MemoryStore) (k : String) (v : Value) (h : st0.data.get k = some v) :
    ∃ st1 v1, storeAfterRender result input (some st0) = some st1 ∧
      st1.data.get k = some v1 := by
  obtain ⟨templateData, templateToUse, baseSkill, executionError⟩ := result
  cases baseSkill with
  | none => exact ⟨st0, v, rfl, h⟩
  | some skill =>
    cases templateData with
    | obj templateMap =>
      have key : ∀ w x, ∃ v1, (storeResponse st0 skill.GetActions w x).data.get k = some v1 := by
        intro w x
        rw [storeResponse_get]
        split_ifs
        · exact ⟨x, rfl⟩
        · exact ⟨v, h⟩
      simp only [storeAfterRender]
      split_ifs
      · exact ⟨_, _, rfl, (key _ _).choose_spec⟩
      · exact ⟨_, _, rfl, (key _ _).choose_spec⟩
      · exact ⟨st0, v, rfl, h⟩
    | null => exact ⟨st0, v, rfl, h⟩
    | bool b => exact ⟨st0, v, rfl, h⟩
    | num n => exact ⟨st0, v, rfl, h⟩
    | str x => exact ⟨st0, v, rfl, h⟩
    | arr xs => exact ⟨st0, v, rfl, h⟩
    | struct typ fields => exact ⟨st0, v, rfl, h⟩

/-- C29: two inputs that differ only in the fields `IsAction` and `WorkflowId`
give the same run of `ExecuteWorkflow` in the same environment: the same
result, the same store and the same calls, or the same panic. The run is
`processWorkflow` followed by the rendering on the input whose mode is
`IsAction(Message)` and whose workflow id is the generated one: when the
message is an action command the calls are those of the action path, and
otherwise those of the query path; after a successful query the store holds
the payload under the keys "<action>-<generated id>", and the actions block
of the template names the generated id. -/
theorem ExecuteWorkflow_ignores_mode_and_id (E : Env) (input1 input2 : WorkflowInput)
    (hsame : { input1 with IsAction := input2.IsAction, WorkflowId := input2.WorkflowId } =
      input2) :
    ExecuteWorkflow E input1 = ExecuteWorkflow E input2 ∧
      ExecuteWorkflow E input1 =
        ExecuteWorkflow E
          { input1 with IsAction := IsAction input1.Message,
                        WorkflowId := generateRandomString E } ∧
      ExecuteWorkflow E input2 =
        ExecuteWorkflow E
          { input1 with IsAction := IsAction input1.Message,
                        WorkflowId := generateRandomString E } ∧
      ((spec.normalized E input2).IsAction = IsAction input1.Message ∧
        (spec.normalized E input2).WorkflowId = generateRandomString E ∧
        spec.normalized E input2 = spec.normalized E input1) ∧
      (∀ (st : MemoryStore) (eff0 : Effect workflowProcessResult),
        input1.MemoryStore = some st →
        processWorkflow E (spec.normalized E input1) = Outcome.returns eff0 →
        (∀ msg,
          renderWorkflowResponse E eff0.result.templateData eff0.result.templateToUse
              eff0.result.baseSkill eff0.result.executionError (spec.normalized E input1) =
            Outcome.panics msg →
          ExecuteWorkflow E input2 = Outcome.panics msg) ∧
        (∀ formattedResponse,
          renderWorkflowResponse E eff0.result.templateData eff0.result.templateToUse
              eff0.result.baseSkill eff0.result.executionError (spec.normalized E input1) =
            Outcome.returns (formattedResponse, none) →
          ExecuteWorkflow E input2 =
            Outcome.returns
              { result := { Response := formattedResponse, Error := eff0.result.executionError },
                store := storeAfterRender eff0.result (spec.normalized E input1) eff0.store,
                calls := eff0.calls })) ∧
      (∀ (st : MemoryStore) (skillMatcher : String → Option BERAgent → Except GoError BaseSkill)
          (skill : BaseSkill) (eff : Effect WorkflowResult),
        input1.MemoryStore = some st → validateWorkflowInput input1 = none →
        input1.SkillMatcher = some skillMatcher →
        skillMatcher input1.Message input1.Agent = .ok skill →
        ExecuteWorkflow E input2 = Outcome.returns eff →
        (IsAction input1.Message = true →
          eff.calls =
            Call.skillMatcher input1.Message :: (executeActionWorkflow E skill input1).2) ∧
        (IsAction input1.Message = false →
          ∃ eff1, executeLLMWorkflow E skill (spec.normalized E input1) = Outcome.returns eff1 ∧
            eff.calls = Call.skillMatcher input1.Message :: eff1.calls ∧
            ∀ payload, eff1.result = (payload, none) →
              ∀ a ∈ spec.keys skill.GetActions, ∃ st1 v, eff.store = some st1 ∧
                st1.data.get (a ++ "-" ++ generateRandomString E) = some v)) ∧
      (∀ (templateData : Value) (templateToUse : String) (skill : BaseSkill)
          (executionError : Option GoError) (m : GoMap Value),
        IsAction input1.Message = false → skill.GetActions ≠ [] →
        convertTemplateDataToMap E templateData skill.GetActions = Outcome.returns m →
        renderWorkflowResponse E templateData templateToUse (some skill) executionError
            (spec.normalized E input2) =
          Outcome.returns (template.RenderAgentTemplate E
            (templateToUse ++ spec.actionsBlock (generateRandomString E)) (Value.obj m))) := by
  rw [← hsame]
  refine ⟨rfl, rfl, rfl, ⟨rfl, rfl, rfl⟩, ?_, ?_, ?_⟩
  · intro st eff0 hst hp
    have hunfold := ExecuteWorkflow_unfold E input1 st hst
    have hE : ExecuteWorkflow E
        { input1 with IsAction := input2.IsAction, WorkflowId := input2.WorkflowId } =
        ExecuteWorkflow E input1 := rfl
    rw [hE, hunfold, hp]
    refine ⟨?_, ?_⟩
    · intro msg hr
      simp only [hr]
    · intro formattedResponse hr
      simp only [hr]
  · intro st skillMatcher skill eff hst hv hm hs hret
    have hE : ExecuteWorkflow E
        { input1 with IsAction := input2.IsAction, WorkflowId := input2.WorkflowId } =
        ExecuteWorkflow E input1 := rfl
    rw [hE] at hret
    obtain ⟨eff0, hp, hcalls, hstore⟩ := ExecuteWorkflow_calls_store E input1 st hst eff hret
    have hpaths := processWorkflow_paths E (spec.normalized E input1) skillMatcher skill
      hv hm hs eff0 hp
    refine ⟨?_, ?_⟩
    · intro hact
      rw [hcalls]
      exact (hpaths.1 hact).1
    · intro hact
      obtain ⟨eff1, hx, hc1, hs1, hres⟩ := hpaths.2 hact
      refine ⟨eff1, hx, by rw [hcalls]; exact hc1, ?_⟩
      intro payload hpayload a ha
      have hstore1 := (executeLLMWorkflow_store E skill (spec.normalized E input1) eff1 hx).1
        payload hpayload
      have hmemk : a ++ "-" ++ generateRandomString E ∈
          skill.GetActions.map (fun e => e.1 ++ "-" ++ generateRandomString E) := by
        simp only [spec.keys, List.mem_map] at ha ⊢
        obtain ⟨e, he, rfl⟩ := ha
        exact ⟨e, he, rfl⟩
      have hlen : skill.GetActions.length > 0 := by
        cases hacts : skill.GetActions with
        | nil => rw [hacts] at ha; simp [spec.keys] at ha
        | cons x xs => simp
      have hst1 : eff0.store = some (storeResponse st skill.GetActions (generateRandomString E)
          payload) := by
        rw [hs1, hstore1]
        show Option.map _ input1.MemoryStore = _
        rw [hst]
        simp only [Option.map_some', hlen, if_true]
        rfl
      rw [hstore, hst1]
      have hget : (storeResponse st skill.GetActions (generateRandomString E) payload).data.get
          (a ++ "-" ++ generateRandomString E) = some payload := by
        rw [storeResponse_get, if_pos hmemk]
      exact storeAfterRender_keeps_keys _ _ _ _ _ hget
  · intro templateData templateToUse skill executionError m hact hne hconv
    have hlen : skill.GetActions.length > 0 := List.length_pos.mpr hne
    have hmode : (spec.normalized E
        { input1 with IsAction := input2.IsAction, WorkflowId := input2.WorkflowId }).IsAction =
        false := hact
    simp only [renderWorkflowResponse, hmode, hlen, Bool.not_false, decide_True, Bool.and_self,
      if_true, hconv, actionsBlock_append]
    rfl

theorem ExecuteWorkflow_ignores_mode_and_id_witness :
    ExecuteWorkflow demo.env (demo.queryInput demo.hookedSkill) =
        ExecuteWorkflow demo.env
          { demo.queryInput demo.hookedSkill with IsAction := true, WorkflowId := "ab12cd34" } ∧
      ExecuteWorkflow demo.env
          { demo.objectQueryInput with IsAction := true, WorkflowId := "ab12cd34" } =
        Outcome.returns demo.objectQueryEffect ∧
      ExecuteWorkflow demo.env demo.objectQueryInput = Outcome.returns demo.objectQueryEffect ∧
      ∃ eff, ExecuteWorkflow demo.env
            { demo.actionInput demo.hookedSkill with IsAction := false, WorkflowId := "" } =
          Outcome.returns eff ∧
        eff.result = demo.hookedActionResult.result ∧
        eff.calls = demo.hookedActionResult.calls :=
  ⟨(ExecuteWorkflow_ignores_mode_and_id demo.env (demo.queryInput demo.hookedSkill)
      { demo.queryInput demo.hookedSkill with IsAction := true, WorkflowId := "ab12cd34" }
      rfl).1,
    rfl,
    ((ExecuteWorkflow_ignores_mode_and_id demo.env demo.objectQueryInput
      { demo.objectQueryInput with IsAction := true, WorkflowId := "ab12cd34" } rfl).1).trans
      rfl,
    ⟨demo.hookedActionResult, rfl, rfl, rfl⟩⟩

/-! ## The hook PreLLMRequest -/

/-- C30: the PreLLMRequest hook of a skill is never run. Replacing it by any
hook, or removing it, changes neither what `executeLLMWorkflow` nor what
`executeActionWorkflow` does; when the skill matcher returns the skill with
the hook replaced, `processWorkflow` returns the same template data, template,
error, store and calls, the attached skill being the skill with the hook
replaced, and `ExecuteWorkflow` does the same. For a typed skill, replacing
the typed hook replaces the PreLLMRequest hook that `GetHooks` returns and
nothing else. -/
theorem PreLLMRequest_never_invoked (E : Env) (hook : Option HookFunc) :
    (∀ (skill : BaseSkill) (input : WorkflowInput),
        executeLLMWorkflow E (spec.withPreLLMRequest hook skill) input =
          executeLLMWorkflow E skill input) ∧
      (∀ (skill : BaseSkill) (input : WorkflowInput),
        executeActionWorkflow E (spec.withPreLLMRequest hook skill) input =
          executeActionWorkflow E skill input) ∧
      (∀ (input : WorkflowInput) (eff : Effect workflowProcessResult),
        processWorkflow E input = Outcome.returns eff →
        processWorkflow E (spec.withMatcherPreLLMRequest hook input) =
          Outcome.returns (spec.resultWithPreLLMRequest hook eff)) ∧
      (∀ input : WorkflowInput,
        ExecuteWorkflow E (spec.withMatcherPreLLMRequest hook input) =
          ExecuteWorkflow E input) ∧
      (∀ (T : Type) (ty : GoType T) (s : Skill T) (f : Option (TypedFunc T)),
        Skill.toBaseSkill E ty { s with Hooks := { s.Hooks with PreLLMRequest := f } } =
          spec.withPreLLMRequest (convertHookToAny E ty f) (Skill.toBaseSkill E ty s)) := by
  have hproc : ∀ (input : WorkflowInput) (eff : Effect workflowProcessResult),
      processWorkflow E input = Outcome.returns eff →
      processWorkflow E (spec.withMatcherPreLLMRequest hook input) =
        Outcome.returns (spec.resultWithPreLLMRequest hook eff) := by
    intro input eff h
    have hval : validateWorkflowInput (spec.withMatcherPreLLMRequest hook input) =
        validateWorkflowInput input := by
      unfold validateWorkflowInput spec.withMatcherPreLLMRequest
      cases input.SkillMatcher <;> rfl
    unfold processWorkflow at h ⊢
    rw [hval]
    cases hv : validateWorkflowInput input with
    | some err =>
      simp only [hv] at h
      cases h
      rfl
    | none =>
      simp only [hv] at h
      cases hm : input.SkillMatcher with
      | none =>
        simp only [hm] at h
        cases h
      | some skillMatcher =>
        simp only [hm] at h
        simp only [spec.withMatcherPreLLMRequest, hm, Option.map_some']
        cases hs : skillMatcher input.Message input.Agent with
        | error skillErr =>
          simp only [hs] at h
          cases h
          rfl
        | ok baseSkill =>
          simp only [hs] at h
          simp only
          have hxa : executeActionWorkflow E (spec.withPreLLMRequest hook baseSkill)
              { input with SkillMatcher := some (fun message ag =>
                  match skillMatcher message ag with
                  | .error err => .error err
                  | .ok skill => .ok (spec.withPreLLMRequest hook skill)) } =
              executeActionWorkflow E baseSkill input := rfl
          have hxl : executeLLMWorkflow E (spec.withPreLLMRequest hook baseSkill)
              { input with SkillMatcher := some (fun message ag =>
                  match skillMatcher message ag with
                  | .error err => .error err
                  | .ok skill => .ok (spec.withPreLLMRequest hook skill)) } =
              executeLLMWorkflow E baseSkill input := rfl
          rw [hxa, hxl]
          cases hact : input.IsAction with
          | true =>
            simp only [hact, if_true] at h
            simp only [if_true]
            rcases hr : executeActionWorkflow E baseSkill input with ⟨⟨templateData, e⟩, calls⟩
            rw [hr] at h
            cases e with
            | none =>
              simp only at h
              cases h
              rfl
            | some execErr =>
              simp only at h
              cases h
              rfl
          | false =>
            simp only [hact, Bool.false_eq_true, if_false] at h
            simp only [Bool.false_eq_true, if_false]
            cases hr : executeLLMWorkflow E baseSkill input with
            | panics msg =>
              rw [hr] at h
              cases h
            | returns eff1 =>
              rw [hr] at h
              simp only at h ⊢
              rcases hres : eff1.result with ⟨templateData, e⟩
              rw [hres] at h
              cases e with
              | none =>
                simp only at h
                cases h
                rfl
              | some execErr =>
                simp only at h
                cases h
                rfl
  refine ⟨fun _ _ => rfl, fun _ _ => rfl, hproc, ?_, fun _ _ _ _ => rfl⟩
  intro input
  unfold ExecuteWorkflow
  simp only
  cases hstore : memory_store.MemoryStore.GetAllData input.MemoryStore with
  | panics msg =>
    have hstore1 : memory_store.MemoryStore.GetAllData
        (spec.withMatcherPreLLMRequest hook input).MemoryStore = Outcome.panics msg := hstore
    simp only [hstore1]
  | returns all =>
    have hstore1 : memory_store.MemoryStore.GetAllData
        (spec.withMatcherPreLLMRequest hook input).MemoryStore = Outcome.returns all := hstore
    simp only [hstore1]
    obtain ⟨eff, heff⟩ := processWorkflow_returns E
      { input with WorkflowId := generateRandomString E, IsAction := IsAction input.Message }
    have heff1 := hproc _ eff heff
    have heff2 : processWorkflow E
        { spec.withMatcherPreLLMRequest hook input with
          WorkflowId := generateRandomString E,
          IsAction := IsAction (spec.withMatcherPreLLMRequest hook input).Message } =
        Outcome.returns (spec.resultWithPreLLMRequest hook eff) := heff1
    rw [heff2, heff]
    obtain ⟨⟨templateData, templateToUse, baseSkill, executionError⟩, store, calls⟩ := eff
    cases baseSkill with
    | none => rfl
    | some skill => cases templateData <;> cases store <;> rfl

end agent

end BerOS
